import Mathlib

/-!
The classification engine and the scan pipeline of depviz

A shallow embedding of `internal/classify/classifier.go` and of the scan
pipeline of `internal/scanner` (`walk.go`, `go.go`, `treesitter.go`,
`multi.go`), followed by theorems that settle the specification's statements
about them.

Go strings are embedded as Lean `String`s and handled through their character
lists. Library code that the repository only calls (`regexp`, `go/parser`,
the tree-sitter query engine, the file system) is a parameter of the
definitions that use it.
-/

namespace Depviz

/-! ## `internal/config`: the types the classifier reads -/

/-- Category of an import (`config.Category`). -/
inductive Category where
  | Stdlib
  | Internal
  | Private
  | External
  deriving DecidableEq, Repr

/-- Pattern lists for classification (`config.ClassifyRules`). -/
structure ClassifyRules where
  Internal : List String := []
  Private : List String := []
  deriving Repr

/-- A `.depviz.yml` configuration (`config.Config`). -/
structure Config where
  Language : String
  Port : Int := 0
  Output : String := ""
  Exclude : List String := []
  Classify : ClassifyRules := {}
  deriving Repr

/-! ## The `strings` functions the repository calls -/

/-- Go `strings.HasPrefix`. -/
def stringsHasPrefix (s pre : String) : Bool :=
  pre.data.isPrefixOf s.data

/-- Go `strings.HasSuffix`. -/
def stringsHasSuffix (s suf : String) : Bool :=
  suf.data.isSuffixOf s.data

/-- Go `strings.TrimPrefix`: `s` without the leading `pre`, or `s` itself when
`s` does not start with `pre`. -/
def stringsTrimPrefix (s pre : String) : String :=
  if stringsHasPrefix s pre then ⟨s.data.drop pre.data.length⟩ else s

/-- Go `strings.Contains`: `substr` occurs somewhere within `s`. -/
def stringsContains (s substr : String) : Bool :=
  s.data.tails.any (fun t => substr.data.isPrefixOf t)

/-! ## `regexp`, as far as the classifier uses it -/

/-- The part of Go's `regexp` package the classifier calls: a type of compiled
expressions, `regexp.Compile` (which may fail) and `(*Regexp).MatchString`. -/
structure RegexpLib where
  Regexp : Type
  Compile : String → Except String Regexp
  MatchString : Regexp → String → Bool

/-! ## `internal/classify/classifier.go` -/

/-- Categorises import paths based on config rules (`classify.Classifier`). -/
structure Classifier (R : RegexpLib) where
  lang : String
  internal : List R.Regexp
  private_ : List R.Regexp

/-- Loop of `compileAll`: compiles the patterns from left to right and stops at
the first one `regexp.Compile` rejects. -/
def compileAll (R : RegexpLib) : List String → Except String (List R.Regexp)
  | [] => .ok []
  | p :: ps =>
    match R.Compile p with
    | .error err => .error err
    | .ok re =>
      match compileAll R ps with
      | .error err => .error err
      | .ok res => .ok (re :: res)

/-- Compiles the patterns from `cfg` and returns a ready classifier
(`classify.New`). -/
def New (R : RegexpLib) (cfg : Config) : Except String (Classifier R) :=
  match compileAll R cfg.Classify.Internal with
  | .error err => .error err
  | .ok internal =>
    match compileAll R cfg.Classify.Private with
    | .error err => .error err
    | .ok priv => .ok { lang := cfg.Language, internal := internal, private_ := priv }

/-- The table `nodeBuiltins`; the keys of the Go map, all mapped to `true`. -/
def nodeBuiltins : List String :=
  ["assert", "assert/strict", "async_hooks",
   "buffer", "child_process", "cluster",
   "console", "constants", "crypto",
   "dgram", "diagnostics_channel", "dns", "dns/promises",
   "domain", "events",
   "fs", "fs/promises",
   "http", "http2", "https",
   "inspector", "module", "net", "os",
   "path", "path/posix", "path/win32",
   "perf_hooks", "process", "punycode", "querystring",
   "readline", "readline/promises", "repl",
   "stream", "stream/consumers", "stream/promises", "stream/web",
   "string_decoder", "sys", "test",
   "timers", "timers/promises",
   "tls", "trace_events", "tty",
   "url", "util", "util/types",
   "v8", "vm", "wasi", "worker_threads", "zlib"]

/-- Stdlib test per language (`isStdlibFor`). -/
def isStdlibFor (imp lang : String) : Bool :=
  if lang = "js" then
    decide (stringsTrimPrefix imp "node:" ∈ nodeBuiltins)
  else if lang = "go" then
    !stringsContains imp "."
  else
    false

/-- Does one of the compiled patterns match `s` (`matchesAny`). -/
def matchesAny (R : RegexpLib) (s : String) : List R.Regexp → Bool
  | [] => false
  | re :: rest => if R.MatchString re s then true else matchesAny R s rest

/-- Categorises an import using the given language for stdlib detection
(`ClassifyWithLang`). -/
def ClassifyWithLang {R : RegexpLib} (c : Classifier R) (imp lang : String) : Category :=
  if isStdlibFor imp lang then Category.Stdlib
  else if matchesAny R imp c.internal then Category.Internal
  else if matchesAny R imp c.private_ then Category.Private
  else Category.External

/-- Category of an import path under the classifier's own language
(`Classify`). -/
def Classify {R : RegexpLib} (c : Classifier R) (imp : String) : Category :=
  ClassifyWithLang c imp c.lang

/-- A small pattern engine for concrete evaluation: a pattern is valid unless
it is the unterminated class `[invalid`, and a compiled pattern matches the
strings that start with it. -/
def toyRegexp : RegexpLib where
  Regexp := String
  Compile := fun p => if p = "[invalid" then .error "missing closing ]" else .ok p
  MatchString := fun re s => stringsHasPrefix s re

/-- Specification-side reading of "at least one pattern of the list matches the
path": some supplied pattern compiles to an expression that matches it. -/
def anyPatternMatches (R : RegexpLib) (patterns : List String) (imp : String) : Bool :=
  patterns.any fun p =>
    match R.Compile p with
    | .ok re => R.MatchString re imp
    | .error _ => false

/-- Configuration of `TestClassify_JS`, with patterns for `toyRegexp`. -/
def jsTestConfig : Config :=
  { Language := "js", Classify := { Internal := ["./", "@/"], Private := ["."] } }

/-! ## `internal/scanner/scanner.go` -/

/-- How a module is imported (`scanner.ImportKind`). -/
inductive ImportKind where
  | ImportDefault
  | ImportNamed
  | ImportNamespace
  | ImportSideEffect
  | ImportRequire
  | ImportDynamic
  | ImportReExport
  | ImportReExportAll
  | ImportType
  | ImportBlank
  | ImportDot
  | ImportAlias
  deriving DecidableEq, Repr

/-- What is imported from a module (`scanner.ImportDetail`). -/
structure ImportDetail where
  Path : String
  Kind : ImportKind
  Names : List String := []
  Alias : String := ""
  Snippet : String := ""
  Line : Nat := 0
  deriving DecidableEq, Repr

/-- How a symbol is exported (`scanner.ExportKind`). -/
inductive ExportKind where
  | ExportFunction
  | ExportClass
  | ExportConst
  | ExportVar
  | ExportType
  | ExportInterface
  | ExportDefault
  | ExportNamed
  | ExportReExport
  deriving DecidableEq, Repr

/-- A single exported symbol (`scanner.ExportDetail`). -/
structure ExportDetail where
  Name : String
  Kind : ExportKind
  Private : Bool := false
  Line : Nat := 0
  deriving DecidableEq, Repr

/-- A file and its imports (`scanner.FileImports`). -/
structure FileImports where
  File : String
  Lang : String := ""
  Imports : List String := []
  Details : List ImportDetail := []
  Exports : List ExportDetail := []
  Lines : Nat := 0
  deriving DecidableEq, Repr

/-- The key set of the map built by `toSet`; `skip[name]` is membership. -/
def toSet (ss : List String) : List String := ss

/-! ## The file system under the scan root, and `filepath.Walk` -/

/-- What `os.Lstat` tells the walk callback: base name and directory flag. -/
structure FileInfo where
  Name : String
  IsDir : Bool
  deriving DecidableEq, Repr

/-- An entry of the directory tree: a non-directory, a directory with its
entries in the (sorted) order `readDirNames` lists them, a directory whose
listing fails, or an entry whose `Lstat` fails. -/
inductive Entry where
  | file (name : String)
  | dir (name : String) (children : List Entry)
  | dirErr (name : String) (err : String)
  | lstatErr (name : String) (err : String)
  deriving Repr

/-- Base name of an entry. -/
def Entry.name : Entry → String
  | .file n => n
  | .dir n _ => n
  | .dirErr n _ => n
  | .lstatErr n _ => n

/-- Is the entry a directory (`info.IsDir()`). -/
def Entry.isDir : Entry → Bool
  | .file _ => false
  | .dir _ _ => true
  | .dirErr _ _ => true
  | .lstatErr _ _ => false

/-- Result of `Lstat` on an entry. -/
def Entry.info (e : Entry) : FileInfo := { Name := e.name, IsDir := e.isDir }

/-- Error values a walk callback returns: the sentinel `filepath.SkipDir` or
any other error. -/
inductive WalkError where
  | SkipDir
  | other (err : String)
  deriving DecidableEq, Repr

/-- A walk callback: from path, file info (absent when `Lstat` failed) and the
incoming error to the paths it sends on the channel and the error it
returns. -/
abbrev WalkFunc := String → Option FileInfo → Option String → List String × Option WalkError

/-- Go `filepath.Join` of a directory path and an entry name, for a clean
directory path. -/
def filepathJoin (dir name : String) : String := dir ++ "/" ++ name

mutual
/-- The recursion of `filepath.Walk` (`filepath.walk`) on an entry whose
`Lstat` succeeded: the callback is called on the entry, and on a readable
directory for which the callback returned no error the entries are walked in
order. Returns the paths the callback sent and the error of the walk. -/
def walk (fn : WalkFunc) (path : String) : Entry → List String × Option WalkError
  | .file n => fn path (some { Name := n, IsDir := false }) none
  | .lstatErr _ err => fn path none (some err)
  | .dirErr n err => fn path (some { Name := n, IsDir := true }) (some err)
  | .dir n children =>
    match fn path (some { Name := n, IsDir := true }) none with
    | (sent, some err) => (sent, some err)
    | (sent, none) =>
      let r := walkEntries fn path children
      (sent ++ r.1, r.2)
/-- The loop of `filepath.walk` over the names of a directory. -/
def walkEntries (fn : WalkFunc) (path : String) : List Entry → List String × Option WalkError
  | [] => ([], none)
  | .lstatErr n err :: rest =>
    match fn (filepathJoin path n) none (some err) with
    | (sent, some (.other e)) => (sent, some (.other e))
    | (sent, _) =>
      let r := walkEntries fn path rest
      (sent ++ r.1, r.2)
  | .file n :: rest =>
    match walk fn (filepathJoin path n) (.file n) with
    | (sent, some err) => (sent, some err)
    | (sent, none) =>
      let r := walkEntries fn path rest
      (sent ++ r.1, r.2)
  | .dirErr n err :: rest =>
    match walk fn (filepathJoin path n) (.dirErr n err) with
    | (sent, some (.other e)) => (sent, some (.other e))
    | (sent, _) =>
      let r := walkEntries fn path rest
      (sent ++ r.1, r.2)
  | .dir n children :: rest =>
    match walk fn (filepathJoin path n) (.dir n children) with
    | (sent, some (.other e)) => (sent, some (.other e))
    | (sent, _) =>
      let r := walkEntries fn path rest
      (sent ++ r.1, r.2)
end

/-- Go `filepath.Walk`: `Lstat` of the root (`.error` when it fails), then the
recursive walk; a `SkipDir` that reaches the top is no error. -/
def filepathWalk (root : String) (tree : Except String Entry) (fn : WalkFunc) :
    List String × Option String :=
  let r := match tree with
    | .error err => fn root none (some err)
    | .ok e => walk fn root e
  match r with
  | (sent, some (.other e)) => (sent, some e)
  | (sent, _) => (sent, none)

/-! ## `internal/scanner/walk.go` -/

/-- The callback `walkAndParse` hands to `filepath.Walk`: an incoming error is
returned, a directory whose name is in `skip` is skipped, and a path the
inclusion predicate accepts is sent on `paths`. -/
def walkerFunc (skip : List String) (shouldInclude : String → FileInfo → Bool) : WalkFunc :=
  fun path info err =>
    match err, info with
    | some e, _ => ([], some (.other e))
    | none, none => ([], none)
    | none, some info =>
      if info.IsDir && decide (info.Name ∈ skip) then ([], some .SkipDir)
      else if shouldInclude path info then ([path], none)
      else ([], none)

/-- What a worker or the walker sends to the collector (the local type
`result`): a record or nothing, and an error or nothing. -/
structure result where
  fi : Option FileImports
  err : Option String
  deriving DecidableEq, Repr

/-- Extracts imports from a single file, from the root and the path; no record
means the file is skipped (`parseFunc`). -/
abbrev parseFunc := String → String → result

/-- The collector's loop `for r := range results` over the results in the
order they are received, starting from the records gathered so far: the first
error ends the scan with no records, a record is appended, an empty result is
passed over, and when the channel is closed the records are returned. -/
def collect : List result → List FileImports → List FileImports × Option String
  | [], files => (files, none)
  | r :: rest, files =>
    match r.err with
    | some e => ([], some e)
    | none =>
      match r.fi with
      | some fi => collect rest (files ++ [fi])
      | none => collect rest files

/-- State of the goroutines of `walkAndParse`: the paths the walker has still to
send, the error `filepath.Walk` ends with, the results of the workers that are
blocked sending on `results`, and the collector's `files`. -/
structure Pipeline where
  paths : List String
  walkErr : Option String
  pending : List result
  files : List FileImports
  deriving Repr

/-- One rendezvous on a channel: a free worker receives the next path and
parses it, the collector receives the result of the `i`-th blocked worker, or
the collector receives the walker's error. -/
inductive Event where
  | dispatch
  | deliver (i : Nat)
  | walkerError
  deriving DecidableEq, Repr

/-- Outcome of an event: `walkAndParse` has returned, or the goroutines go on. -/
inductive StepResult where
  | done (files : List FileImports) (err : Option String)
  | next (st : Pipeline)

/-- The effect of one event; an event that cannot happen in the state (no
path left, all `numWorkers` workers busy, no such blocked worker, walker not
finished) leaves the state as it is. -/
def step (numWorkers : Nat) (parse : String → result) (ev : Event) (st : Pipeline) :
    StepResult :=
  match ev with
  | .dispatch =>
    match st.paths with
    | [] => .next st
    | p :: rest =>
      if st.pending.length < numWorkers then
        .next { st with paths := rest, pending := st.pending ++ [parse p] }
      else .next st
  | .deliver i =>
    match st.pending[i]? with
    | none => .next st
    | some r =>
      match r.err with
      | some e => .done [] (some e)
      | none =>
        match r.fi with
        | some fi => .next { st with pending := st.pending.eraseIdx i, files := st.files ++ [fi] }
        | none => .next { st with pending := st.pending.eraseIdx i }
  | .walkerError =>
    match st.paths, st.walkErr with
    | [], some e => .done [] (some e)
    | _, _ => .next st

/-- What the walker sends on `results` when `filepath.Walk` has returned: its
error, or nothing. -/
def walkerResult : Option String → List result
  | some e => [{ fi := none, err := some e }]
  | none => []

/-- Everything that is still to reach the collector in a state: the results of
the blocked workers, the results of parsing the paths not yet sent, and the
walker's error. -/
def outstanding (parse : String → result) (st : Pipeline) : List result :=
  st.pending ++ st.paths.map parse ++ walkerResult st.walkErr

/-- The run that completes a state with one worker at a time: the blocked
workers deliver in order, each remaining path is parsed and delivered, then the
walker's error if any, and the channel is closed. -/
def drain (parse : String → result) (st : Pipeline) : List FileImports × Option String :=
  collect (outstanding parse st) st.files

/-- A run of the goroutines under a schedule: the events happen in the order
given and the run is then completed by `drain`. -/
def run (numWorkers : Nat) (parse : String → result) :
    List Event → Pipeline → List FileImports × Option String
  | [], st => drain parse st
  | ev :: rest, st =>
    match step numWorkers parse ev st with
    | .done files err => (files, err)
    | .next st' => run numWorkers parse rest st'

/-- Walks `root`, filters with `shouldInclude` and fans out parsing to
`numWorkers` goroutines (`walkAndParse`). `numWorkers` is `runtime.NumCPU()`,
which is positive; `sched` is the order in which the channel operations of
this run happen; the result is Go's pair of the record slice (`nil` is the
empty list) and the error. -/
def walkAndParse (numWorkers : Nat) (sched : List Event) (tree : Except String Entry)
    (root : String) (skip : List String) (shouldInclude : String → FileInfo → Bool)
    (parse : parseFunc) : List FileImports × Option String :=
  let w := filepathWalk root tree (walkerFunc skip shouldInclude)
  run numWorkers (parse root) sched
    { paths := w.1, walkErr := w.2, pending := [], files := [] }

/-! ## `internal/scanner/go.go` -/

/-- An identifier of the Go syntax tree with the line of its position. -/
structure Ident where
  Name : String
  Line : Nat
  deriving DecidableEq, Repr

/-- An import declaration (`ast.ImportSpec`): the local name if any, the
quoted path literal, and its position resolved by the file set (byte offsets
of start and end, line of the start). -/
structure ImportSpec where
  Name : Option String
  PathValue : String
  PosOffset : Nat
  EndOffset : Nat
  Line : Nat
  deriving DecidableEq, Repr

/-- Keyword of a general declaration (`token.IMPORT`, `CONST`, `TYPE`, `VAR`). -/
inductive Token where
  | IMPORT
  | CONST
  | TYPE
  | VAR
  deriving DecidableEq, Repr

/-- A specification inside a general declaration (`ast.Spec`). -/
inductive Spec where
  | ImportSpec (s : Depviz.ImportSpec)
  | TypeSpec (Name : Ident)
  | ValueSpec (Names : List Ident)
  deriving Repr

/-- A top-level declaration (`ast.Decl`): a function with or without receiver
and the line of its position, a general declaration, or a bad declaration. -/
inductive Decl where
  | FuncDecl (hasRecv : Bool) (Name : Ident) (Line : Nat)
  | GenDecl (Tok : Token) (Specs : List Spec)
  | BadDecl
  deriving Repr

/-- The parts of `ast.File` that `parseGoFile` reads. -/
structure AstFile where
  Imports : List ImportSpec
  Decls : List Decl
  deriving Repr

/-! ## Syntax trees of tree-sitter, and the libraries around the scanners -/

/-- A node of a tree-sitter syntax tree: its kind, the byte range of its text,
the row of its start position, and all its children in order. -/
inductive Node where
  | mk (Kind : String) (StartByte EndByte StartRow : Nat) (Children : List Node)
  deriving Repr

/-- Kind of a node (`Node.Kind`). -/
def Node.Kind : Node → String
  | .mk k _ _ _ _ => k

/-- Start of the node's text (`Node.StartByte`). -/
def Node.StartByte : Node → Nat
  | .mk _ s _ _ _ => s

/-- End of the node's text (`Node.EndByte`). -/
def Node.EndByte : Node → Nat
  | .mk _ _ e _ _ => e

/-- Row of the node's start position, counted from 0
(`Node.StartPosition().Row`). -/
def Node.StartRow : Node → Nat
  | .mk _ _ _ r _ => r

/-- Children of the node, `Child(0)` to `Child(ChildCount()-1)`. -/
def Node.Children : Node → List Node
  | .mk _ _ _ _ cs => cs

/-- The `i`-th child, if there is one (`Node.Child`). -/
def Node.Child (n : Node) (i : Nat) : Option Node := n.Children[i]?

/-- A node together with its ancestors, the parent first: what `Parent()`
walks through. -/
structure NodeAt where
  node : Node
  ancestors : List Node
  deriving Repr

/-- A capture of a query match: index of the capture name and captured node. -/
structure Capture where
  Index : Nat
  Node : NodeAt
  deriving Repr

/-- The three grammars `languageForExt` chooses from. -/
inductive Language where
  | Javascript
  | Typescript
  | TSX
  deriving DecidableEq, Repr

/-- The machine and the libraries around the scanners: `os.ReadFile` (a file's
bytes as a string, one character per byte), `filepath.Rel` with its error
dropped, `parser.ParseFile` on a path and its content,
`(*ast.Ident).IsExported`, and of tree-sitter `NewQuery` of the import query
for a grammar (its error if any), `Parser.SetLanguage` (its error if any),
`Parser.Parse` (the root node), `Query.CaptureIndexForName` and the matches of
the import query, each a list of captures. -/
structure Env where
  ReadFile : String → Except String String
  Rel : String → String → String
  ParseFile : String → String → Except String AstFile
  IsExported : String → Bool
  NewQuery : Language → Option String
  SetLanguage : Language → Option String
  Parse : Language → String → Node
  CaptureIndexForName : Language → String → Option Nat
  Matches : Language → Node → String → List (List Capture)

/-- Go `strings.Trim`: `s` without the leading and trailing characters that
are in `cutset`. -/
def stringsTrim (s cutset : String) : String :=
  ⟨((s.data.dropWhile fun c => decide (c ∈ cutset.data)).reverse.dropWhile
      fun c => decide (c ∈ cutset.data)).reverse⟩

/-- The slice `src[start:end]` as a string (for `start ≤ end ≤ len(src)`). -/
def sliceString (src : String) (start stop : Nat) : String :=
  ⟨(src.data.drop start).take (stop - start)⟩

/-- Go `bytes.Count(src, []byte{'\n'})`. -/
def countNewlines (src : String) : Nat := src.data.count '\n'

/-- Body of the import loop of `parseGoFile`: the detail of one import. -/
def goImportDetail (src : String) (imp : ImportSpec) : ImportDetail :=
  let modPath := stringsTrim imp.PathValue "\""
  let d : ImportDetail := { Path := modPath, Kind := ImportKind.ImportNamed }
  let d : ImportDetail :=
    match imp.Name with
    | none => d
    | some name =>
      if name = "_" then { d with Kind := ImportKind.ImportBlank }
      else if name = "." then { d with Kind := ImportKind.ImportDot }
      else { d with Kind := ImportKind.ImportAlias, Alias := name }
  let d : ImportDetail :=
    if imp.EndOffset ≤ src.length then
      { d with Snippet := sliceString src imp.PosOffset imp.EndOffset }
    else d
  { d with Line := imp.Line }

/-- Inner loop over `s.Names` of a value specification. -/
def goValueExports (E : Env) (kind : ExportKind) : List Ident → List ExportDetail
  | [] => []
  | name :: rest =>
    if name.Name = "_" then goValueExports E kind rest
    else { Name := name.Name, Kind := kind, Private := !E.IsExported name.Name,
           Line := name.Line } :: goValueExports E kind rest

/-- Loop over `d.Specs` of a general declaration. -/
def goSpecExports (E : Env) (tok : Token) : List Spec → List ExportDetail
  | [] => []
  | .ImportSpec _ :: rest => goSpecExports E tok rest
  | .TypeSpec name :: rest =>
    { Name := name.Name, Kind := ExportKind.ExportType, Private := !E.IsExported name.Name,
      Line := name.Line } :: goSpecExports E tok rest
  | .ValueSpec names :: rest =>
    goValueExports E (if tok = Token.CONST then ExportKind.ExportConst else ExportKind.ExportVar)
      names ++ goSpecExports E tok rest

/-- Loop over `file.Decls`: the export records, methods skipped. -/
def goDeclExports (E : Env) : List Decl → List ExportDetail
  | [] => []
  | .FuncDecl hasRecv name line :: rest =>
    if hasRecv then goDeclExports E rest
    else { Name := name.Name, Kind := ExportKind.ExportFunction,
           Private := !E.IsExported name.Name, Line := line } :: goDeclExports E rest
  | .GenDecl tok specs :: rest => goSpecExports E tok specs ++ goDeclExports E rest
  | .BadDecl :: rest => goDeclExports E rest

/-- Reads and parses one Go file and extracts its imports and top-level
declarations (`parseGoFile`). -/
def parseGoFile (E : Env) : parseFunc := fun root path =>
  match E.ReadFile path with
  | .error err => { fi := none, err := some err }
  | .ok src =>
    match E.ParseFile path src with
    | .error err => { fi := none, err := some err }
    | .ok file =>
      let imports := file.Imports.map fun imp => stringsTrim imp.PathValue "\""
      let details := file.Imports.map (goImportDetail src)
      let exports := goDeclExports E file.Decls
      if imports.length = 0 ∧ exports.length = 0 then { fi := none, err := none }
      else
        { fi := some { File := E.Rel root path, Lang := "go", Imports := imports,
                       Details := details, Exports := exports,
                       Lines := countNewlines src + 1 },
          err := none }

/-- Inclusion predicate of `GoScanner.Scan`. -/
def goInclude (path : String) (info : FileInfo) : Bool :=
  !info.IsDir && stringsHasSuffix path ".go" && !stringsHasSuffix path "_test.go"

/-- Scan of a root by the Go scanner (`GoScanner.Scan`). -/
def GoScannerScan (E : Env) (cfg : Config) (numWorkers : Nat) (sched : List Event)
    (tree : Except String Entry) (root : String) : List FileImports × Option String :=
  walkAndParse numWorkers sched tree root (toSet cfg.Exclude) goInclude (parseGoFile E)

/-! ## `internal/scanner/treesitter.go` -/

/-- Go `filepath.Ext`: the suffix beginning at the final dot in the final
element of the path, empty if there is no dot. -/
def filepathExt (path : String) : String :=
  let rev := path.data.reverse
  let tail := rev.takeWhile fun c => c != '.' && c != '/'
  match rev.drop tail.length with
  | '.' :: _ => ⟨'.' :: tail.reverse⟩
  | _ => ""

/-- Grammar for a file extension (`languageForExt`). -/
def languageForExt (ext : String) : Language :=
  if ext = ".ts" then Language.Typescript
  else if ext = ".tsx" then Language.TSX
  else Language.Javascript

/-- Removes the surrounding quotes from the text of a string node
(`stripQuotes`). -/
def stripQuotes (s : String) : String :=
  if 2 ≤ s.length then ⟨(s.data.drop 1).take (s.length - 2)⟩ else s

/-- Source text of a node (`nodeText`). -/
def nodeText (src : String) (n : Node) : String :=
  sliceString src n.StartByte n.EndByte

/-- First child of the given kind (`childByKind`). -/
def childByKind (node : Node) (kind : String) : Option Node :=
  node.Children.find? fun c => c.Kind = kind

/-- Has the node a child of the given kind (`hasChildKind`). -/
def hasChildKind (node : Node) (kind : String) : Bool :=
  (childByKind node kind).isSome

/-- Texts of the children of the given specifier kind (`collectSpecifiers`). -/
def collectSpecifiers (src : String) (parent : Node) (specKind : String) : List String :=
  (parent.Children.filter fun c => c.Kind = specKind).map (nodeText src)

/-- Loop of `collectNames` over the children of an import clause. -/
def collectNamesLoop (src : String) : List Node → List String
  | [] => []
  | child :: rest =>
    if child.Kind = "identifier" then nodeText src child :: collectNamesLoop src rest
    else if child.Kind = "named_imports" then
      collectSpecifiers src child "import_specifier" ++ collectNamesLoop src rest
    else collectNamesLoop src rest

/-- All bound names of an import clause (`collectNames`). -/
def collectNames (src : String) (clause : Node) : List String :=
  collectNamesLoop src clause.Children

/-- Loop of `extractImportStatement` over the children of the import clause:
the first identifier, named-imports or namespace child decides. -/
def importClauseLoop (src : String) (clause : Node) (isType : Bool) (modPath : String) :
    List Node → ImportDetail
  | [] => { Path := modPath, Kind := ImportKind.ImportSideEffect }
  | child :: rest =>
    if child.Kind = "identifier" then
      { Path := modPath,
        Kind := if isType then ImportKind.ImportType else ImportKind.ImportDefault,
        Names := collectNames src clause }
    else if child.Kind = "named_imports" then
      { Path := modPath,
        Kind := if isType then ImportKind.ImportType else ImportKind.ImportNamed,
        Names := collectSpecifiers src child "import_specifier" }
    else if child.Kind = "namespace_import" then
      { Path := modPath,
        Kind := if isType then ImportKind.ImportType else ImportKind.ImportNamespace,
        Alias := match childByKind child "identifier" with
          | some id => nodeText src id
          | none => "" }
    else importClauseLoop src clause isType modPath rest

/-- Kind and bindings of an import statement (`extractImportStatement`). -/
def extractImportStatement (src : String) (stmt : Node) (modPath : String) : ImportDetail :=
  let isType := hasChildKind stmt "type"
  match childByKind stmt "import_clause" with
  | none =>
    { Path := modPath,
      Kind := if isType then ImportKind.ImportType else ImportKind.ImportSideEffect }
  | some clause => importClauseLoop src clause isType modPath clause.Children

/-- Kind and names of a re-export statement (`extractExportStatement`). -/
def extractExportStatement (src : String) (stmt : Node) (modPath : String) : ImportDetail :=
  if hasChildKind stmt "*" then
    { Path := modPath, Kind := ImportKind.ImportReExportAll }
  else
    match childByKind stmt "export_clause" with
    | some ec =>
      { Path := modPath, Kind := ImportKind.ImportReExport,
        Names := collectSpecifiers src ec "export_specifier" }
    | none => { Path := modPath, Kind := ImportKind.ImportReExport }

/-- Text of the nearest statement-level node at or above the node, the node's
own text if there is none (`stmtSnippet`). -/
def stmtSnippet (src : String) (node : NodeAt) : String :=
  match (node.node :: node.ancestors).find? fun n =>
      n.Kind = "lexical_declaration" ∨ n.Kind = "variable_declaration" ∨
        n.Kind = "expression_statement" with
  | some n => nodeText src n
  | none => nodeText src node.node

/-- Walks up from the captured string node to the statement and extracts kind
and bindings (`extractDetail`). -/
def extractDetail (src : String) (pathNode : NodeAt) (modPath : String) : ImportDetail :=
  match pathNode.ancestors with
  | [] =>
    { Path := modPath, Kind := ImportKind.ImportSideEffect,
      Line := pathNode.node.StartRow + 1 }
  | stmt :: up =>
    if stmt.Kind = "arguments" then
      match up with
      | [] => { Path := modPath, Kind := ImportKind.ImportRequire, Line := stmt.StartRow + 1 }
      | call :: up2 =>
        if call.Kind = "call_expression" then
          let s := stmtSnippet src { node := call, ancestors := up2 }
          let line := call.StartRow + 1
          match call.Child 0 with
          | some fn =>
            if fn.Kind = "import" then
              { Path := modPath, Kind := ImportKind.ImportDynamic, Snippet := s, Line := line }
            else
              { Path := modPath, Kind := ImportKind.ImportRequire, Snippet := s, Line := line }
          | none =>
            { Path := modPath, Kind := ImportKind.ImportRequire, Snippet := s, Line := line }
        else { Path := modPath, Kind := ImportKind.ImportRequire, Line := stmt.StartRow + 1 }
    else
      let snippet := nodeText src stmt
      let line := stmt.StartRow + 1
      if stmt.Kind = "import_statement" then
        { extractImportStatement src stmt modPath with Snippet := snippet, Line := line }
      else if stmt.Kind = "export_statement" then
        { extractExportStatement src stmt modPath with Snippet := snippet, Line := line }
      else
        { Path := modPath, Kind := ImportKind.ImportSideEffect, Snippet := snippet,
          Line := line }

/-- Loop over the children of an export clause: one record of the given kind
per export specifier that has a first child. -/
def exportSpecifiers (src : String) (kind : ExportKind) (line : Nat) :
    List Node → List ExportDetail
  | [] => []
  | spec :: rest =>
    if spec.Kind = "export_specifier" then
      match spec.Child 0 with
      | some id =>
        { Name := nodeText src id, Kind := kind, Line := line } ::
          exportSpecifiers src kind line rest
      | none => exportSpecifiers src kind line rest
    else exportSpecifiers src kind line rest

/-- Loop over the children of a lexical declaration: one `const` record per
variable declarator that has an identifier child. -/
def lexicalDeclarators (src : String) (line : Nat) : List Node → List ExportDetail
  | [] => []
  | decl :: rest =>
    if decl.Kind = "variable_declarator" then
      match childByKind decl "identifier" with
      | some id =>
        { Name := nodeText src id, Kind := ExportKind.ExportConst, Line := line } ::
          lexicalDeclarators src line rest
      | none => lexicalDeclarators src line rest
    else lexicalDeclarators src line rest

/-- Records of one child of a local export statement (the `switch` of
`extractExports`). -/
def exportChild (src : String) (isDefault : Bool) (line : Nat) (child : Node) :
    List ExportDetail :=
  if child.Kind = "function_declaration" then
    [{ Name := match childByKind child "identifier" with
         | some id => nodeText src id
         | none => "default",
       Kind := if isDefault then ExportKind.ExportDefault else ExportKind.ExportFunction,
       Line := line }]
  else if child.Kind = "class_declaration" then
    [{ Name := match childByKind child "type_identifier" with
         | some id => nodeText src id
         | none => "default",
       Kind := if isDefault then ExportKind.ExportDefault else ExportKind.ExportClass,
       Line := line }]
  else if child.Kind = "lexical_declaration" then
    lexicalDeclarators src line child.Children
  else if child.Kind = "type_alias_declaration" then
    match childByKind child "type_identifier" with
    | some id => [{ Name := nodeText src id, Kind := ExportKind.ExportType, Line := line }]
    | none => []
  else if child.Kind = "interface_declaration" then
    match childByKind child "type_identifier" with
    | some id => [{ Name := nodeText src id, Kind := ExportKind.ExportInterface, Line := line }]
    | none => []
  else if child.Kind = "export_clause" then
    exportSpecifiers src ExportKind.ExportNamed line child.Children
  else []

/-- Loop over the children of a local export statement. -/
def exportChildren (src : String) (isDefault : Bool) (line : Nat) :
    List Node → List ExportDetail
  | [] => []
  | child :: rest => exportChild src isDefault line child ++ exportChildren src isDefault line rest

/-- Has the export statement a function, class or lexical declaration child
(`hasExportDecl`). -/
def hasExportDecl (node : Node) : Bool :=
  node.Children.any fun c =>
    c.Kind = "function_declaration" ∨ c.Kind = "class_declaration" ∨
      c.Kind = "lexical_declaration"

/-- Body of the loop of `extractExports` for one top-level node, from the
records gathered so far to the records after it. -/
def exportStatement (src : String) (exports : List ExportDetail) (node : Node) :
    List ExportDetail :=
  if node.Kind ≠ "export_statement" then exports
  else
    match childByKind node "string" with
    | some srcStr =>
      let line := node.StartRow + 1
      let name := "* from " ++ stripQuotes (nodeText src srcStr)
      match childByKind node "export_clause" with
      | some clause =>
        exports ++ exportSpecifiers src ExportKind.ExportReExport line clause.Children
      | none => exports ++ [{ Name := name, Kind := ExportKind.ExportReExport, Line := line }]
    | none =>
      let isDefault := hasChildKind node "default"
      let line := node.StartRow + 1
      let exports := exports ++ exportChildren src isDefault line node.Children
      if (isDefault && exports.length = 0) || (isDefault && !hasExportDecl node) then
        if exports.any fun e => e.Kind = ExportKind.ExportDefault then exports
        else exports ++ [{ Name := "default", Kind := ExportKind.ExportDefault, Line := line }]
      else exports

/-- Walks the top-level export statements (`extractExports`). -/
def extractExports (src : String) (root : Node) : List ExportDetail :=
  root.Children.foldl (exportStatement src) []

/-- The captures named `path` of all matches, in order. -/
def pathCaptures (pathIdx : Nat) (found : List (List Capture)) : List Capture :=
  (found.map fun m => m.filter fun cap => cap.Index = pathIdx).flatten

/-- Reads and parses one file with the grammar and the query of its extension
and extracts imports and exports (`TreeSitterScanner.parseFile`). -/
def parseFile (E : Env) : parseFunc := fun root path =>
  match E.ReadFile path with
  | .error err => { fi := none, err := some ("read " ++ path ++ ": " ++ err) }
  | .ok src =>
    let lang := languageForExt (filepathExt path)
    match E.SetLanguage lang with
    | some err => { fi := none, err := some ("set language for " ++ path ++ ": " ++ err) }
    | none =>
      let tree := E.Parse lang src
      match E.CaptureIndexForName lang "path" with
      | none => { fi := none, err := some "capture @path not found in query" }
      | some pathIdx =>
        let caps := pathCaptures pathIdx (E.Matches lang tree src)
        let imports := caps.map fun cap => stripQuotes (nodeText src cap.Node.node)
        let details := caps.map fun cap =>
          extractDetail src cap.Node (stripQuotes (nodeText src cap.Node.node))
        let exports := extractExports src tree
        if imports.length = 0 ∧ exports.length = 0 then { fi := none, err := none }
        else
          { fi := some { File := E.Rel root path, Lang := "js", Imports := imports,
                         Details := details, Exports := exports,
                         Lines := countNewlines src + 1 },
            err := none }

/-- Inclusion predicate of `TreeSitterScanner.Scan`. -/
def tsInclude (path : String) (info : FileInfo) : Bool :=
  !info.IsDir && decide (filepathExt path ∈ [".js", ".jsx", ".ts", ".tsx", ".mjs"])

/-- The loop of `TreeSitterScanner.Scan` that compiles the query for each
extension: the first failure is the error of the scan. (Go ranges over a map,
so which failure comes first is not fixed; the list order stands for one such
order.) -/
def compileQueries (E : Env) : List String → Option String
  | [] => none
  | ext :: rest =>
    match E.NewQuery (languageForExt ext) with
    | some err => some ("query compile for " ++ ext ++ ": " ++ err)
    | none => compileQueries E rest

/-- Scan of a root by the tree-sitter scanner (`TreeSitterScanner.Scan`). -/
def TreeSitterScannerScan (E : Env) (cfg : Config) (numWorkers : Nat) (sched : List Event)
    (tree : Except String Entry) (root : String) : List FileImports × Option String :=
  match compileQueries E [".js", ".jsx", ".ts", ".tsx", ".mjs"] with
  | some err => ([], some err)
  | none => walkAndParse numWorkers sched tree root (toSet cfg.Exclude) tsInclude (parseFile E)

/-! ## `internal/scanner/multi.go` -/

/-- Scan by both scanners, the Go records first (`MultiScanner.Scan`); each of
the two scans has its own schedule. -/
def MultiScannerScan (E : Env) (cfg : Config) (numWorkers : Nat) (schedGo schedJs : List Event)
    (tree : Except String Entry) (root : String) : List FileImports × Option String :=
  match GoScannerScan E cfg numWorkers schedGo tree root with
  | (_, some err) => ([], some err)
  | (goFiles, none) =>
    match TreeSitterScannerScan E cfg numWorkers schedJs tree root with
    | (_, some err) => ([], some err)
    | (jsFiles, none) => (goFiles ++ jsFiles, none)

/-! ## Specification-side definitions and concrete inputs -/

mutual
/-- All entries at and below an entry that `Lstat` can read, in the order of the
walk, each with its path, its file info and the names of the directories on
the way from the root down to it (the entry itself left out). -/
def entriesOf (path : String) (above : List String) :
    Entry → List (String × FileInfo × List String)
  | .file n => [(path, { Name := n, IsDir := false }, above)]
  | .lstatErr _ _ => []
  | .dirErr n _ => [(path, { Name := n, IsDir := true }, above)]
  | .dir n children =>
    (path, { Name := n, IsDir := true }, above) :: entriesOfList path (above ++ [n]) children
/-- The entries at and below the entries of a directory. -/
def entriesOfList (path : String) (above : List String) :
    List Entry → List (String × FileInfo × List String)
  | [] => []
  | e :: rest =>
    entriesOf (filepathJoin path e.name) above e ++ entriesOfList path above rest
end

/-- The claim's condition on an entry: a non-directory that satisfies the
inclusion predicate, with no directory on the way from the root to it whose
base name is in the prune set. -/
def specYields (skip : List String) (shouldInclude : String → FileInfo → Bool)
    (x : String × FileInfo × List String) : Bool :=
  !x.2.1.IsDir && shouldInclude x.1 x.2.1 && x.2.2.all fun n => decide (n ∉ skip)

/-- The condition the walker applies: the entry satisfies the inclusion
predicate, it is not itself a directory whose base name is in the prune set,
and no directory on the way from the root to it has such a name. -/
def walkerYields (skip : List String) (shouldInclude : String → FileInfo → Bool)
    (x : String × FileInfo × List String) : Bool :=
  shouldInclude x.1 x.2.1 && !(x.2.1.IsDir && decide (x.2.1.Name ∈ skip)) &&
    x.2.2.all fun n => decide (n ∉ skip)

/-- All entries of the tree under the scan root that `Lstat` can read (none
when the root itself cannot be read). -/
def treeEntries (root : String) : Except String Entry → List (String × FileInfo × List String)
  | .ok e => entriesOf root [] e
  | .error _ => []

/-- The paths the walker inside `walkAndParse` sends to the workers. -/
def walkerPaths (root : String) (tree : Except String Entry) (skip : List String)
    (shouldInclude : String → FileInfo → Bool) : List String :=
  (filepathWalk root tree (walkerFunc skip shouldInclude)).1

/-- A root `r` that holds the directory `d`, which holds `x.go`. -/
def nestedTree : Except String Entry :=
  .ok (.dir "r" [.dir "d" [.file "x.go"]])

/-- A machine for concrete runs: every file but `r/bad.go` reads as a Go file
that imports `fmt`, `r/empty.go` parses to a file without imports and
declarations, the relative path is the path without the root and the
separator, and the tree-sitter matcher finds nothing. -/
def exampleEnv : Env where
  ReadFile := fun p =>
    if p = "r/bad.go" then .error "open r/bad.go: permission denied"
    else .ok "package main\n\nimport \"fmt\"\n"
  Rel := fun root path => ⟨path.data.drop (root.length + 1)⟩
  ParseFile := fun p _ =>
    if p = "r/empty.go" then .ok { Imports := [], Decls := [] }
    else .ok { Imports := [{ Name := none, PathValue := "\"fmt\"", PosOffset := 21,
                             EndOffset := 26, Line := 3 }],
               Decls := [] }
  IsExported := fun n =>
    match n.data with
    | c :: _ => c.isUpper
    | [] => false
  NewQuery := fun _ => none
  SetLanguage := fun _ => none
  Parse := fun _ _ => Node.mk "program" 0 0 0 []
  CaptureIndexForName := fun _ _ => some 0
  Matches := fun _ _ _ => []

/-- A root directory `r` with the two Go files `a.go` and `b.go`. -/
def twoGoFiles : Except String Entry :=
  .ok (.dir "r" [.file "a.go", .file "b.go"])

/-- A root directory `r` with the Go file `a.go` and the unreadable `bad.go`. -/
def oneBadGoFile : Except String Entry :=
  .ok (.dir "r" [.file "a.go", .file "bad.go"])

/-- Configuration of the Go scanner tests. -/
def goTestConfig : Config :=
  { Language := "go", Exclude := ["vendor", ".git"] }

/-- Ascending order of the `File` paths, each strictly below the next (so
without repetition); paths are compared as Go compares strings. -/
def sortedByFile (files : List FileImports) : Prop :=
  files.Pairwise fun a b => a.File.data < b.File.data

/-- Specification-side reading of "the name begins with an upper-case letter",
for a test `isUpper` of upper-case letters (`unicode.IsUpper`). -/
def beginsUpper (isUpper : Char → Bool) (name : String) : Bool :=
  match name.data with
  | c :: _ => isUpper c
  | [] => false

/-- The export record of a declared name of a `const` or `var` declaration, as
the claim describes it. -/
def valueRecord (E : Env) (tok : Token) (name : Ident) : ExportDetail :=
  { Name := name.Name,
    Kind := if tok = Token.CONST then ExportKind.ExportConst else ExportKind.ExportVar,
    Private := !E.IsExported name.Name, Line := name.Line }

/-- The export record of a function declaration without receiver, nothing for
any other declaration. -/
def functionRecord (E : Env) : Decl → Option ExportDetail
  | .FuncDecl false name line =>
    some { Name := name.Name, Kind := ExportKind.ExportFunction,
           Private := !E.IsExported name.Name, Line := line }
  | _ => none

/-- Content of `lib.go` in `TestGoScanner_ExportsAndDetails`. -/
def libGoSrc : String :=
  "package lib\n\nimport (\n\t\"fmt\"\n\t_ \"net/http/pprof\"\n\t. \"strings\"\n\tmyjson \"encoding/json\"\n)\n\nfunc Exported() {}\nfunc unexported() {}\ntype MyType struct{}\ntype myPrivate struct{}\nconst MaxRetries = 3\nconst internal = 5\nvar GlobalVar = \"x\"\nvar localVar = \"y\"\n"

/-- The four import declarations of `libGoSrc`. -/
def libGoImports : List ImportSpec :=
  [{ Name := none, PathValue := "\"fmt\"", PosOffset := 23, EndOffset := 28, Line := 4 },
   { Name := some "_", PathValue := "\"net/http/pprof\"", PosOffset := 30, EndOffset := 48,
     Line := 5 },
   { Name := some ".", PathValue := "\"strings\"", PosOffset := 50, EndOffset := 61, Line := 6 },
   { Name := some "myjson", PathValue := "\"encoding/json\"", PosOffset := 63, EndOffset := 85,
     Line := 7 }]

/-- Syntax tree of `libGoSrc`. -/
def libGoFile : AstFile :=
  { Imports := libGoImports,
    Decls :=
      [.GenDecl .IMPORT (libGoImports.map Spec.ImportSpec),
       .FuncDecl false { Name := "Exported", Line := 10 } 10,
       .FuncDecl false { Name := "unexported", Line := 11 } 11,
       .GenDecl .TYPE [.TypeSpec { Name := "MyType", Line := 12 }],
       .GenDecl .TYPE [.TypeSpec { Name := "myPrivate", Line := 13 }],
       .GenDecl .CONST [.ValueSpec [{ Name := "MaxRetries", Line := 14 }]],
       .GenDecl .CONST [.ValueSpec [{ Name := "internal", Line := 15 }]],
       .GenDecl .VAR [.ValueSpec [{ Name := "GlobalVar", Line := 16 }]],
       .GenDecl .VAR [.ValueSpec [{ Name := "localVar", Line := 17 }]]] }

/-- Content of `svc.go` in `TestGoScanner_SkipMethods`. -/
def svcGoSrc : String :=
  "package svc\n\nimport \"fmt\"\n\ntype Svc struct{}\n\nfunc (s *Svc) Handle() { fmt.Println() }\nfunc Free() {}\n"

/-- Syntax tree of `svcGoSrc`. -/
def svcGoFile : AstFile :=
  { Imports := [{ Name := none, PathValue := "\"fmt\"", PosOffset := 20, EndOffset := 25,
                  Line := 3 }],
    Decls :=
      [.GenDecl .IMPORT [.ImportSpec { Name := none, PathValue := "\"fmt\"", PosOffset := 20,
                                       EndOffset := 25, Line := 3 }],
       .GenDecl .TYPE [.TypeSpec { Name := "Svc", Line := 5 }],
       .FuncDecl true { Name := "Handle", Line := 7 } 7,
       .FuncDecl false { Name := "Free", Line := 8 } 8] }

/-- The machine of `exampleEnv` with the two test files: `r/svc.go` holds
`svcGoSrc` and every other path `libGoSrc`. -/
def goTestEnv : Env :=
  { exampleEnv with
    ReadFile := fun p => if p = "r/svc.go" then .ok svcGoSrc else .ok libGoSrc
    ParseFile := fun p _ => if p = "r/svc.go" then .ok svcGoFile else .ok libGoFile }

/-- Specification-side reading of "the text of every named specifier": the
texts of the import specifiers of the named-imports clauses among the nodes,
in source order. -/
def namedSpecifierTexts (src : String) (nodes : List Node) : List String :=
  (nodes.filter fun c => c.Kind = "named_imports").flatMap fun ni =>
    (ni.Children.filter fun s => s.Kind = "import_specifier").map (nodeText src)

mutual
/-- Is the node or one of its descendants of the given kind. -/
def hasDescendantKind (kind : String) : Node → Bool
  | .mk k _ _ _ children => decide (k = kind) || anyDescendantKind kind children
/-- Is one of the nodes, or one of their descendants, of the given kind. -/
def anyDescendantKind (kind : String) : List Node → Bool
  | [] => false
  | n :: rest => hasDescendantKind kind n || anyDescendantKind kind rest
end

/-- The kinds at which `stmtSnippet` stops: a lexical declaration, a variable
declaration or an expression statement. -/
def isStatementKind (kind : String) : Bool :=
  kind = "lexical_declaration" || kind = "variable_declaration" ||
    kind = "expression_statement"

/-- Content of `combo.ts` in `TestTreeSitterScanner_DefaultImportWithNamed`. -/
def comboSrc : String :=
  "import React, \x7b useState, useEffect \x7d from 'react';"

/-- The import statement of `comboSrc` as the TypeScript grammar parses it. -/
def comboStmt : Node :=
  .mk "import_statement" 0 51 0 [
    .mk "import" 0 6 0 [],
    .mk "import_clause" 7 37 0 [
      .mk "identifier" 7 12 0 [],
      .mk "," 12 13 0 [],
      .mk "named_imports" 14 37 0 [
        .mk "\x7b" 14 15 0 [],
        .mk "import_specifier" 16 24 0 [
          .mk "identifier" 16 24 0 []],
        .mk "," 24 25 0 [],
        .mk "import_specifier" 26 35 0 [
          .mk "identifier" 26 35 0 []],
        .mk "\x7d" 36 37 0 []]],
    .mk "from" 38 42 0 [],
    .mk "string" 43 50 0 [
      .mk "'" 43 44 0 [],
      .mk "string_fragment" 44 49 0 [],
      .mk "'" 49 50 0 []],
    .mk ";" 50 51 0 []]

/-- The import clause of `comboStmt`. -/
def comboClause : Node :=
  .mk "import_clause" 7 37 0 [
    .mk "identifier" 7 12 0 [],
    .mk "," 12 13 0 [],
    .mk "named_imports" 14 37 0 [
      .mk "\x7b" 14 15 0 [],
      .mk "import_specifier" 16 24 0 [
        .mk "identifier" 16 24 0 []],
      .mk "," 24 25 0 [],
      .mk "import_specifier" 26 35 0 [
        .mk "identifier" 26 35 0 []],
      .mk "\x7d" 36 37 0 []]]

/-- An import whose only specifier carries the inline modifier `type`. -/
def inlineTypeSrc : String :=
  "import \x7b type Foo \x7d from './x';"

/-- The import statement of `inlineTypeSrc` as the TypeScript grammar parses it:
the token `type` is a child of the import specifier. -/
def inlineTypeStmt : Node :=
  .mk "import_statement" 0 31 0 [
    .mk "import" 0 6 0 [],
    .mk "import_clause" 7 19 0 [
      .mk "named_imports" 7 19 0 [
        .mk "\x7b" 7 8 0 [],
        .mk "import_specifier" 9 17 0 [
          .mk "type" 9 13 0 [],
          .mk "identifier" 14 17 0 []],
        .mk "\x7d" 18 19 0 []]],
    .mk "from" 20 24 0 [],
    .mk "string" 25 30 0 [
      .mk "'" 25 26 0 [],
      .mk "string_fragment" 26 29 0 [],
      .mk "'" 29 30 0 []],
    .mk ";" 30 31 0 []]

/-- The type-only import of `TestTreeSitterScanner_Imports`. -/
def typeImportSrc : String :=
  "import type \x7b Config \x7d from './config';"

/-- The import statement of `typeImportSrc` as the TypeScript grammar parses it:
the token `type` is a child of the statement. -/
def typeImportStmt : Node :=
  .mk "import_statement" 0 39 0 [
    .mk "import" 0 6 0 [],
    .mk "type" 7 11 0 [],
    .mk "import_clause" 12 22 0 [
      .mk "named_imports" 12 22 0 [
        .mk "\x7b" 12 13 0 [],
        .mk "import_specifier" 14 20 0 [
          .mk "identifier" 14 20 0 []],
        .mk "\x7d" 21 22 0 []]],
    .mk "from" 23 27 0 [],
    .mk "string" 28 38 0 [
      .mk "'" 28 29 0 [],
      .mk "string_fragment" 29 37 0 [],
      .mk "'" 37 38 0 []],
    .mk ";" 38 39 0 []]

/-- Content of `req.js` in `TestTreeSitterScanner_VariableRequire`. -/
def reqSrc : String :=
  "const express = require('express');\nconst \x7b join \x7d = require('path');\n"

/-- The first declaration of `reqSrc` as the JavaScript grammar parses it. -/
def reqDecl : Node :=
  .mk "lexical_declaration" 0 35 0 [
    .mk "const" 0 5 0 [],
    .mk "variable_declarator" 6 34 0 [
      .mk "identifier" 6 13 0 [],
      .mk "=" 14 15 0 [],
      .mk "call_expression" 16 34 0 [
        .mk "identifier" 16 23 0 [],
        .mk "arguments" 23 34 0 [
          .mk "(" 23 24 0 [],
          .mk "string" 24 33 0 [
            .mk "'" 24 25 0 [],
            .mk "string_fragment" 25 32 0 [],
            .mk "'" 32 33 0 []],
          .mk ")" 33 34 0 []]]],
    .mk ";" 34 35 0 []]

/-- The variable declarator of `reqDecl`. -/
def reqDeclarator : Node :=
  .mk "variable_declarator" 6 34 0 [
    .mk "identifier" 6 13 0 [],
    .mk "=" 14 15 0 [],
    .mk "call_expression" 16 34 0 [
      .mk "identifier" 16 23 0 [],
      .mk "arguments" 23 34 0 [
        .mk "(" 23 24 0 [],
        .mk "string" 24 33 0 [
          .mk "'" 24 25 0 [],
          .mk "string_fragment" 25 32 0 [],
          .mk "'" 32 33 0 []],
        .mk ")" 33 34 0 []]]]

/-- The call expression of `reqDecl`. -/
def reqCall : Node :=
  .mk "call_expression" 16 34 0 [
    .mk "identifier" 16 23 0 [],
    .mk "arguments" 23 34 0 [
      .mk "(" 23 24 0 [],
      .mk "string" 24 33 0 [
        .mk "'" 24 25 0 [],
        .mk "string_fragment" 25 32 0 [],
        .mk "'" 32 33 0 []],
      .mk ")" 33 34 0 []]]

/-- The argument list of `reqCall`. -/
def reqArguments : Node :=
  .mk "arguments" 23 34 0 [
    .mk "(" 23 24 0 [],
    .mk "string" 24 33 0 [
      .mk "'" 24 25 0 [],
      .mk "string_fragment" 25 32 0 [],
      .mk "'" 32 33 0 []],
    .mk ")" 33 34 0 []]

/-- The string node of `reqArguments`. -/
def reqString : Node :=
  .mk "string" 24 33 0 [
    .mk "'" 24 25 0 [],
    .mk "string_fragment" 25 32 0 [],
    .mk "'" 32 33 0 []]

/-- Two re-exports of `TestTreeSitterScanner_Exports`: named and wildcard. -/
def reexportSrc : String :=
  "export \x7b foo \x7d from './foo';\nexport * from './bar';\n"

/-- The named re-export statement of `reexportSrc`. -/
def namedReexportStmt : Node :=
  .mk "export_statement" 0 28 0 [
    .mk "export" 0 6 0 [],
    .mk "export_clause" 7 14 0 [
      .mk "\x7b" 7 8 0 [],
      .mk "export_specifier" 9 12 0 [
        .mk "identifier" 9 12 0 []],
      .mk "\x7d" 13 14 0 []],
    .mk "from" 15 19 0 [],
    .mk "string" 20 27 0 [
      .mk "'" 20 21 0 [],
      .mk "string_fragment" 21 26 0 [],
      .mk "'" 26 27 0 []],
    .mk ";" 27 28 0 []]

/-- The statement `export * from ./bar` of `reexportSrc`. -/
def wildcardReexportStmt : Node :=
  .mk "export_statement" 29 51 1 [
    .mk "export" 29 35 1 [],
    .mk "*" 36 37 1 [],
    .mk "from" 38 42 1 [],
    .mk "string" 43 50 1 [
      .mk "'" 43 44 1 [],
      .mk "string_fragment" 44 49 1 [],
      .mk "'" 49 50 1 []],
    .mk ";" 50 51 1 []]

/-- Syntax tree of `reexportSrc`. -/
def reexportProgram : Node :=
  .mk "program" 0 52 0 [namedReexportStmt, wildcardReexportStmt]

/-- The string value of an import kind (the constants of `scanner.go`). -/
def ImportKind.value : ImportKind → String
  | .ImportDefault => "default"
  | .ImportNamed => "named"
  | .ImportNamespace => "namespace"
  | .ImportSideEffect => "side-effect"
  | .ImportRequire => "require"
  | .ImportDynamic => "dynamic"
  | .ImportReExport => "re-export"
  | .ImportReExportAll => "re-export-all"
  | .ImportType => "type"
  | .ImportBlank => "blank"
  | .ImportDot => "dot"
  | .ImportAlias => "alias"

/-- The string value of an export kind (the constants of `scanner.go`). -/
def ExportKind.value : ExportKind → String
  | .ExportFunction => "func"
  | .ExportClass => "class"
  | .ExportConst => "const"
  | .ExportVar => "var"
  | .ExportType => "type"
  | .ExportInterface => "interface"
  | .ExportDefault => "default"
  | .ExportNamed => "named"
  | .ExportReExport => "re-export"

/-- The export record of an export specifier, as `extractExports` builds it:
named by the text of the specifier's first child. -/
def specifierRecord (src : String) (kind : ExportKind) (line : Nat) (spec : Node) :
    ExportDetail :=
  { Name := match spec.Children with
      | id :: _ => nodeText src id
      | [] => "",
    Kind := kind, Line := line }

/-- The name `extractExports` gives to an exported function or class
declaration: the text of its first child of the given kind, or the literal
"default" when it has none. -/
def declarationName (src : String) (kind : String) (decl : Node) : String :=
  match childByKind decl kind with
  | some id => nodeText src id
  | none => "default"

/-- The export record of a variable declarator as the claim describes it: kind
Const, named by the text of the declared name, which is the declarator's first
child. -/
def declaratorRecord (src : String) (line : Nat) (decl : Node) : ExportDetail :=
  { Name := match decl.Children with
      | name :: _ => nodeText src name
      | [] => "",
    Kind := ExportKind.ExportConst, Line := line }

/-- Content of `expr.ts` in `TestTreeSitterScanner_ExportDefaultExpression`. -/
def exprSrc : String :=
  "export default 42;\nexport default \x7b key: 'value' \x7d;\n"

/-- The statement `export default 42` of `exprSrc`. -/
def exprFirstStmt : Node :=
  .mk "export_statement" 0 18 0 [
    .mk "export" 0 6 0 [],
    .mk "default" 7 14 0 [],
    .mk "number" 15 17 0 [],
    .mk ";" 17 18 0 []]

/-- The second statement of `exprSrc`, the default export of an object. -/
def exprSecondStmt : Node :=
  .mk "export_statement" 19 51 1 [
    .mk "export" 19 25 1 [],
    .mk "default" 26 33 1 [],
    .mk "object" 34 50 1 [
      .mk "\x7b" 34 35 1 [],
      .mk "pair" 36 48 1 [
        .mk "property_identifier" 36 39 1 [],
        .mk ":" 39 40 1 [],
        .mk "string" 41 48 1 [
          .mk "'" 41 42 1 [],
          .mk "string_fragment" 42 47 1 [],
          .mk "'" 47 48 1 []]],
      .mk "\x7d" 49 50 1 []],
    .mk ";" 50 51 1 []]

/-- Syntax tree of `exprSrc`. -/
def exprProgram : Node :=
  .mk "program" 0 52 0 [exprFirstStmt, exprSecondStmt]

/-- The default export of a named function in `TestTreeSitterScanner_Exports`. -/
def defaultFnSrc : String :=
  "export default function main() \x7b\x7d\n"

/-- The statement of `defaultFnSrc`. -/
def defaultFnStmt : Node :=
  .mk "export_statement" 0 33 0 [
    .mk "export" 0 6 0 [],
    .mk "default" 7 14 0 [],
    .mk "function_declaration" 15 33 0 [
      .mk "function" 15 23 0 [],
      .mk "identifier" 24 28 0 [],
      .mk "formal_parameters" 28 30 0 [
        .mk "(" 28 29 0 [],
        .mk ")" 29 30 0 []],
      .mk "statement_block" 31 33 0 [
        .mk "\x7b" 31 32 0 [],
        .mk "\x7d" 32 33 0 []]]]

/-- The function declaration of `defaultFnStmt`. -/
def defaultFnDecl : Node :=
  .mk "function_declaration" 15 33 0 [
    .mk "function" 15 23 0 [],
    .mk "identifier" 24 28 0 [],
    .mk "formal_parameters" 28 30 0 [
      .mk "(" 28 29 0 [],
      .mk ")" 29 30 0 []],
    .mk "statement_block" 31 33 0 [
      .mk "\x7b" 31 32 0 [],
      .mk "\x7d" 32 33 0 []]]

/-- The export of a class in `TestTreeSitterScanner_Exports`. -/
def classSrc : String :=
  "export class Widget \x7b\x7d\n"

/-- The statement of `classSrc` as the TypeScript grammar parses it. -/
def classStmt : Node :=
  .mk "export_statement" 0 22 0 [
    .mk "export" 0 6 0 [],
    .mk "class_declaration" 7 22 0 [
      .mk "class" 7 12 0 [],
      .mk "type_identifier" 13 19 0 [],
      .mk "class_body" 20 22 0 [
        .mk "\x7b" 20 21 0 [],
        .mk "\x7d" 21 22 0 []]]]

/-- The class declaration of `classStmt`. -/
def classDecl : Node :=
  .mk "class_declaration" 7 22 0 [
    .mk "class" 7 12 0 [],
    .mk "type_identifier" 13 19 0 [],
    .mk "class_body" 20 22 0 [
      .mk "\x7b" 20 21 0 [],
      .mk "\x7d" 21 22 0 []]]

/-- An export of two constants in one declaration. -/
def constSrc : String :=
  "export const MAX = 100, MIN = 1;\n"

/-- The statement of `constSrc`. -/
def constStmt : Node :=
  .mk "export_statement" 0 32 0 [
    .mk "export" 0 6 0 [],
    .mk "lexical_declaration" 7 32 0 [
      .mk "const" 7 12 0 [],
      .mk "variable_declarator" 13 22 0 [
        .mk "identifier" 13 16 0 [],
        .mk "=" 17 18 0 [],
        .mk "number" 19 22 0 []],
      .mk "," 22 23 0 [],
      .mk "variable_declarator" 24 31 0 [
        .mk "identifier" 24 27 0 [],
        .mk "=" 28 29 0 [],
        .mk "number" 30 31 0 []],
      .mk ";" 31 32 0 []]]

/-- The lexical declaration of `constStmt`. -/
def constDecl : Node :=
  .mk "lexical_declaration" 7 32 0 [
    .mk "const" 7 12 0 [],
    .mk "variable_declarator" 13 22 0 [
      .mk "identifier" 13 16 0 [],
      .mk "=" 17 18 0 [],
      .mk "number" 19 22 0 []],
    .mk "," 22 23 0 [],
    .mk "variable_declarator" 24 31 0 [
      .mk "identifier" 24 27 0 [],
      .mk "=" 28 29 0 [],
      .mk "number" 30 31 0 []],
    .mk ";" 31 32 0 []]

/-- An export of a variable declared with `var`. -/
def varSrc : String :=
  "export var legacy = 1;\n"

/-- Syntax tree of `varSrc`: a `var` declaration is a node of kind variable_declaration. -/
def varProgram : Node :=
  .mk "program" 0 23 0 [
    .mk "export_statement" 0 22 0 [
      .mk "export" 0 6 0 [],
      .mk "variable_declaration" 7 22 0 [
        .mk "var" 7 10 0 [],
        .mk "variable_declarator" 11 21 0 [
          .mk "identifier" 11 17 0 [],
          .mk "=" 18 19 0 [],
          .mk "number" 20 21 0 []],
        .mk ";" 21 22 0 []]]]

/-- A file that exports a destructuring declaration. -/
def patternSrc : String :=
  "export const \x7b a, b \x7d = obj;\n"

/-- Syntax tree of `patternSrc`: the declared names are inside the object
pattern and the initializer `obj` is an identifier child of the declarator. -/
def patternProgram : Node :=
  .mk "program" 0 29 0 [
    .mk "export_statement" 0 28 0 [
      .mk "export" 0 6 0 [],
      .mk "lexical_declaration" 7 28 0 [
        .mk "const" 7 12 0 [],
        .mk "variable_declarator" 13 27 0 [
          .mk "object_pattern" 13 21 0 [
            .mk "\x7b" 13 14 0 [],
            .mk "shorthand_property_identifier_pattern" 15 16 0 [],
            .mk "," 16 17 0 [],
            .mk "shorthand_property_identifier_pattern" 18 19 0 [],
            .mk "\x7d" 20 21 0 []],
          .mk "=" 22 23 0 [],
          .mk "identifier" 24 27 0 []],
        .mk ";" 27 28 0 []]]]

/-- The state the goroutines of `walkAndParse` have reached after the events of
a schedule, or nothing when `walkAndParse` has returned during them. -/
def stateAfter (numWorkers : Nat) (parse : String → result) :
    List Event → Pipeline → Option Pipeline
  | [], st => some st
  | ev :: rest, st =>
    match step numWorkers parse ev st with
    | .done _ _ => none
    | .next st' => stateAfter numWorkers parse rest st'

/-! ## `internal/render/html.go` -/

/-- An import with its category and detail (`classifiedImport`); a `Kind` of
`none` is Go's zero value, the empty string. -/
structure classifiedImport where
  Name : String
  Category : Category
  Kind : Option ImportKind := none
  Names : List String := []
  Alias : String := ""
  Snippet : String := ""
  Line : Nat := 0

/-- An exported symbol as rendered (`exportData`). -/
structure exportData where
  Name : String
  Kind : ExportKind
  Private : Bool
  Line : Nat
  deriving DecidableEq, Repr

/-- A file as rendered (`fileData`). -/
structure fileData where
  File : String
  Imports : List classifiedImport
  Exports : List exportData := []
  Lines : Nat

/-- What the template is executed with (`templateData`). -/
structure templateData where
  DataJSON : String
  Root : String
  CSS : String
  JS : String

/-- The inner loop of `HTML` over the imports of one record from index `j` on:
each import is classified under the record's language and, when the record has
a detail at the same index, takes kind, names, alias, snippet and line from
that detail. -/
def classifyImports {R : RegexpLib} (cl : Classifier R) (lang : String)
    (details : List ImportDetail) : Nat → List String → List classifiedImport
  | _, [] => []
  | j, imp :: rest =>
    (match details[j]? with
      | some d =>
        { Name := imp, Category := ClassifyWithLang cl imp lang, Kind := some d.Kind,
          Names := d.Names, Alias := d.Alias, Snippet := d.Snippet, Line := d.Line }
      | none => { Name := imp, Category := ClassifyWithLang cl imp lang }) ::
      classifyImports cl lang details (j + 1) rest

/-- The outer loop of `HTML`: one `fileData` per record, in the order of the
records. -/
def htmlFiles {R : RegexpLib} (cl : Classifier R) (results : List FileImports) :
    List fileData :=
  results.map fun r =>
    { File := r.File, Imports := classifyImports cl r.Lang r.Details 0 r.Imports,
      Exports := r.Exports.map fun e =>
        { Name := e.Name, Kind := e.Kind, Private := e.Private, Line := e.Line },
      Lines := r.Lines }

/-- Writes a dependency visualisation (`render.HTML`): the bytes written, or the
error. `marshal` is `json.Marshal` on the file list, `execute` the execution of
the embedded template, `css` and `js` the embedded style sheet and script. -/
def HTML {R : RegexpLib} (marshal : List fileData → Except String String)
    (execute : templateData → Except String String) (css js : String) (root : String)
    (results : List FileImports) (cl : Classifier R) : Except String String :=
  match marshal (htmlFiles cl results) with
  | .error err => .error err
  | .ok data => execute { DataJSON := data, Root := root, CSS := css, JS := js }

/-- The records of `TestHTML_DeterministicOrder`. -/
def orderTestResults : List FileImports :=
  [{ File := "z/last.go", Lang := "go", Imports := ["fmt"] },
   { File := "a/first.go", Lang := "go", Imports := ["os"] },
   { File := "m/middle.go", Lang := "go", Imports := ["net"] }]

/-- The records of `TestHTML_DeterministicOrder` after the first and the third
have been swapped. -/
def orderTestSwapped : List FileImports :=
  [{ File := "m/middle.go", Lang := "go", Imports := ["net"] },
   { File := "a/first.go", Lang := "go", Imports := ["os"] },
   { File := "z/last.go", Lang := "go", Imports := ["fmt"] }]

/-! ## `internal/config/config.go` and `internal/config/defaults.go` -/

/-- An error of `os.ReadFile` or `os.Open`: whether `errors.Is(err,
os.ErrNotExist)` holds, and the text of the error. -/
structure FileError where
  notExist : Bool
  msg : String
  deriving DecidableEq, Repr

/-- The library functions the configuration package calls: reading a file
(`os.ReadFile`, and `os.Open` followed by reading the whole file),
`yaml.Unmarshal` into an empty `Config`, and the verb `%q` of `fmt`. -/
structure ConfigEnv where
  ReadFile : String → Except FileError String
  Unmarshal : String → Except String Config
  Quote : String → String

/-- The keys of the map `supportedLangs`, all mapped to `true`. -/
def supportedLangs : List String := ["go", "js", "multi"]

/-- One of the pattern loops of `validate`: the first pattern `regexp.Compile`
rejects gives the error. -/
def validatePatterns (R : RegexpLib) (E : ConfigEnv) (what : String) :
    List String → Option String
  | [] => none
  | p :: ps =>
    match R.Compile p with
    | .error err => some ("invalid " ++ what ++ " pattern " ++ E.Quote p ++ ": " ++ err)
    | .ok _ => validatePatterns R E what ps

/-- Validation of a configuration (`(*Config).validate`): the error, or nothing. -/
def validate (R : RegexpLib) (E : ConfigEnv) (c : Config) : Option String :=
  if c.Language ∉ supportedLangs then some ("unsupported language: " ++ E.Quote c.Language)
  else
    match validatePatterns R E "internal" c.Classify.Internal with
    | some err => some err
    | none =>
      match validatePatterns R E "private" c.Classify.Private with
      | some err => some err
      | none =>
        if c.Exclude.any fun e => e = "" then some "exclude pattern must not be empty"
        else none

/-- The built-in configuration for JavaScript (`defaultJS`). -/
def defaultJS : Config :=
  { Language := "js",
    Exclude := ["node_modules", ".git", "dist", "build", ".next", "coverage"],
    Classify := { Internal := ["^\\.\\.?/.*"] } }

/-- Go `unicode.IsSpace`. -/
def unicodeIsSpace (c : Char) : Bool :=
  c = '\t' || c = '\n' || c = Char.ofNat 0x0B || c = Char.ofNat 0x0C || c = '\r' || c = ' ' ||
    c = Char.ofNat 0x85 || c = Char.ofNat 0xA0 || c = Char.ofNat 0x1680 ||
    (0x2000 ≤ c.toNat && c.toNat ≤ 0x200A) || c = Char.ofNat 0x2028 ||
    c = Char.ofNat 0x2029 || c = Char.ofNat 0x202F || c = Char.ofNat 0x205F ||
    c = Char.ofNat 0x3000

/-- Go `strings.TrimSpace`. -/
def stringsTrimSpace (s : String) : String :=
  ⟨((s.data.dropWhile unicodeIsSpace).reverse.dropWhile unicodeIsSpace).reverse⟩

/-- Go `strings.ReplaceAll` for an `old` of one character. -/
def stringsReplaceAll (s : String) (old : Char) (new : String) : String :=
  ⟨s.data.flatMap fun c => if c = old then new.data else [c]⟩

/-- Escapes dots and slashes for use in a pattern (`regexpEscape`). -/
def regexpEscape (s : String) : String :=
  stringsReplaceAll (stringsReplaceAll s '.' "\\.") '/' "\\/"

/-- A line without one trailing carriage return (`dropCR` of `bufio`). -/
def dropCR (line : List Char) : List Char :=
  match line.reverse with
  | '\r' :: rest => rest.reverse
  | _ => line

/-- The tokens of a `bufio.Scanner` with the default split function
`ScanLines`, for lines within the scanner's buffer: `cur` holds the characters
of the line being read, last first. -/
def scanLines (cur : List Char) : List Char → List String
  | [] => if cur = [] then [] else [⟨dropCR cur.reverse⟩]
  | c :: rest =>
    if c = '\n' then ⟨dropCR cur.reverse⟩ :: scanLines [] rest
    else scanLines (c :: cur) rest

/-- The loop of `readModulePath` over the lines: the first line that, trimmed,
starts with `module ` gives the module path. -/
def moduleLine : List String → Option String
  | [] => none
  | l :: rest =>
    if stringsHasPrefix (stringsTrimSpace l) "module " then
      some (stringsTrimSpace (stringsTrimPrefix (stringsTrimSpace l) "module"))
    else moduleLine rest

/-- Extracts the module path from `go.mod` (`readModulePath`). -/
def readModulePath (E : ConfigEnv) (root : String) : Except String String :=
  match E.ReadFile (filepathJoin root "go.mod") with
  | .error err => .error err.msg
  | .ok content =>
    match moduleLine (scanLines [] content.data) with
    | some mod => .ok mod
    | none => .error "module directive not found in go.mod"

/-- The built-in configuration for Go, with the module path of `go.mod` as the
internal pattern (`defaultGo`). -/
def defaultGo (E : ConfigEnv) (root : String) : Except String Config :=
  match readModulePath E root with
  | .error err => .error ("reading go.mod: " ++ err)
  | .ok mod =>
    .ok { Language := "go", Exclude := ["vendor", ".git"],
          Classify := { Internal := ["^" ++ regexpEscape mod ++ "/.*"] } }

/-- The built-in default configuration for a language (`DefaultFor`). -/
def DefaultFor (E : ConfigEnv) (lang root : String) : Except String Config :=
  if lang = "js" then .ok defaultJS
  else if lang = "go" then defaultGo E root
  else .error ("unsupported language: " ++ E.Quote lang)

/-- Reads `.depviz.yml` from the root, or falls back to `DefaultFor` when the
file does not exist (`Load`). -/
def Load (R : RegexpLib) (E : ConfigEnv) (root lang : String) : Except String Config :=
  match E.ReadFile (filepathJoin root ".depviz.yml") with
  | .error err =>
    if err.notExist then DefaultFor E lang root
    else .error ("reading config: " ++ err.msg)
  | .ok data =>
    match E.Unmarshal data with
    | .error err => .error ("parsing config: " ++ err)
    | .ok cfg =>
      let cfg : Config := if cfg.Language = "" then { cfg with Language := lang } else cfg
      match validate R E cfg with
      | some err => .error ("invalid config: " ++ err)
      | none => .ok cfg

/-- A project directory `proj` that holds a `go.mod` with the given content
and no other file that the configuration package reads. -/
def projectEnv (gomod : String) : ConfigEnv where
  ReadFile := fun p =>
    if p = "proj/go.mod" then .ok gomod
    else .error { notExist := true, msg := "open " ++ p ++ ": no such file or directory" }
  Unmarshal := fun _ => .error "yaml: unexpected input"
  Quote := fun s => "\"" ++ s ++ "\""

/-- The `go.mod` of `TestE2E_MultiProject`. -/
def multiGoMod : String := "module github.com/test/multi\n\ngo 1.25\n"

/-- The text of a pattern without its escaping backslashes. -/
def unescapeLiteral : List Char → List Char
  | [] => []
  | c :: rest =>
    if c = '\\' then
      match rest with
      | [] => []
      | d :: rest2 => d :: unescapeLiteral rest2
    else c :: unescapeLiteral rest

/-- A small pattern engine for concrete evaluation of the default patterns: it
accepts the patterns of the form `^` literal `.*`, the literal with escaped
punctuation, and the compiled pattern matches the strings that begin with the
literal. -/
def literalRegexp : RegexpLib where
  Regexp := String
  Compile := fun p =>
    if stringsHasPrefix p "^" ∧ stringsHasSuffix p ".*" then
      .ok ⟨unescapeLiteral ((p.data.drop 1).take (p.data.length - 3))⟩
    else .error "unsupported pattern"
  MatchString := fun re s => stringsHasPrefix s re

/-! # Theorems -/

/-! ## Classifier -/

theorem matchesAny_iff (R : RegexpLib) (s : String) (res : List R.Regexp) :
    matchesAny R s res = true ↔ ∃ re ∈ res, R.MatchString re s = true := by
  induction res with
  | nil => simp [matchesAny]
  | cons re rest ih =>
    simp only [matchesAny, List.mem_cons, exists_eq_or_imp]
    by_cases h : R.MatchString re s = true
    · simp [h]
    · simp [h, ih]

theorem compileAll_ok_iff (R : RegexpLib) (ps : List String) (res : List R.Regexp) :
    compileAll R ps = .ok res ↔ List.Forall₂ (fun p re => R.Compile p = .ok re) ps res := by
  induction ps generalizing res with
  | nil =>
    cases res <;> simp [compileAll]
  | cons p ps ih =>
    cases hp : R.Compile p with
    | error e =>
      simp only [compileAll, hp]
      constructor
      · intro h; cases h
      · intro h
        cases h with
        | cons h1 _ => rw [hp] at h1; cases h1
    | ok re =>
      cases hps : compileAll R ps with
      | error e =>
        simp only [compileAll, hp, hps]
        constructor
        · intro h; cases h
        · intro h
          cases h with
          | cons h1 h2 =>
            rw [← ih] at h2
            rw [hps] at h2; cases h2
      | ok rs =>
        simp only [compileAll, hp, hps]
        constructor
        · intro h
          cases h
          exact List.Forall₂.cons hp ((ih rs).1 hps)
        · intro h
          cases h with
          | cons h1 h2 =>
            rw [hp] at h1
            cases h1
            rw [← ih, hps] at h2
            cases h2
            rfl

theorem compileAll_error_iff (R : RegexpLib) (ps : List String) :
    (∃ e, compileAll R ps = .error e) ↔ ∃ p ∈ ps, ∃ e, R.Compile p = .error e := by
  induction ps with
  | nil => simp [compileAll]
  | cons p ps ih =>
    simp only [List.mem_cons, exists_eq_or_imp]
    cases hp : R.Compile p with
    | error e => simp [compileAll, hp]
    | ok re =>
      rw [← ih]
      cases hps : compileAll R ps with
      | error e => simp [compileAll, hp, hps]
      | ok rs => simp [compileAll, hp, hps]

theorem matchesAny_compiled (R : RegexpLib) (ps : List String) (res : List R.Regexp)
    (h : compileAll R ps = .ok res) (s : String) :
    matchesAny R s res = anyPatternMatches R ps s := by
  rw [compileAll_ok_iff] at h
  unfold anyPatternMatches
  induction h with
  | nil => simp [matchesAny]
  | cons h1 _ ih =>
    simp only [matchesAny, List.any_cons, h1, ih]
    split <;> simp [*]

theorem New_ok_inv (R : RegexpLib) (cfg : Config) (c : Classifier R) (h : New R cfg = .ok c) :
    c.lang = cfg.Language ∧ compileAll R cfg.Classify.Internal = .ok c.internal ∧
      compileAll R cfg.Classify.Private = .ok c.private_ := by
  unfold New at h
  cases hi : compileAll R cfg.Classify.Internal with
  | error e => rw [hi] at h; cases h
  | ok internal =>
    cases hp : compileAll R cfg.Classify.Private with
    | error e => rw [hi, hp] at h; cases h
    | ok priv =>
      rw [hi, hp] at h
      cases h
      exact ⟨rfl, rfl, rfl⟩

/-- C1: a classifier built by `New` answers in strict precedence: stdlib when
the stdlib test of the language holds, else internal when some internal
pattern matches, else private when some private pattern matches, else
external. -/
theorem ClassifyWithLang_precedence (R : RegexpLib) (cfg : Config) (c : Classifier R)
    (hnew : New R cfg = .ok c) (imp lang : String) :
    ClassifyWithLang c imp lang =
      (if isStdlibFor imp lang = true then Category.Stdlib
       else if anyPatternMatches R cfg.Classify.Internal imp then Category.Internal
       else if anyPatternMatches R cfg.Classify.Private imp then Category.Private
       else Category.External) ∧
    (isStdlibFor imp lang = false → anyPatternMatches R cfg.Classify.Internal imp = true →
        anyPatternMatches R cfg.Classify.Private imp = true →
        ClassifyWithLang c imp lang = Category.Internal) ∧
    (isStdlibFor imp lang = false → anyPatternMatches R cfg.Classify.Internal imp = false →
        anyPatternMatches R cfg.Classify.Private imp = false →
        ClassifyWithLang c imp lang = Category.External) := by
  obtain ⟨-, hi, hp⟩ := New_ok_inv R cfg c hnew
  have e1 := matchesAny_compiled R _ _ hi imp
  have e2 := matchesAny_compiled R _ _ hp imp
  have key : ClassifyWithLang c imp lang =
      (if isStdlibFor imp lang = true then Category.Stdlib
       else if anyPatternMatches R cfg.Classify.Internal imp then Category.Internal
       else if anyPatternMatches R cfg.Classify.Private imp then Category.Private
       else Category.External) := by
    unfold ClassifyWithLang
    simp only [e1, e2]
  refine ⟨key, ?_, ?_⟩
  · intro hs h1 _
    rw [key]; simp [hs, h1]
  · intro hs h1 h2
    rw [key]; simp [hs, h1, h2]

theorem tails_any_singleton (a : Char) (l : List Char) :
    (l.tails.any fun t => [a].isPrefixOf t) = true ↔ a ∈ l := by
  induction l with
  | nil => simp [List.isPrefixOf]
  | cons b l ih =>
    simp only [List.tails, List.any_cons, Bool.or_eq_true, ih, List.mem_cons]
    simp [List.isPrefixOf]

theorem stringsContains_dot (s : String) : stringsContains s "." = true ↔ '.' ∈ s.data := by
  unfold stringsContains
  exact tails_any_singleton '.' s.data

theorem ClassifyWithLang_stdlib_iff {R : RegexpLib} (c : Classifier R) (imp lang : String) :
    ClassifyWithLang c imp lang = Category.Stdlib ↔ isStdlibFor imp lang = true := by
  unfold ClassifyWithLang
  cases h : isStdlibFor imp lang
  · simp only [Bool.false_eq_true, if_false]
    split_ifs <;> simp
  · simp

/-- C7: under language "go" an import path is classified stdlib exactly when
it contains no "." character, whatever the patterns of the classifier are;
`fmt` and `net/http` are stdlib, `github.com/spf13/cobra` is not. -/
theorem go_stdlib_iff_no_dot {R : RegexpLib} (c : Classifier R) (imp : String) :
    (ClassifyWithLang c imp "go" = Category.Stdlib ↔ '.' ∉ imp.data) ∧
    ClassifyWithLang c "fmt" "go" = Category.Stdlib ∧
    ClassifyWithLang c "net/http" "go" = Category.Stdlib ∧
    ClassifyWithLang c "github.com/spf13/cobra" "go" ≠ Category.Stdlib := by
  have key : ∀ s : String, ClassifyWithLang c s "go" = Category.Stdlib ↔ '.' ∉ s.data := by
    intro s
    rw [ClassifyWithLang_stdlib_iff, ← stringsContains_dot]
    have h1 : ("go" : String) ≠ "js" := by decide
    simp [isStdlibFor, h1]
  refine ⟨key imp, (key _).2 (by decide), (key _).2 (by decide), ?_⟩
  rw [Ne, key]
  decide

theorem stringsTrimPrefix_append (pre b : String) : stringsTrimPrefix (pre ++ b) pre = b := by
  unfold stringsTrimPrefix stringsHasPrefix
  have h : pre.data.isPrefixOf (pre ++ b).data = true := by
    rw [List.isPrefixOf_iff_prefix, String.data_append]
    exact List.prefix_append _ _
  rw [if_pos h]
  simp [String.data_append]

theorem stringsTrimPrefix_cases (s pre : String) :
    (stringsHasPrefix s pre = false ∧ stringsTrimPrefix s pre = s) ∨
    (s = pre ++ stringsTrimPrefix s pre) := by
  unfold stringsTrimPrefix
  cases h : stringsHasPrefix s pre with
  | false => left; simp
  | true =>
    right
    unfold stringsHasPrefix at h
    rw [List.isPrefixOf_iff_prefix] at h
    obtain ⟨t, ht⟩ := h
    apply String.ext
    simp [String.data_append, ← ht]

theorem nodeBuiltins_no_node_prefix : ∀ b ∈ nodeBuiltins, stringsHasPrefix b "node:" = false := by
  decide

/-- C8: under language "js" an import path is classified stdlib exactly when
the path without a leading "node:" is a member of the built-in module table;
every table entry is stdlib both bare and behind "node:", whatever the
patterns of the classifier are. -/
theorem js_stdlib_iff_builtin {R : RegexpLib} (c : Classifier R) (imp : String) :
    (ClassifyWithLang c imp "js" = Category.Stdlib ↔
      stringsTrimPrefix imp "node:" ∈ nodeBuiltins) ∧
    (ClassifyWithLang c imp "js" = Category.Stdlib ↔
      (imp ∈ nodeBuiltins ∨ ∃ b ∈ nodeBuiltins, imp = "node:" ++ b)) ∧
    (∀ b ∈ nodeBuiltins, ClassifyWithLang c b "js" = Category.Stdlib ∧
      ClassifyWithLang c ("node:" ++ b) "js" = Category.Stdlib) ∧
    ClassifyWithLang c "fs/promises" "js" = Category.Stdlib ∧
    ClassifyWithLang c "node:fs/promises" "js" = Category.Stdlib := by
  have key : ∀ s : String, ClassifyWithLang c s "js" = Category.Stdlib ↔
      stringsTrimPrefix s "node:" ∈ nodeBuiltins := by
    intro s
    rw [ClassifyWithLang_stdlib_iff]
    simp [isStdlibFor]
  have bare : ∀ b ∈ nodeBuiltins, stringsTrimPrefix b "node:" = b := by
    intro b hb
    have := nodeBuiltins_no_node_prefix b hb
    simp [stringsTrimPrefix, this]
  have all : ∀ b ∈ nodeBuiltins, ClassifyWithLang c b "js" = Category.Stdlib ∧
      ClassifyWithLang c ("node:" ++ b) "js" = Category.Stdlib := by
    intro b hb
    refine ⟨(key b).2 ?_, (key _).2 ?_⟩
    · rw [bare b hb]; exact hb
    · rw [stringsTrimPrefix_append]; exact hb
  refine ⟨key imp, ?_, all, (all "fs/promises" (by decide)).1, (all "fs/promises" (by decide)).2⟩
  rw [key]
  constructor
  · intro h
    rcases stringsTrimPrefix_cases imp "node:" with ⟨-, h2⟩ | h2
    · left; rw [h2] at h; exact h
    · right; exact ⟨_, h, h2⟩
  · rintro (h | ⟨b, hb, rfl⟩)
    · rw [bare imp h]; exact h
    · rw [stringsTrimPrefix_append]; exact hb

/-- C9: `New` fails exactly when one of the supplied internal or private
patterns is rejected by `regexp.Compile`; when every pattern compiles it
returns a classifier that holds, for each list, the compiled form of each
supplied pattern in the same order, and classification with it is a total
function into the four categories. -/
theorem New_error_iff_invalid_pattern (R : RegexpLib) (cfg : Config) :
    ((∃ err, New R cfg = .error err) ↔
      ∃ p ∈ cfg.Classify.Internal ++ cfg.Classify.Private, ∃ err, R.Compile p = .error err) ∧
    ((∀ p ∈ cfg.Classify.Internal ++ cfg.Classify.Private, ∃ re, R.Compile p = .ok re) →
      ∃ c, New R cfg = .ok c ∧ c.lang = cfg.Language ∧
        List.Forall₂ (fun p re => R.Compile p = .ok re) cfg.Classify.Internal c.internal ∧
        List.Forall₂ (fun p re => R.Compile p = .ok re) cfg.Classify.Private c.private_ ∧
        c.internal.length = cfg.Classify.Internal.length ∧
        c.private_.length = cfg.Classify.Private.length ∧
        ∀ imp lang, ∃ cat, ClassifyWithLang c imp lang = cat) := by
  have herr : (∃ err, New R cfg = .error err) ↔
      ∃ p ∈ cfg.Classify.Internal ++ cfg.Classify.Private, ∃ err, R.Compile p = .error err := by
    simp only [List.mem_append, or_and_right, exists_or]
    rw [← compileAll_error_iff, ← compileAll_error_iff]
    unfold New
    cases hi : compileAll R cfg.Classify.Internal with
    | error e => simp
    | ok internal =>
      cases hp : compileAll R cfg.Classify.Private with
      | error e => simp
      | ok priv => simp
  refine ⟨herr, ?_⟩
  intro hall
  cases hn : New R cfg with
  | error e =>
    obtain ⟨p, hp, e2, he2⟩ := herr.1 ⟨e, hn⟩
    obtain ⟨re, hre⟩ := hall p hp
    rw [hre] at he2
    cases he2
  | ok c =>
    obtain ⟨hl, hi, hp⟩ := New_ok_inv R cfg c hn
    rw [compileAll_ok_iff] at hi hp
    exact ⟨c, rfl, hl, hi, hp, hi.length_eq.symm, hp.length_eq.symm, fun _ _ => ⟨_, rfl⟩⟩

/-- Witness of C1: `./utils` is matched by an internal and by a private
pattern of `jsTestConfig` and comes out internal. -/
theorem ClassifyWithLang_precedence_witness :
    ClassifyWithLang (R := toyRegexp)
      { lang := "js", internal := ["./", "@/"], private_ := ["."] } "./utils" "js"
      = Category.Internal :=
  (ClassifyWithLang_precedence toyRegexp jsTestConfig
    { lang := "js", internal := ["./", "@/"], private_ := ["."] } (by rfl)
    "./utils" "js").2.1 (by decide) (by decide) (by decide)

/-- Witness of C9: all three patterns of `jsTestConfig` compile, so `New`
returns a classifier. -/
theorem New_error_iff_invalid_pattern_witness :
    ∃ c, New toyRegexp jsTestConfig = .ok c ∧ c.lang = jsTestConfig.Language ∧
      List.Forall₂ (fun p re => toyRegexp.Compile p = .ok re)
        jsTestConfig.Classify.Internal c.internal ∧
      List.Forall₂ (fun p re => toyRegexp.Compile p = .ok re)
        jsTestConfig.Classify.Private c.private_ ∧
      c.internal.length = jsTestConfig.Classify.Internal.length ∧
      c.private_.length = jsTestConfig.Classify.Private.length ∧
      ∀ imp lang, ∃ cat, ClassifyWithLang c imp lang = cat :=
  (New_error_iff_invalid_pattern toyRegexp jsTestConfig).2 (by
    intro p hp
    simp only [jsTestConfig, List.cons_append, List.nil_append, List.mem_cons,
      List.mem_singleton, List.not_mem_nil, or_false] at hp
    rcases hp with rfl | rfl | rfl <;> exact ⟨_, rfl⟩)

/-! ## The collector and the runs of the pipeline -/


theorem collect_error (σ : List result) (files : List FileImports)
    (h : ∃ r ∈ σ, r.err ≠ none) :
    ∃ e, collect σ files = ([], some e) ∧ ∃ r ∈ σ, r.err = some e := by
  induction σ generalizing files with
  | nil => simp at h
  | cons r rest ih =>
    cases hr : r.err with
    | some e =>
      exact ⟨e, by simp [collect, hr], r, List.mem_cons_self _ _, hr⟩
    | none =>
      have h2 : ∃ r ∈ rest, r.err ≠ none := by
        obtain ⟨r2, hmem, hne⟩ := h
        rcases List.mem_cons.1 hmem with rfl | hmem
        · exact absurd hr hne
        · exact ⟨r2, hmem, hne⟩
      cases hf : r.fi with
      | some fi =>
        obtain ⟨e, he, r2, hmem, hr2⟩ := ih (files ++ [fi]) h2
        exact ⟨e, by simp [collect, hr, hf, he], r2, List.mem_cons_of_mem _ hmem, hr2⟩
      | none =>
        obtain ⟨e, he, r2, hmem, hr2⟩ := ih files h2
        exact ⟨e, by simp [collect, hr, hf, he], r2, List.mem_cons_of_mem _ hmem, hr2⟩

theorem collect_ok (σ : List result) (files : List FileImports)
    (h : ∀ r ∈ σ, r.err = none) :
    collect σ files = (files ++ σ.filterMap (fun r => r.fi), none) := by
  induction σ generalizing files with
  | nil => simp [collect]
  | cons r rest ih =>
    have hr : r.err = none := h r (List.mem_cons_self _ _)
    have h2 : ∀ r ∈ rest, r.err = none := fun x hx => h x (List.mem_cons_of_mem _ hx)
    cases hf : r.fi with
    | some fi => simp [collect, hr, hf, ih _ h2, List.filterMap_cons]
    | none => simp [collect, hr, hf, ih _ h2, List.filterMap_cons]

theorem collect_cases (σ : List result) (files : List FileImports) :
    ((∀ r ∈ σ, r.err = none) ∧
        collect σ files = (files ++ σ.filterMap (fun r => r.fi), none)) ∨
    (∃ e, collect σ files = ([], some e) ∧ ∃ r ∈ σ, r.err = some e) := by
  by_cases h : ∀ r ∈ σ, r.err = none
  · exact Or.inl ⟨h, collect_ok σ files h⟩
  · right
    push_neg at h
    exact collect_error σ files h

theorem perm_cons_eraseIdx {α : Type} (l : List α) (i : Nat) (r : α) (h : l[i]? = some r) :
    (r :: l.eraseIdx i).Perm l := by
  induction l generalizing i with
  | nil => simp at h
  | cons a l ih =>
    cases i with
    | zero =>
      simp only [List.getElem?_cons_zero, Option.some.injEq] at h
      subst h
      simp
    | succ i =>
      simp only [List.getElem?_cons_succ] at h
      simp only [List.eraseIdx_cons_succ]
      exact (List.Perm.swap a r _).trans ((ih i h).cons a)

/-- Every run is the collector's loop over some arrival order of the
outstanding results. -/
theorem run_eq_collect (numWorkers : Nat) (parse : String → result) (sched : List Event) :
    ∀ st : Pipeline, ∃ σ, σ.Perm (outstanding parse st) ∧
      run numWorkers parse sched st = collect σ st.files := by
  induction sched with
  | nil => intro st; exact ⟨_, List.Perm.refl _, rfl⟩
  | cons ev rest ih =>
    intro st
    cases ev with
    | dispatch =>
      cases hp : st.paths with
      | nil =>
        obtain ⟨σ, hσ, hrun⟩ := ih st
        exact ⟨σ, hσ, by simp [run, step, hp, hrun]⟩
      | cons p ps =>
        by_cases hw : st.pending.length < numWorkers
        · obtain ⟨σ, hσ, hrun⟩ := ih { st with paths := ps, pending := st.pending ++ [parse p] }
          refine ⟨σ, ?_, by simp [run, step, hp, hw, hrun]⟩
          simpa [outstanding, hp] using hσ
        · obtain ⟨σ, hσ, hrun⟩ := ih st
          exact ⟨σ, hσ, by simp [run, step, hp, hw, hrun]⟩
    | deliver i =>
      cases hi : st.pending[i]? with
      | none =>
        obtain ⟨σ, hσ, hrun⟩ := ih st
        exact ⟨σ, hσ, by simp [run, step, hi, hrun]⟩
      | some r =>
        have hperm : (r :: st.pending.eraseIdx i).Perm st.pending :=
          perm_cons_eraseIdx _ _ _ hi
        have hout : ∀ τ : List result,
            (r :: (st.pending.eraseIdx i ++ τ)).Perm (st.pending ++ τ) := fun τ =>
          List.Perm.append_right τ hperm
        cases he : r.err with
        | some e =>
          refine ⟨r :: (st.pending.eraseIdx i ++ (st.paths.map parse ++ walkerResult st.walkErr)),
            ?_, by simp [run, step, hi, he, collect]⟩
          simpa [outstanding] using hout _
        | none =>
          cases hf : r.fi with
          | some fi =>
            obtain ⟨σ, hσ, hrun⟩ :=
              ih { st with pending := st.pending.eraseIdx i, files := st.files ++ [fi] }
            refine ⟨r :: σ, ?_, by simp [run, step, hi, he, hf, collect, hrun]⟩
            refine (List.Perm.cons r hσ).trans ?_
            simpa [outstanding] using hout _
          | none =>
            obtain ⟨σ, hσ, hrun⟩ := ih { st with pending := st.pending.eraseIdx i }
            refine ⟨r :: σ, ?_, by simp [run, step, hi, he, hf, collect, hrun]⟩
            refine (List.Perm.cons r hσ).trans ?_
            simpa [outstanding] using hout _
    | walkerError =>
      cases hp : st.paths with
      | cons p ps =>
        obtain ⟨σ, hσ, hrun⟩ := ih st
        exact ⟨σ, hσ, by simp [run, step, hp, hrun]⟩
      | nil =>
        cases hw : st.walkErr with
        | none =>
          obtain ⟨σ, hσ, hrun⟩ := ih st
          exact ⟨σ, hσ, by simp [run, step, hp, hw, hrun]⟩
        | some e =>
          refine ⟨{ fi := none, err := some e } :: st.pending, ?_,
            by simp [run, step, hp, hw, collect]⟩
          simp only [outstanding, hp, hw, walkerResult, List.map_nil, List.append_nil]
          exact List.perm_append_singleton _ _ |>.symm


theorem walkAndParse_eq_collect (numWorkers : Nat) (sched : List Event)
    (tree : Except String Entry) (root : String) (skip : List String)
    (shouldInclude : String → FileInfo → Bool) (parse : parseFunc) :
    ∃ σ, σ.Perm ((filepathWalk root tree (walkerFunc skip shouldInclude)).1.map (parse root) ++
          walkerResult (filepathWalk root tree (walkerFunc skip shouldInclude)).2) ∧
      walkAndParse numWorkers sched tree root skip shouldInclude parse = collect σ [] := by
  obtain ⟨σ, hσ, hrun⟩ := run_eq_collect numWorkers (parse root) sched
    { paths := (filepathWalk root tree (walkerFunc skip shouldInclude)).1,
      walkErr := (filepathWalk root tree (walkerFunc skip shouldInclude)).2,
      pending := [], files := [] }
  exact ⟨σ, by simpa [outstanding] using hσ, hrun⟩

theorem mem_walkerResult (w : Option String) (r : result) :
    r ∈ walkerResult w ↔ ∃ e, w = some e ∧ r = { fi := none, err := some e } := by
  cases w <;> simp [walkerResult]

theorem filterMap_walkerResult (w : Option String) :
    (walkerResult w).filterMap (fun r => r.fi) = [] := by
  cases w <;> simp [walkerResult]

/-- The two outcomes of `walkAndParse`: every candidate parses without error,
the walk ends without error and the records are returned in some arrival
order; or one of the errors is returned with no records. -/
theorem walkAndParse_cases (numWorkers : Nat) (sched : List Event)
    (tree : Except String Entry) (root : String) (skip : List String)
    (shouldInclude : String → FileInfo → Bool) (parse : parseFunc) :
    ((filepathWalk root tree (walkerFunc skip shouldInclude)).2 = none ∧
      (∀ p ∈ (filepathWalk root tree (walkerFunc skip shouldInclude)).1,
        (parse root p).err = none) ∧
      (walkAndParse numWorkers sched tree root skip shouldInclude parse).2 = none ∧
      (walkAndParse numWorkers sched tree root skip shouldInclude parse).1.Perm
        ((filepathWalk root tree (walkerFunc skip shouldInclude)).1.filterMap
          fun p => (parse root p).fi)) ∨
    (∃ e, walkAndParse numWorkers sched tree root skip shouldInclude parse = ([], some e) ∧
      ((filepathWalk root tree (walkerFunc skip shouldInclude)).2 = some e ∨
        ∃ p ∈ (filepathWalk root tree (walkerFunc skip shouldInclude)).1,
          (parse root p).err = some e)) := by
  obtain ⟨σ, hσ, hrun⟩ :=
    walkAndParse_eq_collect numWorkers sched tree root skip shouldInclude parse
  rw [hrun]
  rcases collect_cases σ [] with ⟨hall, hc⟩ | ⟨e, hc, r, hr, hre⟩
  · left
    have hall2 : ∀ r ∈ (filepathWalk root tree (walkerFunc skip shouldInclude)).1.map
        (parse root) ++ walkerResult (filepathWalk root tree (walkerFunc skip shouldInclude)).2,
        r.err = none := fun r hr => hall r (hσ.mem_iff.2 hr)
    refine ⟨?_, ?_, by rw [hc], ?_⟩
    · cases hw : (filepathWalk root tree (walkerFunc skip shouldInclude)).2 with
      | none => rfl
      | some e =>
        have := hall2 { fi := none, err := some e }
          (List.mem_append_right _ (by rw [hw]; simp [walkerResult]))
        cases this
    · intro p hp
      exact hall2 _ (List.mem_append_left _ (List.mem_map_of_mem _ hp))
    · rw [hc]
      simp only [List.nil_append]
      refine (hσ.filterMap _).trans ?_
      rw [List.filterMap_append, filterMap_walkerResult, List.append_nil, List.filterMap_map]
      rfl
  · right
    refine ⟨e, hc, ?_⟩
    rcases List.mem_append.1 (hσ.mem_iff.1 hr) with h | h
    · obtain ⟨p, hp, rfl⟩ := List.mem_map.1 h
      exact Or.inr ⟨p, hp, hre⟩
    · obtain ⟨e2, hw, rfl⟩ := (mem_walkerResult _ _).1 h
      simp only [Option.some.injEq] at hre
      subst hre
      exact Or.inl hw

/-- C3: when the walk ends with an error or the parse of a candidate path
returns one, `walkAndParse` returns one of these errors and the empty record
list, under every schedule (so whatever was collected before); an error never
comes with records, and a result without error means that nothing failed. -/
theorem walkAndParse_fail_fast (numWorkers : Nat) (sched : List Event)
    (tree : Except String Entry) (root : String) (skip : List String)
    (shouldInclude : String → FileInfo → Bool) (parse : parseFunc) :
    (((filepathWalk root tree (walkerFunc skip shouldInclude)).2 ≠ none ∨
        ∃ p ∈ (filepathWalk root tree (walkerFunc skip shouldInclude)).1,
          (parse root p).err ≠ none) →
      ∃ e, walkAndParse numWorkers sched tree root skip shouldInclude parse = ([], some e) ∧
        ((filepathWalk root tree (walkerFunc skip shouldInclude)).2 = some e ∨
          ∃ p ∈ (filepathWalk root tree (walkerFunc skip shouldInclude)).1,
            (parse root p).err = some e)) ∧
    (∀ e, (walkAndParse numWorkers sched tree root skip shouldInclude parse).2 = some e →
      (walkAndParse numWorkers sched tree root skip shouldInclude parse).1 = []) ∧
    ((walkAndParse numWorkers sched tree root skip shouldInclude parse).2 = none →
      (filepathWalk root tree (walkerFunc skip shouldInclude)).2 = none ∧
      ∀ p ∈ (filepathWalk root tree (walkerFunc skip shouldInclude)).1,
        (parse root p).err = none) := by
  rcases walkAndParse_cases numWorkers sched tree root skip shouldInclude parse with
    ⟨hw, hp, hn, -⟩ | ⟨e, he, hsrc⟩
  · refine ⟨?_, ?_, fun _ => ⟨hw, hp⟩⟩
    · rintro (h | ⟨p, hmem, hne⟩)
      · exact absurd hw h
      · exact absurd (hp p hmem) hne
    · intro e he
      rw [hn] at he
      cases he
  · refine ⟨fun _ => ⟨e, he, hsrc⟩, ?_, ?_⟩
    · intro _ _
      rw [he]
    · intro h
      rw [he] at h
      cases h

/-- C5: when `walkAndParse` reports no error, the records it returns are a
permutation of the records the parse calls on the candidate paths returned:
one entry per candidate with a record, none missing, none twice; if every
candidate has a record there are as many records as candidates. -/
theorem walkAndParse_records_perm (numWorkers : Nat) (sched : List Event)
    (tree : Except String Entry) (root : String) (skip : List String)
    (shouldInclude : String → FileInfo → Bool) (parse : parseFunc)
    (hok : (walkAndParse numWorkers sched tree root skip shouldInclude parse).2 = none) :
    (walkAndParse numWorkers sched tree root skip shouldInclude parse).1.Perm
      ((filepathWalk root tree (walkerFunc skip shouldInclude)).1.filterMap
        fun p => (parse root p).fi) ∧
    (∀ fi, (walkAndParse numWorkers sched tree root skip shouldInclude parse).1.count fi =
      ((filepathWalk root tree (walkerFunc skip shouldInclude)).1.filterMap
        fun p => (parse root p).fi).count fi) ∧
    ((∀ p ∈ (filepathWalk root tree (walkerFunc skip shouldInclude)).1,
        (parse root p).fi ≠ none) →
      (walkAndParse numWorkers sched tree root skip shouldInclude parse).1.length =
        (filepathWalk root tree (walkerFunc skip shouldInclude)).1.length) := by
  rcases walkAndParse_cases numWorkers sched tree root skip shouldInclude parse with
    ⟨-, -, -, hperm⟩ | ⟨e, he, -⟩
  · refine ⟨hperm, fun fi => hperm.count_eq fi, ?_⟩
    intro hall
    rw [hperm.length_eq]
    generalize (filepathWalk root tree (walkerFunc skip shouldInclude)).1 = ps at hall
    induction ps with
    | nil => rfl
    | cons p ps ih =>
      cases hf : (parse root p).fi with
      | none => exact absurd hf (hall p (List.mem_cons_self _ _))
      | some fi =>
        simp only [List.filterMap_cons, hf, List.length_cons]
        rw [ih fun q hq => hall q (List.mem_cons_of_mem _ hq)]
  · rw [he] at hok
    cases hok

/-! ## The walker -/


theorem walkerYields_pruned (skip : List String) (inc : String → FileInfo → Bool)
    (x : String × FileInfo × List String) (h : ∃ n ∈ x.2.2, n ∈ skip) :
    walkerYields skip inc x = false := by
  obtain ⟨n, hn, hs⟩ := h
  have : (x.2.2.all fun n => decide (n ∉ skip)) = false := by
    rw [List.all_eq_false]
    exact ⟨n, hn, by simpa using hs⟩
  unfold walkerYields
  rw [this, Bool.and_false]

mutual
theorem entriesOf_above (path : String) (above : List String) (e : Entry) :
    ∀ x ∈ entriesOf path above e, ∀ n ∈ above, n ∈ x.2.2 := by
  cases e with
  | file n => intro x hx; simp [entriesOf] at hx; subst hx; simp
  | lstatErr n err => intro x hx; simp [entriesOf] at hx
  | dirErr n err => intro x hx; simp [entriesOf] at hx; subst hx; simp
  | dir n cs =>
    intro x hx m hm
    simp only [entriesOf, List.mem_cons] at hx
    rcases hx with rfl | hx
    · exact hm
    · exact entriesOfList_above path (above ++ [n]) cs x hx m (List.mem_append_left _ hm)
theorem entriesOfList_above (path : String) (above : List String) (es : List Entry) :
    ∀ x ∈ entriesOfList path above es, ∀ n ∈ above, n ∈ x.2.2 := by
  cases es with
  | nil => intro x hx; simp [entriesOfList] at hx
  | cons e rest =>
    intro x hx m hm
    simp only [entriesOfList, List.mem_append] at hx
    rcases hx with hx | hx
    · exact entriesOf_above _ above e x hx m hm
    · exact entriesOfList_above path above rest x hx m hm
end

theorem filter_entriesOfList_pruned (skip : List String) (inc : String → FileInfo → Bool)
    (path : String) (above : List String) (es : List Entry) (h : ∃ n ∈ above, n ∈ skip) :
    (entriesOfList path above es).filter (walkerYields skip inc) = [] := by
  rw [List.filter_eq_nil_iff]
  intro x hx
  obtain ⟨n, hn, hs⟩ := h
  rw [walkerYields_pruned skip inc x ⟨n, entriesOfList_above path above es x hx n hn, hs⟩]
  simp


theorem all_not_skip (skip above : List String) (h : ∀ n ∈ above, n ∉ skip) :
    (above.all fun n => decide (n ∉ skip)) = true := by
  rw [List.all_eq_true]
  intro n hn
  simpa using h n hn

theorem walkerFunc_file (skip : List String) (inc : String → FileInfo → Bool) (path n : String) :
    walkerFunc skip inc path (some { Name := n, IsDir := false }) none =
      (if inc path { Name := n, IsDir := false } then [path] else [], none) := by
  unfold walkerFunc
  by_cases h : inc path { Name := n, IsDir := false } = true <;> simp [h]

theorem walkerFunc_dir (skip : List String) (inc : String → FileInfo → Bool) (path n : String) :
    walkerFunc skip inc path (some { Name := n, IsDir := true }) none =
      if n ∈ skip then ([], some WalkError.SkipDir)
      else (if inc path { Name := n, IsDir := true } then [path] else [], none) := by
  unfold walkerFunc
  by_cases hs : n ∈ skip
  · simp [hs]
  · by_cases h : inc path { Name := n, IsDir := true } = true <;> simp [hs, h]

theorem walkerFunc_err (skip : List String) (inc : String → FileInfo → Bool) (path : String)
    (info : Option FileInfo) (err : String) :
    walkerFunc skip inc path info (some err) = ([], some (WalkError.other err)) := by
  unfold walkerFunc
  rfl

theorem walkerYields_at (skip : List String) (inc : String → FileInfo → Bool) (path : String)
    (info : FileInfo) (above : List String) (habove : ∀ n ∈ above, n ∉ skip) :
    walkerYields skip inc (path, info, above) =
      (inc path info && !(info.IsDir && decide (info.Name ∈ skip))) := by
  unfold walkerYields
  rw [all_not_skip skip above habove, Bool.and_true]

theorem expected_file (skip : List String) (inc : String → FileInfo → Bool) (path : String)
    (above : List String) (n : String) (habove : ∀ n ∈ above, n ∉ skip) :
    ((entriesOf path above (.file n)).filter (walkerYields skip inc)).map (fun x => x.1) =
      if inc path { Name := n, IsDir := false } then [path] else [] := by
  rw [entriesOf, List.filter_cons, walkerYields_at skip inc path _ above habove]
  by_cases h : inc path { Name := n, IsDir := false } = true <;> simp [h]

theorem expected_dir (skip : List String) (inc : String → FileInfo → Bool) (path : String)
    (above : List String) (n : String) (cs : List Entry) (habove : ∀ n ∈ above, n ∉ skip) :
    ((entriesOf path above (.dir n cs)).filter (walkerYields skip inc)).map (fun x => x.1) =
      if n ∈ skip then []
      else (if inc path { Name := n, IsDir := true } then [path] else []) ++
        ((entriesOfList path (above ++ [n]) cs).filter (walkerYields skip inc)).map
          (fun x => x.1) := by
  rw [entriesOf, List.filter_cons, walkerYields_at skip inc path _ above habove]
  by_cases hs : n ∈ skip
  · rw [filter_entriesOfList_pruned skip inc path (above ++ [n]) cs ⟨n, by simp, hs⟩]
    simp [hs]
  · by_cases h : inc path { Name := n, IsDir := true } = true <;> simp [h, hs]

theorem expected_cons (skip : List String) (inc : String → FileInfo → Bool) (path : String)
    (above : List String) (e : Entry) (rest : List Entry) :
    ((entriesOfList path above (e :: rest)).filter (walkerYields skip inc)).map (fun x => x.1) =
      ((entriesOf (filepathJoin path e.name) above e).filter (walkerYields skip inc)).map
          (fun x => x.1) ++
        ((entriesOfList path above rest).filter (walkerYields skip inc)).map (fun x => x.1) := by
  rw [entriesOfList, List.filter_append, List.map_append]

mutual
theorem walk_spec (skip : List String) (inc : String → FileInfo → Bool) (path : String)
    (above : List String) (e : Entry) (habove : ∀ n ∈ above, n ∉ skip) :
    (walk (walkerFunc skip inc) path e).1 <+:
        ((entriesOf path above e).filter (walkerYields skip inc)).map (fun x => x.1) ∧
      ((∀ m, (walk (walkerFunc skip inc) path e).2 ≠ some (WalkError.other m)) →
        (walk (walkerFunc skip inc) path e).1 =
          ((entriesOf path above e).filter (walkerYields skip inc)).map (fun x => x.1)) := by
  cases e with
  | file n =>
    rw [expected_file skip inc path above n habove, walk, walkerFunc_file]
    exact ⟨List.prefix_refl _, fun _ => rfl⟩
  | lstatErr n err =>
    rw [walk, walkerFunc_err]
    exact ⟨List.nil_prefix, fun h => absurd rfl (h err)⟩
  | dirErr n err =>
    rw [walk, walkerFunc_err]
    exact ⟨List.nil_prefix, fun h => absurd rfl (h err)⟩
  | dir n cs =>
    rw [expected_dir skip inc path above n cs habove, walk, walkerFunc_dir]
    by_cases hs : n ∈ skip
    · simp [hs]
    · have habove2 : ∀ m ∈ above ++ [n], m ∉ skip := by
        intro m hm
        rcases List.mem_append.1 hm with hm | hm
        · exact habove m hm
        · simp only [List.mem_singleton] at hm
          subst hm
          exact hs
      obtain ⟨ih1, ih2⟩ := walkEntries_spec skip inc path (above ++ [n]) cs habove2
      simp only [hs, if_false]
      exact ⟨(List.prefix_append_right_inj _).2 ih1, fun hno => by rw [ih2 hno]⟩
theorem walkEntries_spec (skip : List String) (inc : String → FileInfo → Bool) (path : String)
    (above : List String) (es : List Entry) (habove : ∀ n ∈ above, n ∉ skip) :
    (walkEntries (walkerFunc skip inc) path es).1 <+:
        ((entriesOfList path above es).filter (walkerYields skip inc)).map (fun x => x.1) ∧
      ((∀ m, (walkEntries (walkerFunc skip inc) path es).2 ≠ some (WalkError.other m)) →
        (walkEntries (walkerFunc skip inc) path es).1 =
          ((entriesOfList path above es).filter (walkerYields skip inc)).map (fun x => x.1)) := by
  cases es with
  | nil =>
    simp [walkEntries, entriesOfList]
  | cons e rest =>
    obtain ⟨ir1, ir2⟩ := walkEntries_spec skip inc path above rest habove
    rw [expected_cons]
    cases e with
    | file n =>
      have ie := walk_spec skip inc (filepathJoin path n) above (.file n) habove
      rw [walk, walkerFunc_file] at ie
      rw [walkEntries, walk, walkerFunc_file]
      simp only [Entry.name]
      exact ⟨by rw [← ie.2 (by simp)]; exact (List.prefix_append_right_inj _).2 ir1,
        fun hno => by rw [← ie.2 (by simp), ir2 hno]⟩
    | lstatErr n err =>
      rw [walkEntries, walkerFunc_err]
      simp only [Entry.name, entriesOf, List.filter_nil, List.map_nil, List.nil_append]
      exact ⟨List.nil_prefix, fun h => absurd rfl (h err)⟩
    | dirErr n err =>
      rw [walkEntries, walk, walkerFunc_err]
      exact ⟨List.nil_prefix, fun h => absurd rfl (h err)⟩
    | dir n cs =>
      have ie := walk_spec skip inc (filepathJoin path n) above (.dir n cs) habove
      rw [walkEntries]
      simp only [Entry.name]
      generalize hw : walk (walkerFunc skip inc) (filepathJoin path n) (.dir n cs) = w at ie
      obtain ⟨sent, r⟩ := w
      cases r with
      | none =>
        simp only at ie ⊢
        exact ⟨by rw [← ie.2 (by simp)]; exact (List.prefix_append_right_inj _).2 ir1,
          fun hno => by rw [← ie.2 (by simp), ir2 hno]⟩
      | some err =>
        cases err with
        | SkipDir =>
          simp only at ie ⊢
          exact ⟨by rw [← ie.2 (by simp)]; exact (List.prefix_append_right_inj _).2 ir1,
            fun hno => by rw [← ie.2 (by simp), ir2 hno]⟩
        | other m =>
          simp only at ie ⊢
          exact ⟨ie.1.trans (List.prefix_append _ _), fun h => absurd rfl (h m)⟩
end


theorem filepathWalk_spec (skip : List String) (inc : String → FileInfo → Bool) (root : String)
    (tree : Except String Entry) :
    walkerPaths root tree skip inc <+:
        ((treeEntries root tree).filter (walkerYields skip inc)).map (fun x => x.1) ∧
      ((filepathWalk root tree (walkerFunc skip inc)).2 = none →
        walkerPaths root tree skip inc =
          ((treeEntries root tree).filter (walkerYields skip inc)).map (fun x => x.1)) := by
  unfold walkerPaths
  cases tree with
  | error err =>
    simp [filepathWalk, walkerFunc_err, treeEntries]
  | ok e =>
    obtain ⟨h1, h2⟩ := walk_spec skip inc root [] e (by simp)
    simp only [filepathWalk, treeEntries]
    generalize walk (walkerFunc skip inc) root e = w at h1 h2
    obtain ⟨sent, r⟩ := w
    cases r with
    | none => exact ⟨h1, fun _ => h2 (by simp)⟩
    | some err =>
      cases err with
      | SkipDir => exact ⟨h1, fun _ => h2 (by simp)⟩
      | other m => exact ⟨h1, fun h => by simp at h⟩

theorem goInclude_dir (path : String) (info : FileInfo) (h : info.IsDir = true) :
    goInclude path info = false := by
  simp [goInclude, h]

theorem tsInclude_dir (path : String) (info : FileInfo) (h : info.IsDir = true) :
    tsInclude path info = false := by
  simp [tsInclude, h]

theorem specYields_eq_walkerYields (skip : List String) (inc : String → FileInfo → Bool)
    (hinc : ∀ p info, info.IsDir = true → inc p info = false)
    (x : String × FileInfo × List String) :
    walkerYields skip inc x = specYields skip inc x := by
  unfold walkerYields specYields
  cases hd : x.2.1.IsDir with
  | false => simp
  | true => simp [hinc x.1 x.2.1 hd]

/-- C10, as the walker behaves: whatever the tree, the prune set and the
inclusion predicate, every path the walker sends belongs to an entry that
satisfies the inclusion predicate, is not itself a pruned directory and has no
directory with a pruned base name on the way from the root to it; when the walk
ends without error the paths sent are exactly these, in walk order; and when
the inclusion predicate rejects directories, as those of the Go and the
tree-sitter scanner do, they are exactly the non-directories that satisfy the
predicate with no pruned directory on the way from the root. -/
theorem walker_yields_iff (root : String) (tree : Except String Entry) (skip : List String)
    (shouldInclude : String → FileInfo → Bool) :
    (∀ p ∈ walkerPaths root tree skip shouldInclude,
      ∃ x ∈ treeEntries root tree, x.1 = p ∧ shouldInclude x.1 x.2.1 = true ∧
        ¬ (x.2.1.IsDir = true ∧ x.2.1.Name ∈ skip) ∧ ∀ n ∈ x.2.2, n ∉ skip) ∧
    ((filepathWalk root tree (walkerFunc skip shouldInclude)).2 = none →
      walkerPaths root tree skip shouldInclude =
        ((treeEntries root tree).filter (walkerYields skip shouldInclude)).map (fun x => x.1)) ∧
    ((filepathWalk root tree (walkerFunc skip shouldInclude)).2 = none →
      (∀ p info, info.IsDir = true → shouldInclude p info = false) →
      walkerPaths root tree skip shouldInclude =
          ((treeEntries root tree).filter (specYields skip shouldInclude)).map (fun x => x.1) ∧
        ∀ p, p ∈ walkerPaths root tree skip shouldInclude ↔
          ∃ x ∈ treeEntries root tree, x.1 = p ∧ x.2.1.IsDir = false ∧
            shouldInclude x.1 x.2.1 = true ∧ ∀ n ∈ x.2.2, n ∉ skip) ∧
    (∀ p info, info.IsDir = true → goInclude p info = false) ∧
    (∀ p info, info.IsDir = true → tsInclude p info = false) := by
  obtain ⟨hpre, heq⟩ := filepathWalk_spec skip shouldInclude root tree
  refine ⟨?_, heq, ?_, goInclude_dir, tsInclude_dir⟩
  · intro p hp
    obtain ⟨x, hx, rfl⟩ := List.mem_map.1 (hpre.subset hp)
    obtain ⟨hmem, hy⟩ := List.mem_filter.1 hx
    simp only [walkerYields, Bool.and_eq_true, Bool.not_eq_true', Bool.and_eq_false_iff,
      List.all_eq_true, decide_eq_true_eq, decide_eq_false_iff_not] at hy
    refine ⟨x, hmem, rfl, hy.1.1, ?_, hy.2⟩
    rintro ⟨hd, hn⟩
    rcases hy.1.2 with h | h
    · rw [hd] at h; cases h
    · exact h hn
  · intro hok hinc
    have hfun : walkerYields skip shouldInclude = specYields skip shouldInclude :=
      funext (specYields_eq_walkerYields skip shouldInclude hinc)
    have hlist := heq hok
    rw [hfun] at hlist
    refine ⟨hlist, fun p => ?_⟩
    rw [hlist, List.mem_map]
    constructor
    · rintro ⟨x, hx, rfl⟩
      obtain ⟨hmem, hy⟩ := List.mem_filter.1 hx
      simp only [specYields, Bool.and_eq_true, Bool.not_eq_true', List.all_eq_true,
        decide_eq_true_eq] at hy
      exact ⟨x, hmem, rfl, hy.1.1, hy.1.2, hy.2⟩
    · rintro ⟨x, hmem, rfl, hd, hi, hab⟩
      refine ⟨x, List.mem_filter.2 ⟨hmem, ?_⟩, rfl⟩
      simp only [specYields, Bool.and_eq_true, Bool.not_eq_true', List.all_eq_true,
        decide_eq_true_eq]
      exact ⟨⟨hd, hi⟩, hab⟩

/-- Witness of C10: in `nestedTree` with nothing pruned the Go predicate makes
the walker send exactly `r/d/x.go`. -/
theorem walker_yields_iff_witness :
    walkerPaths "r" nestedTree [] goInclude =
        ((treeEntries "r" nestedTree).filter (specYields [] goInclude)).map (fun x => x.1) ∧
      ∀ p, p ∈ walkerPaths "r" nestedTree [] goInclude ↔
        ∃ x ∈ treeEntries "r" nestedTree, x.1 = p ∧ x.2.1.IsDir = false ∧
          goInclude x.1 x.2.1 = true ∧ ∀ n ∈ x.2.2, n ∉ ([] : List String) :=
  (walker_yields_iff "r" nestedTree [] goInclude).2.2.1 (by decide) goInclude_dir

/-- Counterexample to C10 as stated: with an inclusion predicate that accepts
everything the walker sends the directory `r/d`, which is not a non-directory
entry of the tree. -/
theorem walker_yields_directory :
    "r/d" ∈ walkerPaths "r" nestedTree [] (fun _ _ => true) ∧
      ¬ ∃ x ∈ treeEntries "r" nestedTree, x.1 = "r/d" ∧
          specYields [] (fun _ _ => true) x = true := by
  decide

/-! ## The emptiness filter -/

theorem mem_walkAndParse (numWorkers : Nat) (sched : List Event)
    (tree : Except String Entry) (root : String) (skip : List String)
    (shouldInclude : String → FileInfo → Bool) (parse : parseFunc) (fi : FileImports)
    (h : fi ∈ (walkAndParse numWorkers sched tree root skip shouldInclude parse).1) :
    ∃ p ∈ walkerPaths root tree skip shouldInclude, (parse root p).fi = some fi := by
  rcases walkAndParse_cases numWorkers sched tree root skip shouldInclude parse with
    ⟨-, -, -, hperm⟩ | ⟨e, he, -⟩
  · have := hperm.mem_iff.1 h
    rw [List.mem_filterMap] at this
    exact this
  · rw [he] at h
    simp at h

theorem parseGoFile_record (E : Env) (root path : String) (fi : FileImports)
    (h : (parseGoFile E root path).fi = some fi) :
    fi.File = E.Rel root path ∧ fi.Lang = "go" ∧ (fi.Imports ≠ [] ∨ fi.Exports ≠ []) := by
  unfold parseGoFile at h
  cases hr : E.ReadFile path with
  | error err => simp [hr] at h
  | ok src =>
    cases hp : E.ParseFile path src with
    | error err => simp [hr, hp] at h
    | ok file =>
      simp only [hr, hp] at h
      split at h
      · simp at h
      · rename_i hne
        simp only [Option.some.injEq] at h
        subst h
        refine ⟨rfl, rfl, ?_⟩
        simp only [List.length_eq_zero] at hne
        by_contra hcon
        push_neg at hcon
        exact hne hcon

theorem parseFile_record (E : Env) (root path : String) (fi : FileImports)
    (h : (parseFile E root path).fi = some fi) :
    fi.File = E.Rel root path ∧ fi.Lang = "js" ∧ (fi.Imports ≠ [] ∨ fi.Exports ≠ []) := by
  unfold parseFile at h
  cases hr : E.ReadFile path with
  | error err => simp [hr] at h
  | ok src =>
    cases hl : E.SetLanguage (languageForExt (filepathExt path)) with
    | some err => simp [hr, hl] at h
    | none =>
      cases hc : E.CaptureIndexForName (languageForExt (filepathExt path)) "path" with
      | none => simp [hr, hl, hc] at h
      | some pathIdx =>
        simp only [hr, hl, hc] at h
        split at h
        · simp at h
        · rename_i hne
          simp only [Option.some.injEq] at h
          subst h
          refine ⟨rfl, rfl, ?_⟩
          simp only [List.length_eq_zero] at hne
          by_contra hcon
          push_neg at hcon
          exact hne hcon

theorem GoScannerScan_mem (E : Env) (cfg : Config) (numWorkers : Nat) (sched : List Event)
    (tree : Except String Entry) (root : String) (fi : FileImports)
    (h : fi ∈ (GoScannerScan E cfg numWorkers sched tree root).1) :
    ∃ p ∈ walkerPaths root tree (toSet cfg.Exclude) goInclude,
      (parseGoFile E root p).fi = some fi :=
  mem_walkAndParse numWorkers sched tree root _ _ _ fi h

theorem TreeSitterScannerScan_mem (E : Env) (cfg : Config) (numWorkers : Nat)
    (sched : List Event) (tree : Except String Entry) (root : String) (fi : FileImports)
    (h : fi ∈ (TreeSitterScannerScan E cfg numWorkers sched tree root).1) :
    ∃ p ∈ walkerPaths root tree (toSet cfg.Exclude) tsInclude,
      (parseFile E root p).fi = some fi := by
  unfold TreeSitterScannerScan at h
  split at h
  · simp at h
  · exact mem_walkAndParse numWorkers sched tree root _ _ _ fi h

theorem MultiScannerScan_mem (E : Env) (cfg : Config) (numWorkers : Nat)
    (schedGo schedJs : List Event) (tree : Except String Entry) (root : String)
    (fi : FileImports)
    (h : fi ∈ (MultiScannerScan E cfg numWorkers schedGo schedJs tree root).1) :
    fi ∈ (GoScannerScan E cfg numWorkers schedGo tree root).1 ∨
      fi ∈ (TreeSitterScannerScan E cfg numWorkers schedJs tree root).1 := by
  unfold MultiScannerScan at h
  split at h
  · simp at h
  · rename_i goFiles hgo
    split at h
    · simp at h
    · rename_i jsFiles hjs
      rw [hgo, hjs]
      exact List.mem_append.1 h

/-- C6: `parseGoFile` and `parseFile` return neither a record nor an error
exactly when the file was read and parsed and both the extracted import list
and the extracted export list are empty; the collector passes over such a
result; and every record in the output of a Go, tree-sitter or multi scan has
at least one import or at least one export. -/
theorem no_record_iff_empty (E : Env) (root path : String) :
    (parseGoFile E root path = { fi := none, err := none } ↔
      ∃ src file, E.ReadFile path = .ok src ∧ E.ParseFile path src = .ok file ∧
        (file.Imports.map fun imp => stringsTrim imp.PathValue "\"") = [] ∧
        goDeclExports E file.Decls = []) ∧
    (parseFile E root path = { fi := none, err := none } ↔
      ∃ src pathIdx, E.ReadFile path = .ok src ∧
        E.SetLanguage (languageForExt (filepathExt path)) = none ∧
        E.CaptureIndexForName (languageForExt (filepathExt path)) "path" = some pathIdx ∧
        ((pathCaptures pathIdx (E.Matches (languageForExt (filepathExt path))
            (E.Parse (languageForExt (filepathExt path)) src) src)).map
          fun cap => stripQuotes (nodeText src cap.Node.node)) = [] ∧
        extractExports src (E.Parse (languageForExt (filepathExt path)) src) = []) ∧
    (∀ rest files, collect ({ fi := none, err := none } :: rest) files = collect rest files) ∧
    (∀ cfg numWorkers sched tree,
      ∀ fi ∈ (GoScannerScan E cfg numWorkers sched tree root).1,
        fi.Imports ≠ [] ∨ fi.Exports ≠ []) ∧
    (∀ cfg numWorkers sched tree,
      ∀ fi ∈ (TreeSitterScannerScan E cfg numWorkers sched tree root).1,
        fi.Imports ≠ [] ∨ fi.Exports ≠ []) ∧
    (∀ cfg numWorkers schedGo schedJs tree,
      ∀ fi ∈ (MultiScannerScan E cfg numWorkers schedGo schedJs tree root).1,
        fi.Imports ≠ [] ∨ fi.Exports ≠ []) := by
  have hgo : ∀ cfg numWorkers sched tree,
      ∀ fi ∈ (GoScannerScan E cfg numWorkers sched tree root).1,
        fi.Imports ≠ [] ∨ fi.Exports ≠ [] := by
    intro cfg numWorkers sched tree fi hfi
    obtain ⟨p, -, hp⟩ := GoScannerScan_mem E cfg numWorkers sched tree root fi hfi
    exact (parseGoFile_record E root p fi hp).2.2
  have hts : ∀ cfg numWorkers sched tree,
      ∀ fi ∈ (TreeSitterScannerScan E cfg numWorkers sched tree root).1,
        fi.Imports ≠ [] ∨ fi.Exports ≠ [] := by
    intro cfg numWorkers sched tree fi hfi
    obtain ⟨p, -, hp⟩ := TreeSitterScannerScan_mem E cfg numWorkers sched tree root fi hfi
    exact (parseFile_record E root p fi hp).2.2
  refine ⟨?_, ?_, fun _ _ => rfl, hgo, hts, ?_⟩
  · unfold parseGoFile
    cases hr : E.ReadFile path with
    | error err => simp
    | ok src =>
      cases hp : E.ParseFile path src with
      | error err => simp [hp]
      | ok file =>
        simp only [hp, Except.ok.injEq, exists_and_left, exists_eq_left', List.length_eq_zero]
        split <;> simp_all
  · unfold parseFile
    cases hr : E.ReadFile path with
    | error err => simp
    | ok src =>
      cases hl : E.SetLanguage (languageForExt (filepathExt path)) with
      | some err => simp [hl]
      | none =>
        cases hc : E.CaptureIndexForName (languageForExt (filepathExt path)) "path" with
        | none => simp [hl, hc]
        | some pathIdx =>
          simp only [hl, hc, Except.ok.injEq, exists_and_left, exists_eq_left',
            List.length_eq_zero, Option.some.injEq, true_and]
          split <;> simp_all
  · intro cfg numWorkers schedGo schedJs tree fi hfi
    rcases MultiScannerScan_mem E cfg numWorkers schedGo schedJs tree root fi hfi with h | h
    · exact hgo cfg numWorkers schedGo tree fi h
    · exact hts cfg numWorkers schedJs tree fi h


/-! ## Order and repetition in the result of a scan -/

theorem nodup_map_filterMap {α β γ : Type} (l : List α) (f : α → Option β) (g : β → γ)
    (key : α → γ) (hkey : ∀ a b, f a = some b → g b = key a) (hl : l.Nodup)
    (hinj : ∀ a ∈ l, ∀ a' ∈ l, key a = key a' → a = a') :
    ((l.filterMap f).map g).Nodup := by
  induction l with
  | nil => simp
  | cons a l ih =>
    have hl2 := (List.nodup_cons.1 hl)
    have ih2 := ih hl2.2 fun x hx y hy hxy =>
      hinj x (List.mem_cons_of_mem _ hx) y (List.mem_cons_of_mem _ hy) hxy
    cases hf : f a with
    | none => simpa [List.filterMap_cons, hf] using ih2
    | some b =>
      simp only [List.filterMap_cons, hf, List.map_cons, List.nodup_cons]
      refine ⟨?_, ih2⟩
      intro hmem
      obtain ⟨b', hb', hg⟩ := List.mem_map.1 hmem
      obtain ⟨a', ha', hfa'⟩ := List.mem_filterMap.1 hb'
      have hk : key a' = key a := by
        rw [← hkey a' b' hfa', ← hkey a b hf, hg]
      have := hinj a' (List.mem_cons_of_mem _ ha') a (List.mem_cons_self _ _) hk
      subst this
      exact hl2.1 ha'

theorem walkerPaths_sublist (root : String) (tree : Except String Entry) (skip : List String)
    (inc : String → FileInfo → Bool) :
    (walkerPaths root tree skip inc).Sublist ((treeEntries root tree).map fun x => x.1) :=
  (filepathWalk_spec skip inc root tree).1.sublist.trans ((List.filter_sublist _).map _)

theorem walkerPaths_included (root : String) (tree : Except String Entry) (skip : List String)
    (inc : String → FileInfo → Bool) (p : String) (hp : p ∈ walkerPaths root tree skip inc) :
    ∃ info, inc p info = true := by
  obtain ⟨x, hx, rfl⟩ := List.mem_map.1 ((filepathWalk_spec skip inc root tree).1.subset hp)
  have hy := (List.mem_filter.1 hx).2
  simp only [walkerYields, Bool.and_eq_true] at hy
  exact ⟨x.2.1, hy.1.1⟩

theorem filepathExt_go (p : String) (h : stringsHasSuffix p ".go" = true) :
    filepathExt p = ".go" := by
  unfold stringsHasSuffix at h
  rw [List.isSuffixOf, List.isPrefixOf_iff_prefix] at h
  obtain ⟨t, ht⟩ := h
  have hrev : p.data.reverse = 'o' :: 'g' :: '.' :: t := by
    rw [← ht]
    rfl
  unfold filepathExt
  simp only [hrev]
  rfl

theorem goInclude_not_tsInclude (p : String) (info info' : FileInfo)
    (hgo : goInclude p info = true) : tsInclude p info' = false := by
  simp only [goInclude, Bool.and_eq_true] at hgo
  simp [tsInclude, filepathExt_go p hgo.1.2]

theorem walkAndParse_files_nodup (numWorkers : Nat) (sched : List Event)
    (tree : Except String Entry) (root : String) (skip : List String)
    (inc : String → FileInfo → Bool) (parse : parseFunc) (rel : String → String)
    (hfile : ∀ p fi, (parse root p).fi = some fi → fi.File = rel p)
    (hpaths : ((treeEntries root tree).map fun x => x.1).Nodup)
    (hrel : ∀ p ∈ (treeEntries root tree).map (fun x => x.1),
      ∀ q ∈ (treeEntries root tree).map (fun x => x.1), rel p = rel q → p = q)
    (hok : (walkAndParse numWorkers sched tree root skip inc parse).2 = none) :
    (walkAndParse numWorkers sched tree root skip inc parse).1.Perm
        ((walkerPaths root tree skip inc).filterMap fun p => (parse root p).fi) ∧
      ((walkAndParse numWorkers sched tree root skip inc parse).1.map fun fi => fi.File).Nodup := by
  rcases walkAndParse_cases numWorkers sched tree root skip inc parse with
    ⟨-, -, -, hperm⟩ | ⟨e, he, -⟩
  · refine ⟨hperm, (hperm.map _).nodup_iff.2 ?_⟩
    have hsub := walkerPaths_sublist root tree skip inc
    exact nodup_map_filterMap _ _ _ rel hfile (hpaths.sublist hsub)
      fun a ha b hb => hrel a (hsub.subset ha) b (hsub.subset hb)
  · rw [he] at hok
    cases hok


theorem GoScannerScan_nodup (E : Env) (cfg : Config) (numWorkers : Nat) (sched : List Event)
    (tree : Except String Entry) (root : String)
    (hpaths : ((treeEntries root tree).map fun x => x.1).Nodup)
    (hrel : ∀ p ∈ (treeEntries root tree).map (fun x => x.1),
      ∀ q ∈ (treeEntries root tree).map (fun x => x.1), E.Rel root p = E.Rel root q → p = q)
    (hok : (GoScannerScan E cfg numWorkers sched tree root).2 = none) :
    (GoScannerScan E cfg numWorkers sched tree root).1.Perm
        ((walkerPaths root tree (toSet cfg.Exclude) goInclude).filterMap
          fun p => (parseGoFile E root p).fi) ∧
      ((GoScannerScan E cfg numWorkers sched tree root).1.map fun fi => fi.File).Nodup :=
  walkAndParse_files_nodup numWorkers sched tree root _ _ _ (E.Rel root)
    (fun p fi h => (parseGoFile_record E root p fi h).1) hpaths hrel hok

theorem TreeSitterScannerScan_nodup (E : Env) (cfg : Config) (numWorkers : Nat)
    (sched : List Event) (tree : Except String Entry) (root : String)
    (hpaths : ((treeEntries root tree).map fun x => x.1).Nodup)
    (hrel : ∀ p ∈ (treeEntries root tree).map (fun x => x.1),
      ∀ q ∈ (treeEntries root tree).map (fun x => x.1), E.Rel root p = E.Rel root q → p = q)
    (hok : (TreeSitterScannerScan E cfg numWorkers sched tree root).2 = none) :
    (TreeSitterScannerScan E cfg numWorkers sched tree root).1.Perm
        ((walkerPaths root tree (toSet cfg.Exclude) tsInclude).filterMap
          fun p => (parseFile E root p).fi) ∧
      ((TreeSitterScannerScan E cfg numWorkers sched tree root).1.map fun fi => fi.File).Nodup := by
  unfold TreeSitterScannerScan at hok ⊢
  cases hq : compileQueries E [".js", ".jsx", ".ts", ".tsx", ".mjs"] with
  | some err =>
    rw [hq] at hok
    simp at hok
  | none =>
    rw [hq] at hok
    exact walkAndParse_files_nodup numWorkers sched tree root _ _ _ (E.Rel root)
      (fun p fi h => (parseFile_record E root p fi h).1) hpaths hrel hok

theorem MultiScannerScan_ok (E : Env) (cfg : Config) (numWorkers : Nat)
    (schedGo schedJs : List Event) (tree : Except String Entry) (root : String)
    (hok : (MultiScannerScan E cfg numWorkers schedGo schedJs tree root).2 = none) :
    (GoScannerScan E cfg numWorkers schedGo tree root).2 = none ∧
      (TreeSitterScannerScan E cfg numWorkers schedJs tree root).2 = none ∧
      (MultiScannerScan E cfg numWorkers schedGo schedJs tree root).1 =
        (GoScannerScan E cfg numWorkers schedGo tree root).1 ++
          (TreeSitterScannerScan E cfg numWorkers schedJs tree root).1 := by
  unfold MultiScannerScan at hok ⊢
  split at hok
  · simp at hok
  · rename_i goFiles hgo
    split at hok
    · simp at hok
    · rename_i jsFiles hjs
      simp [hgo, hjs]

/-- C2, as the scans behave: a scan that reports no error returns the records
parsed from the candidate files in the order in which they reached the
collector, a permutation of the records in walk order and not an ascending
sequence in general; if the paths of the tree's entries are pairwise distinct
and `filepath.Rel` keeps them distinct, no two records of a Go scan, of a
tree-sitter scan or of a multi scan have the same `File`; a multi scan returns
the records of the Go scan followed by those of the tree-sitter scan. -/
theorem scan_records_distinct (E : Env) (cfg : Config) (numWorkers : Nat)
    (schedGo schedJs : List Event) (tree : Except String Entry) (root : String)
    (hpaths : ((treeEntries root tree).map fun x => x.1).Nodup)
    (hrel : ∀ p ∈ (treeEntries root tree).map (fun x => x.1),
      ∀ q ∈ (treeEntries root tree).map (fun x => x.1), E.Rel root p = E.Rel root q → p = q) :
    ((GoScannerScan E cfg numWorkers schedGo tree root).2 = none →
      (GoScannerScan E cfg numWorkers schedGo tree root).1.Perm
          ((walkerPaths root tree (toSet cfg.Exclude) goInclude).filterMap
            fun p => (parseGoFile E root p).fi) ∧
        ((GoScannerScan E cfg numWorkers schedGo tree root).1.map fun fi => fi.File).Nodup) ∧
    ((TreeSitterScannerScan E cfg numWorkers schedJs tree root).2 = none →
      (TreeSitterScannerScan E cfg numWorkers schedJs tree root).1.Perm
          ((walkerPaths root tree (toSet cfg.Exclude) tsInclude).filterMap
            fun p => (parseFile E root p).fi) ∧
        ((TreeSitterScannerScan E cfg numWorkers schedJs tree root).1.map
          fun fi => fi.File).Nodup) ∧
    ((MultiScannerScan E cfg numWorkers schedGo schedJs tree root).2 = none →
      (MultiScannerScan E cfg numWorkers schedGo schedJs tree root).1 =
          (GoScannerScan E cfg numWorkers schedGo tree root).1 ++
            (TreeSitterScannerScan E cfg numWorkers schedJs tree root).1 ∧
        ((MultiScannerScan E cfg numWorkers schedGo schedJs tree root).1.map
          fun fi => fi.File).Nodup) := by
  refine ⟨GoScannerScan_nodup E cfg numWorkers schedGo tree root hpaths hrel,
    TreeSitterScannerScan_nodup E cfg numWorkers schedJs tree root hpaths hrel, ?_⟩
  intro hok
  obtain ⟨hgo, hjs, heq⟩ := MultiScannerScan_ok E cfg numWorkers schedGo schedJs tree root hok
  refine ⟨heq, ?_⟩
  rw [heq, List.map_append, List.nodup_append]
  refine ⟨(GoScannerScan_nodup E cfg numWorkers schedGo tree root hpaths hrel hgo).2,
    (TreeSitterScannerScan_nodup E cfg numWorkers schedJs tree root hpaths hrel hjs).2, ?_⟩
  intro f hf1 hf2
  obtain ⟨fi1, hfi1, rfl⟩ := List.mem_map.1 hf1
  obtain ⟨fi2, hfi2, hfile⟩ := List.mem_map.1 hf2
  obtain ⟨p, hp, hpf⟩ := GoScannerScan_mem E cfg numWorkers schedGo tree root fi1 hfi1
  obtain ⟨q, hq, hqf⟩ := TreeSitterScannerScan_mem E cfg numWorkers schedJs tree root fi2 hfi2
  have h1 := (parseGoFile_record E root p fi1 hpf).1
  have h2 := (parseFile_record E root q fi2 hqf).1
  have hpq : p = q := by
    apply hrel p ((walkerPaths_sublist root tree _ _).subset hp) q
      ((walkerPaths_sublist root tree _ _).subset hq)
    rw [← h1, ← h2, hfile]
  subst hpq
  obtain ⟨info, hgi⟩ := walkerPaths_included root tree _ _ p hp
  obtain ⟨info', hti⟩ := walkerPaths_included root tree _ _ p hq
  rw [goInclude_not_tsInclude p info info' hgi] at hti
  cases hti

/-- Witness of C2: the Go scan of the two files `a.go` and `b.go` in which the
result for `b.go` reaches the collector first. -/
theorem scan_records_distinct_witness :
    (GoScannerScan exampleEnv goTestConfig 2 [.dispatch, .dispatch, .deliver 1]
        twoGoFiles "r").1.Perm
        ((walkerPaths "r" twoGoFiles (toSet goTestConfig.Exclude) goInclude).filterMap
          fun p => (parseGoFile exampleEnv "r" p).fi) ∧
      ((GoScannerScan exampleEnv goTestConfig 2 [.dispatch, .dispatch, .deliver 1]
        twoGoFiles "r").1.map fun fi => fi.File).Nodup :=
  (scan_records_distinct exampleEnv goTestConfig 2 [.dispatch, .dispatch, .deliver 1] []
    twoGoFiles "r" (by decide) (by decide)).1 (by decide)

/-- Counterexample to C2 as stated: with two workers the result for `b.go` may
reach the collector before the result for `a.go`; the Go scan then succeeds
and returns `b.go` before `a.go`, which is not ascending. -/
theorem scan_not_sorted :
    (GoScannerScan exampleEnv goTestConfig 2 [.dispatch, .dispatch, .deliver 1]
        twoGoFiles "r").2 = none ∧
      (GoScannerScan exampleEnv goTestConfig 2 [.dispatch, .dispatch, .deliver 1]
        twoGoFiles "r").1.map (fun fi => fi.File) = ["b.go", "a.go"] ∧
      ¬ sortedByFile (GoScannerScan exampleEnv goTestConfig 2
        [.dispatch, .dispatch, .deliver 1] twoGoFiles "r").1 := by
  unfold sortedByFile
  decide

/-- C4, as `walkAndParse` behaves: for the same tree, prune set, predicate and
parse function, two runs under any two schedules and worker counts either both
report an error, each with no records, or both succeed, and then they return
the same records, each as often in one as in the other, though not necessarily
in the same order. -/
theorem walkAndParse_runs_agree (n₁ n₂ : Nat) (sched₁ sched₂ : List Event)
    (tree : Except String Entry) (root : String) (skip : List String)
    (shouldInclude : String → FileInfo → Bool) (parse : parseFunc) :
    ((walkAndParse n₁ sched₁ tree root skip shouldInclude parse).2 = none ↔
      (walkAndParse n₂ sched₂ tree root skip shouldInclude parse).2 = none) ∧
    ((walkAndParse n₁ sched₁ tree root skip shouldInclude parse).1.Perm
      (walkAndParse n₂ sched₂ tree root skip shouldInclude parse).1) ∧
    ((walkAndParse n₁ sched₁ tree root skip shouldInclude parse).2 ≠ none →
      (walkAndParse n₁ sched₁ tree root skip shouldInclude parse).1 = [] ∧
      (walkAndParse n₂ sched₂ tree root skip shouldInclude parse).1 = []) := by
  rcases walkAndParse_cases n₁ sched₁ tree root skip shouldInclude parse with
    ⟨hw, hp, hn1, hperm1⟩ | ⟨e1, he1, hsrc1⟩ <;>
  rcases walkAndParse_cases n₂ sched₂ tree root skip shouldInclude parse with
    ⟨hw2, hp2, hn2, hperm2⟩ | ⟨e2, he2, hsrc2⟩
  · exact ⟨by simp [hn1, hn2], hperm1.trans hperm2.symm, fun h => absurd hn1 h⟩
  · exfalso
    rcases hsrc2 with h | ⟨p, hmem, h⟩
    · rw [hw] at h; cases h
    · rw [hp p hmem] at h; cases h
  · exfalso
    rcases hsrc1 with h | ⟨p, hmem, h⟩
    · rw [hw2] at h; cases h
    · rw [hp2 p hmem] at h; cases h
  · rw [he1, he2]
    simp

/-- Counterexample to C4 as stated: on the same two files the run in which the
results arrive in walk order and the run in which the result for `b.go`
arrives first return different sequences. -/
theorem walkAndParse_order_differs :
    walkAndParse 2 [.dispatch, .dispatch, .deliver 0] twoGoFiles "r" [] goInclude
        (parseGoFile exampleEnv) ≠
      walkAndParse 2 [.dispatch, .dispatch, .deliver 1] twoGoFiles "r" [] goInclude
        (parseGoFile exampleEnv) := by
  decide


/-- Witness of C3: `a.go` is parsed and collected, then the read error of
`bad.go` arrives; the scan returns that error and no records. -/
theorem walkAndParse_fail_fast_witness :
    ∃ e, walkAndParse 2 [.dispatch, .deliver 0, .dispatch, .deliver 0] oneBadGoFile "r" []
        goInclude (parseGoFile exampleEnv) = ([], some e) ∧
      ((filepathWalk "r" oneBadGoFile (walkerFunc [] goInclude)).2 = some e ∨
        ∃ p ∈ (filepathWalk "r" oneBadGoFile (walkerFunc [] goInclude)).1,
          (parseGoFile exampleEnv "r" p).err = some e) :=
  (walkAndParse_fail_fast 2 [.dispatch, .deliver 0, .dispatch, .deliver 0] oneBadGoFile "r" []
    goInclude (parseGoFile exampleEnv)).1 (Or.inr ⟨"r/bad.go", by decide, by decide⟩)

/-- Witness of C5: the two Go files give two records, also when the second
result arrives first. -/
theorem walkAndParse_records_perm_witness :
    (walkAndParse 2 [.dispatch, .dispatch, .deliver 1] twoGoFiles "r" [] goInclude
        (parseGoFile exampleEnv)).1.length =
      (filepathWalk "r" twoGoFiles (walkerFunc [] goInclude)).1.length :=
  (walkAndParse_records_perm 2 [.dispatch, .dispatch, .deliver 1] twoGoFiles "r" [] goInclude
    (parseGoFile exampleEnv) (by decide)).2.2 (by decide)

/-- Witness of C6: `r/empty.go` parses to a file without imports and
declarations, so `parseGoFile` returns no record and no error. -/
theorem no_record_iff_empty_witness :
    parseGoFile exampleEnv "r" "r/empty.go" = { fi := none, err := none } :=
  (no_record_iff_empty exampleEnv "r" "r/empty.go").1.2 ⟨_, _, rfl, rfl, rfl, rfl⟩

/-! ## The Go scanner: inclusion predicate -/

theorem stringsHasSuffix_iff (s suf : String) :
    stringsHasSuffix s suf = true ↔ suf.data <:+ s.data := by
  unfold stringsHasSuffix
  exact List.isSuffixOf_iff_suffix

theorem goInclude_iff (path : String) (info : FileInfo) :
    goInclude path info = true ↔
      info.IsDir = false ∧ ".go".data <:+ path.data ∧ ¬ "_test.go".data <:+ path.data := by
  unfold goInclude
  rw [← stringsHasSuffix_iff, ← stringsHasSuffix_iff]
  cases info.IsDir <;> cases stringsHasSuffix path ".go" <;>
    cases stringsHasSuffix path "_test.go" <;> simp

theorem walkerPaths_goInclude (root : String) (tree : Except String Entry) (skip : List String)
    (p : String) (hp : p ∈ walkerPaths root tree skip goInclude) :
    ".go".data <:+ p.data ∧ ¬ "_test.go".data <:+ p.data := by
  obtain ⟨info, hinfo⟩ := walkerPaths_included root tree skip goInclude p hp
  exact ((goInclude_iff p info).1 hinfo).2

theorem filepathJoin_suffix (dir name : String) : name.data <:+ (filepathJoin dir name).data := by
  unfold filepathJoin
  rw [String.data_append]
  exact List.suffix_append _ _

mutual
theorem entriesOf_name_suffix (path : String) (above : List String) (e : Entry)
    (h : e.name.data <:+ path.data) :
    ∀ x ∈ entriesOf path above e, x.2.1.Name.data <:+ x.1.data := by
  cases e with
  | file n => intro x hx; simp [entriesOf] at hx; subst hx; exact h
  | lstatErr n err => intro x hx; simp [entriesOf] at hx
  | dirErr n err => intro x hx; simp [entriesOf] at hx; subst hx; exact h
  | dir n cs =>
    intro x hx
    simp only [entriesOf, List.mem_cons] at hx
    rcases hx with rfl | hx
    · exact h
    · exact entriesOfList_name_suffix path (above ++ [n]) cs x hx
theorem entriesOfList_name_suffix (path : String) (above : List String) (es : List Entry) :
    ∀ x ∈ entriesOfList path above es, x.2.1.Name.data <:+ x.1.data := by
  cases es with
  | nil => intro x hx; simp [entriesOfList] at hx
  | cons e rest =>
    intro x hx
    simp only [entriesOfList, List.mem_append] at hx
    rcases hx with hx | hx
    · exact entriesOf_name_suffix _ above e (filepathJoin_suffix path e.name) x hx
    · exact entriesOfList_name_suffix path above rest x hx
end

/-- C11: the inclusion predicate of the Go scanner accepts a path exactly when
it is not a directory, ends in ".go" and does not end in "_test.go"; hence no
path the walker hands to the workers ends in "_test.go", every record of a Go
scan is the record of such a path, and an entry whose name ends in "_test.go"
is never handed to the workers. -/
theorem goInclude_iff_go_not_test (path : String) (info : FileInfo) :
    (goInclude path info = true ↔
      info.IsDir = false ∧ ".go".data <:+ path.data ∧ ¬ "_test.go".data <:+ path.data) ∧
    (∀ root tree skip, ∀ p ∈ walkerPaths root tree skip goInclude,
      ".go".data <:+ p.data ∧ ¬ "_test.go".data <:+ p.data) ∧
    (∀ (E : Env) cfg numWorkers sched tree root,
      ∀ fi ∈ (GoScannerScan E cfg numWorkers sched tree root).1,
        ∃ p ∈ walkerPaths root tree (toSet cfg.Exclude) goInclude,
          (parseGoFile E root p).fi = some fi ∧ fi.File = E.Rel root p ∧
          ¬ "_test.go".data <:+ p.data ∧
          ((E.Rel root p).data <:+ p.data → ¬ "_test.go".data <:+ fi.File.data)) ∧
    (∀ root e skip, e.name.data <:+ root.data →
      ∀ x ∈ treeEntries root (.ok e), "_test.go".data <:+ x.2.1.Name.data →
        x.1 ∉ walkerPaths root (.ok e) skip goInclude) := by
  refine ⟨goInclude_iff path info, walkerPaths_goInclude, ?_, ?_⟩
  · intro E cfg numWorkers sched tree root fi hfi
    obtain ⟨p, hp, hpf⟩ := GoScannerScan_mem E cfg numWorkers sched tree root fi hfi
    have hfile := (parseGoFile_record E root p fi hpf).1
    have hno := (walkerPaths_goInclude root tree _ p hp).2
    refine ⟨p, hp, hpf, hfile, hno, fun hsuf htest => hno ?_⟩
    rw [hfile] at htest
    exact htest.trans hsuf
  · intro root e skip hroot x hx htest hmem
    have hname := entriesOf_name_suffix root [] e hroot x hx
    exact (walkerPaths_goInclude root (.ok e) skip x.1 hmem).2 (htest.trans hname)

/-- Witness of C11: in a root with `a.go` and `a_test.go` the test file, whose
name ends in "_test.go", is not handed to the workers. -/
theorem goInclude_iff_go_not_test_witness :
    "r/a_test.go" ∉ walkerPaths "r" (.ok (.dir "r" [.file "a.go", .file "a_test.go"])) []
      goInclude :=
  (goInclude_iff_go_not_test "r/a.go" { Name := "a.go", IsDir := false }).2.2.2 "r"
    (.dir "r" [.file "a.go", .file "a_test.go"]) [] (by decide)
    ("r/a_test.go", { Name := "a_test.go", IsDir := false }, ["r"]) (by decide) (by decide)

/-! ## The Go scanner: imports, exports and line count -/

theorem parseGoFile_ok (E : Env) (root path src : String) (file : AstFile)
    (hread : E.ReadFile path = .ok src) (hparse : E.ParseFile path src = .ok file) :
    parseGoFile E root path =
      if (file.Imports.map fun imp => stringsTrim imp.PathValue "\"").length = 0 ∧
          (goDeclExports E file.Decls).length = 0 then { fi := none, err := none }
      else
        { fi := some { File := E.Rel root path, Lang := "go",
                       Imports := file.Imports.map fun imp => stringsTrim imp.PathValue "\"",
                       Details := file.Imports.map (goImportDetail src),
                       Exports := goDeclExports E file.Decls,
                       Lines := countNewlines src + 1 },
          err := none } := by
  unfold parseGoFile
  simp only [hread, hparse]

theorem parseGoFile_fields (E : Env) (root path src : String) (file : AstFile) (fi : FileImports)
    (hread : E.ReadFile path = .ok src) (hparse : E.ParseFile path src = .ok file)
    (hfi : (parseGoFile E root path).fi = some fi) :
    fi.Imports = (file.Imports.map fun imp => stringsTrim imp.PathValue "\"") ∧
      fi.Details = file.Imports.map (goImportDetail src) ∧
      fi.Exports = goDeclExports E file.Decls ∧ fi.Lines = countNewlines src + 1 := by
  rw [parseGoFile_ok E root path src file hread hparse] at hfi
  split at hfi
  · simp at hfi
  · simp only [Option.some.injEq] at hfi
    subst hfi
    exact ⟨rfl, rfl, rfl, rfl⟩

theorem goImportDetail_kind (src : String) (imp : ImportSpec) :
    (imp.Name = none →
      (goImportDetail src imp).Kind = ImportKind.ImportNamed ∧ (goImportDetail src imp).Alias = "") ∧
    (imp.Name = some "_" →
      (goImportDetail src imp).Kind = ImportKind.ImportBlank ∧ (goImportDetail src imp).Alias = "") ∧
    (imp.Name = some "." →
      (goImportDetail src imp).Kind = ImportKind.ImportDot ∧ (goImportDetail src imp).Alias = "") ∧
    (∀ n, imp.Name = some n → n ≠ "_" → n ≠ "." →
      (goImportDetail src imp).Kind = ImportKind.ImportAlias ∧ (goImportDetail src imp).Alias = n) := by
  refine ⟨?_, ?_, ?_, ?_⟩
  · intro h
    unfold goImportDetail
    simp only [h]
    split <;> exact ⟨rfl, rfl⟩
  · intro h
    unfold goImportDetail
    simp only [h, if_true]
    split <;> exact ⟨rfl, rfl⟩
  · intro h
    have hne : ("." : String) ≠ "_" := by decide
    unfold goImportDetail
    simp only [h, hne, if_true, if_false]
    split <;> exact ⟨rfl, rfl⟩
  · intro n h h1 h2
    unfold goImportDetail
    simp only [h, h1, h2, if_false]
    split <;> exact ⟨rfl, rfl⟩

/-- C12: when a Go file is read and parsed, `parseGoFile` returns a record as
soon as the file has an import declaration, and the details of the record
correspond one to one, in source order, to the import declarations: kind Named
without local name, Blank for `_`, Dot for `.`, and Alias with the local name
in the alias field for any other name; the alias field is empty in the first
three cases. -/
theorem parseGoFile_import_kinds (E : Env) (root path src : String) (file : AstFile)
    (hread : E.ReadFile path = .ok src) (hparse : E.ParseFile path src = .ok file) :
    (file.Imports ≠ [] → ∃ fi, (parseGoFile E root path).fi = some fi) ∧
    ∀ fi, (parseGoFile E root path).fi = some fi →
      fi.Details.length = file.Imports.length ∧
      List.Forall₂
        (fun imp d =>
          (imp.Name = none → d.Kind = ImportKind.ImportNamed ∧ d.Alias = "") ∧
          (imp.Name = some "_" → d.Kind = ImportKind.ImportBlank ∧ d.Alias = "") ∧
          (imp.Name = some "." → d.Kind = ImportKind.ImportDot ∧ d.Alias = "") ∧
          (∀ n, imp.Name = some n → n ≠ "_" → n ≠ "." →
            d.Kind = ImportKind.ImportAlias ∧ d.Alias = n))
        file.Imports fi.Details := by
  constructor
  · intro hne
    rw [parseGoFile_ok E root path src file hread hparse]
    rw [if_neg]
    · exact ⟨_, rfl⟩
    · rintro ⟨h, -⟩
      simp only [List.length_map, List.length_eq_zero] at h
      exact hne h
  · intro fi hfi
    obtain ⟨-, hd, -, -⟩ := parseGoFile_fields E root path src file fi hread hparse hfi
    rw [hd]
    refine ⟨List.length_map _ _, ?_⟩
    rw [List.forall₂_map_right_iff]
    exact List.forall₂_same.2 fun imp _ => goImportDetail_kind src imp

set_option maxRecDepth 8000 in
/-- Witness of C12: the four imports of `lib.go` give the kinds Named, Blank,
Dot and Alias with alias `myjson`. -/
theorem parseGoFile_import_kinds_witness :
    ∃ fi, (parseGoFile goTestEnv "r" "r/lib.go").fi = some fi ∧
      fi.Details.map (fun d => (d.Kind, d.Alias)) =
        [(ImportKind.ImportNamed, ""), (ImportKind.ImportBlank, ""),
         (ImportKind.ImportDot, ""), (ImportKind.ImportAlias, "myjson")] :=
  match (parseGoFile_import_kinds goTestEnv "r" "r/lib.go" libGoSrc libGoFile rfl rfl).1
      (by decide) with
  | ⟨fi, hfi⟩ => ⟨fi, hfi, by
      have h : (parseGoFile goTestEnv "r" "r/lib.go").fi.map
          (fun fi => fi.Details.map fun d => (d.Kind, d.Alias)) =
          some [(ImportKind.ImportNamed, ""), (ImportKind.ImportBlank, ""),
            (ImportKind.ImportDot, ""), (ImportKind.ImportAlias, "myjson")] := by decide
      rw [hfi] at h
      exact Option.some.inj h⟩

theorem goDeclExports_append (E : Env) (a b : List Decl) :
    goDeclExports E (a ++ b) = goDeclExports E a ++ goDeclExports E b := by
  induction a with
  | nil => rfl
  | cons d a ih =>
    cases d with
    | FuncDecl hasRecv name line =>
      cases hasRecv <;> simp [goDeclExports, ih]
    | GenDecl tok specs => simp [goDeclExports, ih]
    | BadDecl => simp [goDeclExports, ih]

theorem goValueExports_kind (E : Env) (kind : ExportKind) (names : List Ident) :
    ∀ r ∈ goValueExports E kind names, r.Kind = kind := by
  induction names with
  | nil => simp [goValueExports]
  | cons name rest ih =>
    intro r hr
    unfold goValueExports at hr
    split at hr
    · exact ih r hr
    · rcases List.mem_cons.1 hr with rfl | hr
      · rfl
      · exact ih r hr

theorem goSpecExports_not_function (E : Env) (tok : Token) (specs : List Spec) :
    ∀ r ∈ goSpecExports E tok specs, r.Kind ≠ ExportKind.ExportFunction := by
  induction specs with
  | nil => simp [goSpecExports]
  | cons s rest ih =>
    intro r hr
    cases s with
    | ImportSpec i => exact ih r (by simpa [goSpecExports] using hr)
    | TypeSpec name =>
      simp only [goSpecExports, List.mem_cons] at hr
      rcases hr with rfl | hr
      · simp
      · exact ih r hr
    | ValueSpec names =>
      simp only [goSpecExports, List.mem_append] at hr
      rcases hr with hr | hr
      · rw [goValueExports_kind E _ names r hr]
        split <;> simp
      · exact ih r hr

theorem goDeclExports_functions (E : Env) (decls : List Decl) :
    (goDeclExports E decls).filter (fun r => r.Kind = ExportKind.ExportFunction) =
      decls.filterMap (functionRecord E) := by
  induction decls with
  | nil => rfl
  | cons d rest ih =>
    cases d with
    | FuncDecl hasRecv name line =>
      cases hasRecv
      · simp [goDeclExports, functionRecord, List.filter_cons, ih]
      · simp [goDeclExports, functionRecord, ih]
    | GenDecl tok specs =>
      have hnil : (goSpecExports E tok specs).filter
          (fun r => r.Kind = ExportKind.ExportFunction) = [] := by
        rw [List.filter_eq_nil_iff]
        intro r hr
        simpa using goSpecExports_not_function E tok specs r hr
      simp [goDeclExports, functionRecord, List.filter_append, hnil, ih]
    | BadDecl => simp [goDeclExports, functionRecord, ih]

/-- C13: in the export records of a Go file a function declaration with a
receiver leaves no trace, whatever its name: the records are those of the
declarations without it; a function declaration without receiver contributes,
at its place in source order, exactly one record of kind Function with the
function's name; and the records of kind Function of a file are exactly the
records of its functions without receiver. -/
theorem parseGoFile_skips_methods (E : Env) (pre post : List Decl) (name : Ident) (line : Nat) :
    goDeclExports E (pre ++ Decl.FuncDecl true name line :: post) = goDeclExports E (pre ++ post) ∧
    goDeclExports E (pre ++ Decl.FuncDecl false name line :: post) =
      goDeclExports E pre ++
        { Name := name.Name, Kind := ExportKind.ExportFunction,
          Private := !E.IsExported name.Name, Line := line } :: goDeclExports E post ∧
    (∀ decls, (goDeclExports E decls).filter (fun r => r.Kind = ExportKind.ExportFunction) =
      decls.filterMap (functionRecord E)) ∧
    (∀ root path src file fi, E.ReadFile path = .ok src → E.ParseFile path src = .ok file →
      (parseGoFile E root path).fi = some fi →
      fi.Exports = goDeclExports E file.Decls ∧
      fi.Exports.filter (fun r => r.Kind = ExportKind.ExportFunction) =
        file.Decls.filterMap (functionRecord E)) := by
  refine ⟨?_, ?_, goDeclExports_functions E, ?_⟩
  · rw [goDeclExports_append, goDeclExports_append]
    simp [goDeclExports]
  · rw [goDeclExports_append]
    simp [goDeclExports]
  · intro root path src file fi hread hparse hfi
    obtain ⟨-, -, he, -⟩ := parseGoFile_fields E root path src file fi hread hparse hfi
    rw [he]
    exact ⟨rfl, goDeclExports_functions E file.Decls⟩

/-- Witness of C13: in `svc.go` the method `Handle` gives no record and the
function `Free` gives the only record of kind Function. -/
theorem parseGoFile_skips_methods_witness :
    (goDeclExports goTestEnv svcGoFile.Decls).filter
        (fun r => r.Kind = ExportKind.ExportFunction) =
      [{ Name := "Free", Kind := ExportKind.ExportFunction, Private := false, Line := 8 }] :=
  ((parseGoFile_skips_methods goTestEnv [] [] { Name := "Handle", Line := 7 } 7).2.2.1
    svcGoFile.Decls).trans (by decide)

theorem goValueExports_eq (E : Env) (tok : Token) (names : List Ident) :
    goValueExports E
        (if tok = Token.CONST then ExportKind.ExportConst else ExportKind.ExportVar) names =
      (names.filter fun id => decide (id.Name ≠ "_")).map (valueRecord E tok) := by
  induction names with
  | nil => rfl
  | cons name rest ih =>
    unfold goValueExports
    by_cases h : name.Name = "_"
    · simp [h, ih]
    · simp [h, ih, valueRecord]

theorem goSpecExports_values (E : Env) (tok : Token) (nameLists : List (List Ident)) :
    goSpecExports E tok (nameLists.map Spec.ValueSpec) =
      (nameLists.flatten.filter fun id => decide (id.Name ≠ "_")).map (valueRecord E tok) := by
  induction nameLists with
  | nil => rfl
  | cons names rest ih =>
    simp only [List.map_cons, goSpecExports, ih, goValueExports_eq, List.flatten_cons,
      List.filter_append, List.map_append]

theorem goValueExports_private (E : Env) (kind : ExportKind) (names : List Ident) :
    ∀ r ∈ goValueExports E kind names, r.Private = !E.IsExported r.Name := by
  induction names with
  | nil => simp [goValueExports]
  | cons name rest ih =>
    intro r hr
    unfold goValueExports at hr
    split at hr
    · exact ih r hr
    · rcases List.mem_cons.1 hr with rfl | hr
      · rfl
      · exact ih r hr

theorem goSpecExports_private (E : Env) (tok : Token) (specs : List Spec) :
    ∀ r ∈ goSpecExports E tok specs, r.Private = !E.IsExported r.Name := by
  induction specs with
  | nil => simp [goSpecExports]
  | cons s rest ih =>
    intro r hr
    cases s with
    | ImportSpec i => exact ih r (by simpa [goSpecExports] using hr)
    | TypeSpec name =>
      simp only [goSpecExports, List.mem_cons] at hr
      rcases hr with rfl | hr
      · rfl
      · exact ih r hr
    | ValueSpec names =>
      simp only [goSpecExports, List.mem_append] at hr
      rcases hr with hr | hr
      · exact goValueExports_private E _ names r hr
      · exact ih r hr

theorem goDeclExports_private (E : Env) (decls : List Decl) :
    ∀ r ∈ goDeclExports E decls, r.Private = !E.IsExported r.Name := by
  induction decls with
  | nil => simp [goDeclExports]
  | cons d rest ih =>
    intro r hr
    cases d with
    | FuncDecl hasRecv name line =>
      cases hasRecv
      · simp only [goDeclExports, Bool.false_eq_true, if_false, List.mem_cons] at hr
        rcases hr with rfl | hr
        · rfl
        · exact ih r hr
      · exact ih r (by simpa [goDeclExports] using hr)
    | GenDecl tok specs =>
      simp only [goDeclExports, List.mem_append] at hr
      rcases hr with hr | hr
      · exact goSpecExports_private E tok specs r hr
      · exact ih r hr
    | BadDecl => exact ih r (by simpa [goDeclExports] using hr)

/-- C14: a top-level `const` or `var` declaration contributes to the export
records of a Go file, at its place in source order, exactly one record per
declared name other than `_`, in the order of the names, of kind Const when
the keyword is `const` and Var otherwise; and every export record of a file,
of whatever kind, is private exactly when its name is not exported, that is,
when `IsExported` is the test for a leading upper-case letter, exactly when
the name does not begin with an upper-case letter. -/
theorem parseGoFile_value_exports (E : Env) (pre post : List Decl) (tok : Token)
    (nameLists : List (List Ident)) :
    goDeclExports E (pre ++ Decl.GenDecl tok (nameLists.map Spec.ValueSpec) :: post) =
      goDeclExports E pre ++
        (nameLists.flatten.filter fun id => decide (id.Name ≠ "_")).map (valueRecord E tok) ++
        goDeclExports E post ∧
    (∀ name, (valueRecord E tok name).Name = name.Name ∧
      (tok = Token.CONST → (valueRecord E tok name).Kind = ExportKind.ExportConst) ∧
      (tok ≠ Token.CONST → (valueRecord E tok name).Kind = ExportKind.ExportVar)) ∧
    (∀ decls, ∀ r ∈ goDeclExports E decls, r.Private = !E.IsExported r.Name) ∧
    (∀ isUpper, (∀ n, E.IsExported n = beginsUpper isUpper n) →
      ∀ decls, ∀ r ∈ goDeclExports E decls,
        (r.Private = true ↔ beginsUpper isUpper r.Name = false)) ∧
    (∀ root path src file fi, E.ReadFile path = .ok src → E.ParseFile path src = .ok file →
      (parseGoFile E root path).fi = some fi → fi.Exports = goDeclExports E file.Decls) := by
  refine ⟨?_, ?_, goDeclExports_private E, ?_, ?_⟩
  · rw [goDeclExports_append]
    simp [goDeclExports, goSpecExports_values]
  · intro name
    refine ⟨rfl, fun h => by simp [valueRecord, h], fun h => by simp [valueRecord, h]⟩
  · intro isUpper hlib decls r hr
    rw [goDeclExports_private E decls r hr, hlib]
    cases beginsUpper isUpper r.Name <;> simp
  · intro root path src file fi hread hparse hfi
    exact (parseGoFile_fields E root path src file fi hread hparse hfi).2.2.1

/-- Witness of C14: the export records of `lib.go`; the lower-case names are
private. -/
theorem parseGoFile_value_exports_witness :
    ∀ r ∈ goDeclExports goTestEnv libGoFile.Decls,
      (r.Private = true ↔ beginsUpper Char.isUpper r.Name = false) :=
  (parseGoFile_value_exports goTestEnv [] [] Token.CONST []).2.2.2.1 Char.isUpper
    (fun _ => rfl) libGoFile.Decls

/-- C15: the `Lines` field of a record returned by `parseGoFile` or by
`parseFile` is the number of line feeds in the content of the file plus one,
so at least 1; the Go test file of three lines with a final line feed gives 4
and the five-line text without final line feed gives 5. -/
theorem record_lines (E : Env) (root path : String) (fi : FileImports) :
    ((parseGoFile E root path).fi = some fi →
      ∃ src, E.ReadFile path = .ok src ∧ fi.Lines = src.data.count '\n' + 1 ∧ 1 ≤ fi.Lines) ∧
    ((parseFile E root path).fi = some fi →
      ∃ src, E.ReadFile path = .ok src ∧ fi.Lines = src.data.count '\n' + 1 ∧ 1 ≤ fi.Lines) ∧
    countNewlines "package main\n\nimport \"fmt\"\n" + 1 = 4 ∧
    countNewlines "import a from 'a';\n\n\n\nexport const x = 1;" + 1 = 5 := by
  refine ⟨?_, ?_, by decide, by decide⟩
  · intro h
    unfold parseGoFile at h
    cases hr : E.ReadFile path with
    | error err => simp [hr] at h
    | ok src =>
      cases hp : E.ParseFile path src with
      | error err => simp [hr, hp] at h
      | ok file =>
        simp only [hr, hp] at h
        split at h
        · simp at h
        · simp only [Option.some.injEq] at h
          subst h
          exact ⟨src, rfl, rfl, Nat.le_add_left _ _⟩
  · intro h
    unfold parseFile at h
    cases hr : E.ReadFile path with
    | error err => simp [hr] at h
    | ok src =>
      cases hl : E.SetLanguage (languageForExt (filepathExt path)) with
      | some err => simp [hr, hl] at h
      | none =>
        cases hc : E.CaptureIndexForName (languageForExt (filepathExt path)) "path" with
        | none => simp [hr, hl, hc] at h
        | some pathIdx =>
          simp only [hr, hl, hc] at h
          split at h
          · simp at h
          · simp only [Option.some.injEq] at h
            subst h
            exact ⟨src, rfl, rfl, Nat.le_add_left _ _⟩

set_option maxRecDepth 8000 in
/-- Witness of C15: the record of `lib.go`, a text with 17 line feeds, has 18
lines. -/
theorem record_lines_witness :
    ∃ fi src, (parseGoFile goTestEnv "r" "r/lib.go").fi = some fi ∧
      goTestEnv.ReadFile "r/lib.go" = .ok src ∧ fi.Lines = src.data.count '\n' + 1 ∧
      1 ≤ fi.Lines ∧ fi.Lines = 18 := by
  obtain ⟨fi, hfi⟩ : ∃ fi, (parseGoFile goTestEnv "r" "r/lib.go").fi = some fi := ⟨_, rfl⟩
  obtain ⟨src, h1, h2, h3⟩ := (record_lines goTestEnv "r" "r/lib.go" fi).1 hfi
  have h4 : (parseGoFile goTestEnv "r" "r/lib.go").fi.map (fun fi => fi.Lines) = some 18 := by
    decide
  rw [hfi] at h4
  exact ⟨fi, src, hfi, h1, h2, h3, Option.some.inj h4⟩

/-! ## The tree-sitter scanner: import statements -/

theorem hasChildKind_iff (node : Node) (kind : String) :
    hasChildKind node kind = true ↔ ∃ c ∈ node.Children, c.Kind = kind := by
  unfold hasChildKind childByKind
  rw [Option.isSome_iff_exists]
  constructor
  · rintro ⟨c, hc⟩
    exact ⟨c, List.mem_of_find?_eq_some hc, by simpa using List.find?_some hc⟩
  · rintro ⟨c, hc, hk⟩
    cases hf : node.Children.find? (fun c => decide (c.Kind = kind)) with
    | some x => exact ⟨x, rfl⟩
    | none =>
      rw [List.find?_eq_none] at hf
      exact absurd (by simpa using hk) (hf c hc)

theorem importClauseLoop_skip (src : String) (clause : Node) (isType : Bool) (modPath : String)
    (pre rest : List Node)
    (hpre : ∀ c ∈ pre, c.Kind ≠ "identifier" ∧ c.Kind ≠ "named_imports" ∧
      c.Kind ≠ "namespace_import") :
    importClauseLoop src clause isType modPath (pre ++ rest) =
      importClauseLoop src clause isType modPath rest := by
  induction pre with
  | nil => rfl
  | cons c pre ih =>
    obtain ⟨h1, h2, h3⟩ := hpre c (List.mem_cons_self _ _)
    rw [List.cons_append, importClauseLoop]
    simp only [h1, h2, h3, if_false]
    exact ih fun x hx => hpre x (List.mem_cons_of_mem _ hx)

theorem collectNamesLoop_append (src : String) (a b : List Node) :
    collectNamesLoop src (a ++ b) = collectNamesLoop src a ++ collectNamesLoop src b := by
  induction a with
  | nil => rfl
  | cons c a ih =>
    rw [List.cons_append, collectNamesLoop, collectNamesLoop]
    split
    · rw [ih]; rfl
    · split
      · rw [ih, List.append_assoc]
      · exact ih

theorem collectNamesLoop_no_identifier (src : String) (l : List Node)
    (h : ∀ c ∈ l, c.Kind ≠ "identifier") :
    collectNamesLoop src l = namedSpecifierTexts src l := by
  induction l with
  | nil => rfl
  | cons c l ih =>
    have hc := h c (List.mem_cons_self _ _)
    have ih2 := ih fun x hx => h x (List.mem_cons_of_mem _ hx)
    rw [collectNamesLoop]
    simp only [hc, if_false]
    unfold namedSpecifierTexts at ih2 ⊢
    by_cases hn : c.Kind = "named_imports"
    · simp only [hn, if_true, List.filter_cons, decide_True, List.flatMap_cons, ih2]
      rfl
    · simp only [hn, if_false, List.filter_cons, decide_False, ih2]
      rfl

theorem collectNamesLoop_none (src : String) (l : List Node)
    (h : ∀ c ∈ l, c.Kind ≠ "identifier" ∧ c.Kind ≠ "named_imports" ∧
      c.Kind ≠ "namespace_import") :
    collectNamesLoop src l = [] := by
  induction l with
  | nil => rfl
  | cons c l ih =>
    obtain ⟨h1, h2, -⟩ := h c (List.mem_cons_self _ _)
    rw [collectNamesLoop]
    simp only [h1, h2, if_false]
    exact ih fun x hx => h x (List.mem_cons_of_mem _ hx)

/-- C16: for an import statement whose import clause has a default binding
identifier, the first of the clause's children that is an identifier, a
named-imports clause or a namespace clause, and no further identifier child,
`extractImportStatement` returns the record of kind Default (of kind Type when
a child of the statement is the token `type`) whose names are the text of the
default identifier followed by the texts of all named specifiers in source
order; the statement of `combo.ts` gives React, useState, useEffect. -/
theorem extractImportStatement_default (src : String) (stmt clause id : Node)
    (pre post : List Node) (modPath : String)
    (hclause : childByKind stmt "import_clause" = some clause)
    (hchildren : clause.Children = pre ++ id :: post)
    (hid : id.Kind = "identifier")
    (hpre : ∀ c ∈ pre, c.Kind ≠ "identifier" ∧ c.Kind ≠ "named_imports" ∧
      c.Kind ≠ "namespace_import")
    (hpost : ∀ c ∈ post, c.Kind ≠ "identifier") :
    (hasChildKind stmt "type" = false →
      extractImportStatement src stmt modPath =
        { Path := modPath, Kind := ImportKind.ImportDefault,
          Names := nodeText src id :: namedSpecifierTexts src post }) ∧
    (hasChildKind stmt "type" = true →
      extractImportStatement src stmt modPath =
        { Path := modPath, Kind := ImportKind.ImportType,
          Names := nodeText src id :: namedSpecifierTexts src post }) ∧
    extractImportStatement comboSrc comboStmt "react" =
      { Path := "react", Kind := ImportKind.ImportDefault,
        Names := ["React", "useState", "useEffect"] } := by
  have hnames : collectNames src clause = nodeText src id :: namedSpecifierTexts src post := by
    unfold collectNames
    rw [hchildren, collectNamesLoop_append, collectNamesLoop_none src pre hpre, List.nil_append,
      collectNamesLoop]
    simp only [hid, if_true]
    rw [collectNamesLoop_no_identifier src post hpost]
  have hloop : ∀ isType, importClauseLoop src clause isType modPath clause.Children =
      { Path := modPath,
        Kind := if isType then ImportKind.ImportType else ImportKind.ImportDefault,
        Names := nodeText src id :: namedSpecifierTexts src post } := by
    intro isType
    rw [hchildren, importClauseLoop_skip src clause isType modPath pre _ hpre, importClauseLoop]
    simp only [hid, if_true, hnames]
  refine ⟨?_, ?_, by decide⟩
  · intro ht
    unfold extractImportStatement
    simp only [hclause, ht, hloop]
    rfl
  · intro ht
    unfold extractImportStatement
    simp only [hclause, ht, hloop]
    rfl

/-- Witness of C16: the import statement of `combo.ts`, whose clause has the
default identifier first and the named-imports clause after the comma. -/
theorem extractImportStatement_default_witness :
    extractImportStatement comboSrc comboStmt "react" =
      { Path := "react", Kind := ImportKind.ImportDefault,
        Names := nodeText comboSrc (.mk "identifier" 7 12 0 []) ::
          namedSpecifierTexts comboSrc (comboClause.Children.drop 1) } :=
  (extractImportStatement_default comboSrc comboStmt comboClause
    (.mk "identifier" 7 12 0 []) [] (comboClause.Children.drop 1) "react" rfl rfl rfl
    (by simp) (by decide)).1 (by decide)

/-- C17, as `extractImportStatement` behaves: the import is taken as type-only
exactly when a child of the statement node itself is the token `type`; then
the kind is Type without import clause and for a clause whose first relevant
child is a default identifier, a named-imports clause or a namespace clause;
otherwise, also when the token sits deeper in the tree, the kind is
SideEffect without clause and Default, Named or Namespace according to that
first relevant child. -/
theorem extractImportStatement_kind (src : String) (stmt : Node) (modPath : String) :
    (hasChildKind stmt "type" = true ↔ ∃ c ∈ stmt.Children, c.Kind = "type") ∧
    (childByKind stmt "import_clause" = none →
      (extractImportStatement src stmt modPath).Kind =
        if hasChildKind stmt "type" then ImportKind.ImportType
        else ImportKind.ImportSideEffect) ∧
    (∀ clause pre c post, childByKind stmt "import_clause" = some clause →
      clause.Children = pre ++ c :: post →
      (∀ x ∈ pre, x.Kind ≠ "identifier" ∧ x.Kind ≠ "named_imports" ∧
        x.Kind ≠ "namespace_import") →
      (c.Kind = "identifier" →
        (extractImportStatement src stmt modPath).Kind =
          if hasChildKind stmt "type" then ImportKind.ImportType
          else ImportKind.ImportDefault) ∧
      (c.Kind = "named_imports" →
        (extractImportStatement src stmt modPath).Kind =
          if hasChildKind stmt "type" then ImportKind.ImportType
          else ImportKind.ImportNamed) ∧
      (c.Kind = "namespace_import" →
        (extractImportStatement src stmt modPath).Kind =
          if hasChildKind stmt "type" then ImportKind.ImportType
          else ImportKind.ImportNamespace)) := by
  refine ⟨hasChildKind_iff stmt "type", ?_, ?_⟩
  · intro hnone
    unfold extractImportStatement
    simp only [hnone]
  · intro clause pre c post hclause hchildren hpre
    have hloop : extractImportStatement src stmt modPath =
        importClauseLoop src clause (hasChildKind stmt "type") modPath (c :: post) := by
      unfold extractImportStatement
      simp only [hclause]
      rw [hchildren, importClauseLoop_skip src clause _ modPath pre _ hpre]
    rw [hloop, importClauseLoop]
    refine ⟨fun h => ?_, fun h => ?_, fun h => ?_⟩
    · simp only [h, if_true]
    · have h1 : ("named_imports" : String) ≠ "identifier" := by decide
      simp only [h, h1, if_true, if_false]
    · have h1 : ("namespace_import" : String) ≠ "identifier" := by decide
      have h2 : ("namespace_import" : String) ≠ "named_imports" := by decide
      simp only [h, h1, h2, if_true, if_false]

/-- Witness of C17: the type-only import of the test, with the token `type`
as a child of the statement and a named-imports clause, is of kind Type. -/
theorem extractImportStatement_kind_witness :
    (extractImportStatement typeImportSrc typeImportStmt "./config").Kind =
      if hasChildKind typeImportStmt "type" then ImportKind.ImportType
      else ImportKind.ImportNamed :=
  ((extractImportStatement_kind typeImportSrc typeImportStmt "./config").2.2
    (.mk "import_clause" 12 22 0 [
      .mk "named_imports" 12 22 0 [
        .mk "\x7b" 12 13 0 [],
        .mk "import_specifier" 14 20 0 [.mk "identifier" 14 20 0 []],
        .mk "\x7d" 21 22 0 []]])
    []
    (.mk "named_imports" 12 22 0 [
      .mk "\x7b" 12 13 0 [],
      .mk "import_specifier" 14 20 0 [.mk "identifier" 14 20 0 []],
      .mk "\x7d" 21 22 0 []])
    [] rfl rfl (by simp)).2.1 rfl

/-- Counterexample to C17 as stated: in the statement of `inlineTypeSrc` a
descendant, the first child of the import specifier, is the token `type`, and
`extractImportStatement` returns kind Named, not Type. -/
theorem inline_type_import_is_named :
    hasDescendantKind "type" inlineTypeStmt = true ∧
      (extractImportStatement inlineTypeSrc inlineTypeStmt "./x").Kind =
        ImportKind.ImportNamed ∧
      (extractImportStatement inlineTypeSrc inlineTypeStmt "./x").Kind ≠
        ImportKind.ImportType := by
  decide

/-! ## The tree-sitter scanner: calls, re-exports -/

theorem stmtSnippet_eq (src : String) (call : Node) (up : List Node)
    (hcall : call.Kind = "call_expression") :
    stmtSnippet src { node := call, ancestors := up } =
      match up.find? fun n => isStatementKind n.Kind with
      | some n => nodeText src n
      | none => nodeText src call := by
  have hfun : (fun n : Node => decide (n.Kind = "lexical_declaration" ∨
      n.Kind = "variable_declaration" ∨ n.Kind = "expression_statement")) =
      fun n => isStatementKind n.Kind := by
    funext n
    simp [isStatementKind, Bool.or_assoc]
  have hself : isStatementKind call.Kind = false := by
    rw [hcall]
    decide
  unfold stmtSnippet
  simp only [hfun, List.find?_cons, hself]

theorem find?_split {α : Type} (p : α → Bool) (before : List α) (n : α) (after : List α)
    (hn : p n = true) (hb : ∀ x ∈ before, p x = false) :
    (before ++ n :: after).find? p = some n := by
  induction before with
  | nil => simp [List.find?_cons, hn]
  | cons b before ih =>
    rw [List.cons_append, List.find?_cons, hb b (List.mem_cons_self _ _)]
    exact ih fun x hx => hb x (List.mem_cons_of_mem _ hx)

theorem extractDetail_call_eq (src : String) (pathNode : NodeAt) (args call : Node)
    (up : List Node) (modPath : String) (hanc : pathNode.ancestors = args :: call :: up)
    (hargs : args.Kind = "arguments") (hcall : call.Kind = "call_expression") :
    extractDetail src pathNode modPath =
      { Path := modPath,
        Kind := match call.Child 0 with
          | some fn =>
            if fn.Kind = "import" then ImportKind.ImportDynamic else ImportKind.ImportRequire
          | none => ImportKind.ImportRequire,
        Snippet := stmtSnippet src { node := call, ancestors := up },
        Line := call.StartRow + 1 } := by
  unfold extractDetail
  simp only [hanc, hargs, hcall, if_true]
  cases call.Child 0 with
  | none => rfl
  | some fn =>
    by_cases h : fn.Kind = "import"
    · simp only [h, if_true]
    · simp only [h, if_false]

/-- C18: for a captured string node whose parent is an argument list whose
parent is a call expression, `extractDetail` returns kind Dynamic when the
first child of the call, its callee, is the import operator and Require
otherwise, with the line of the call's start counted from 1, and as snippet
the text of the nearest ancestor of the call that is a lexical declaration, a
variable declaration or an expression statement, or the text of the call
itself when it has no such ancestor. -/
theorem extractDetail_call (src : String) (pathNode : NodeAt) (args call : Node)
    (up : List Node) (modPath : String) (hanc : pathNode.ancestors = args :: call :: up)
    (hargs : args.Kind = "arguments") (hcall : call.Kind = "call_expression") :
    (extractDetail src pathNode modPath).Path = modPath ∧
    ((∃ fn, call.Child 0 = some fn ∧ fn.Kind = "import") →
      (extractDetail src pathNode modPath).Kind = ImportKind.ImportDynamic) ∧
    ((¬ ∃ fn, call.Child 0 = some fn ∧ fn.Kind = "import") →
      (extractDetail src pathNode modPath).Kind = ImportKind.ImportRequire) ∧
    (extractDetail src pathNode modPath).Line = call.StartRow + 1 ∧
    (∀ before n after, up = before ++ n :: after → isStatementKind n.Kind = true →
      (∀ x ∈ before, isStatementKind x.Kind = false) →
      (extractDetail src pathNode modPath).Snippet = nodeText src n) ∧
    ((∀ x ∈ up, isStatementKind x.Kind = false) →
      (extractDetail src pathNode modPath).Snippet = nodeText src call) := by
  rw [extractDetail_call_eq src pathNode args call up modPath hanc hargs hcall]
  refine ⟨rfl, ?_, ?_, rfl, ?_, ?_⟩
  · rintro ⟨fn, hfn, hk⟩
    simp only [hfn, hk, if_true]
  · intro hno
    cases hc : call.Child 0 with
    | none => rfl
    | some fn =>
      have : fn.Kind ≠ "import" := fun hk => hno ⟨fn, hc, hk⟩
      simp only [this, if_false]
  · intro before n after hup hn hb
    subst hup
    show stmtSnippet src { node := call, ancestors := before ++ n :: after } = nodeText src n
    rw [stmtSnippet_eq src call _ hcall,
      find?_split (fun n => isStatementKind n.Kind) before n after hn hb]
  · intro hall
    have hnone : up.find? (fun n => isStatementKind n.Kind) = none := by
      rw [List.find?_eq_none]
      intro x hx
      rw [hall x hx]
      simp
    show stmtSnippet src { node := call, ancestors := up } = nodeText src call
    rw [stmtSnippet_eq src call up hcall, hnone]

/-- Witness of C18: the string of `require('express')` in `req.js`; the
snippet is the whole lexical declaration, two levels above the call. -/
theorem extractDetail_call_witness :
    (extractDetail reqSrc { node := reqString, ancestors :=
        [reqArguments, reqCall, reqDeclarator, reqDecl] } "express").Kind =
        ImportKind.ImportRequire ∧
      (extractDetail reqSrc { node := reqString, ancestors :=
        [reqArguments, reqCall, reqDeclarator, reqDecl] } "express").Snippet =
        nodeText reqSrc reqDecl :=
  ⟨(extractDetail_call reqSrc { node := reqString, ancestors :=
        [reqArguments, reqCall, reqDeclarator, reqDecl] } reqArguments reqCall
      [reqDeclarator, reqDecl] "express" rfl rfl rfl).2.2.1 (by
        rintro ⟨fn, hfn, hk⟩
        have h0 : reqCall.Child 0 = some (.mk "identifier" 16 23 0 []) := rfl
        rw [h0] at hfn
        cases hfn
        revert hk
        decide),
   (extractDetail_call reqSrc { node := reqString, ancestors :=
        [reqArguments, reqCall, reqDeclarator, reqDecl] } reqArguments reqCall
      [reqDeclarator, reqDecl] "express" rfl rfl rfl).2.2.2.2.1 [reqDeclarator] reqDecl []
      rfl (by decide) (by decide)⟩

theorem childByKind_eq_none_iff (node : Node) (kind : String) :
    childByKind node kind = none ↔ ∀ c ∈ node.Children, c.Kind ≠ kind := by
  unfold childByKind
  rw [List.find?_eq_none]
  simp

theorem hasChildKind_eq_false_iff (node : Node) (kind : String) :
    hasChildKind node kind = false ↔ ¬ ∃ c ∈ node.Children, c.Kind = kind := by
  rw [← hasChildKind_iff, Bool.not_eq_true]

/-- C19: `extractExportStatement` returns kind ReExportAll without names when
the statement has a child that is the token `*`; otherwise kind ReExport with
the texts of the export specifiers of the export clause, in source order, when
the statement has an export clause; otherwise kind ReExport without names. -/
theorem extractExportStatement_cases (src : String) (stmt : Node) (modPath : String) :
    ((∃ c ∈ stmt.Children, c.Kind = "*") →
      extractExportStatement src stmt modPath =
        { Path := modPath, Kind := ImportKind.ImportReExportAll, Names := [] }) ∧
    ((¬ ∃ c ∈ stmt.Children, c.Kind = "*") →
      ∀ ec, childByKind stmt "export_clause" = some ec →
        extractExportStatement src stmt modPath =
          { Path := modPath, Kind := ImportKind.ImportReExport,
            Names := (ec.Children.filter fun s => s.Kind = "export_specifier").map
              (nodeText src) }) ∧
    ((¬ ∃ c ∈ stmt.Children, c.Kind = "*") →
      (¬ ∃ c ∈ stmt.Children, c.Kind = "export_clause") →
      extractExportStatement src stmt modPath =
        { Path := modPath, Kind := ImportKind.ImportReExport, Names := [] }) ∧
    extractExportStatement reexportSrc namedReexportStmt "./foo" =
      { Path := "./foo", Kind := ImportKind.ImportReExport, Names := ["foo"] } ∧
    extractExportStatement reexportSrc wildcardReexportStmt "./bar" =
      { Path := "./bar", Kind := ImportKind.ImportReExportAll, Names := [] } := by
  refine ⟨?_, ?_, ?_, by decide, by decide⟩
  · intro h
    unfold extractExportStatement
    rw [if_pos ((hasChildKind_iff stmt "*").2 h)]
  · intro h ec hec
    unfold extractExportStatement
    rw [(hasChildKind_eq_false_iff stmt "*").2 h]
    simp only [Bool.false_eq_true, if_false, hec]
    rfl
  · intro h hno
    have hnone : childByKind stmt "export_clause" = none := by
      rw [childByKind_eq_none_iff]
      intro c hc hk
      exact hno ⟨c, hc, hk⟩
    unfold extractExportStatement
    rw [(hasChildKind_eq_false_iff stmt "*").2 h]
    simp only [Bool.false_eq_true, if_false, hnone]

/-- Witness of C19: the named re-export of `reexportSrc` has no `*` child and
an export clause with the one specifier `foo`. -/
theorem extractExportStatement_cases_witness :
    extractExportStatement reexportSrc namedReexportStmt "./foo" =
      { Path := "./foo", Kind := ImportKind.ImportReExport,
        Names := ((Node.mk "export_clause" 7 14 0 [
            .mk "\x7b" 7 8 0 [],
            .mk "export_specifier" 9 12 0 [.mk "identifier" 9 12 0 []],
            .mk "\x7d" 13 14 0 []]).Children.filter
          fun s => s.Kind = "export_specifier").map (nodeText reexportSrc) } :=
  (extractExportStatement_cases reexportSrc namedReexportStmt "./foo").2.1 (by decide) _ rfl

/-! ## The tree-sitter scanner: export records of re-exports -/

theorem exportStatement_extends (src : String) (exports : List ExportDetail) (node : Node) :
    exports <+: exportStatement src exports node := by
  unfold exportStatement
  split
  · exact List.prefix_refl _
  · split
    · split
      · exact List.prefix_append _ _
      · exact List.prefix_append _ _
    · simp only
      split
      · split
        · exact List.prefix_append _ _
        · rw [List.append_assoc]
          exact List.prefix_append _ _
      · exact List.prefix_append _ _

theorem foldl_exportStatement_extends (src : String) (nodes : List Node)
    (exports : List ExportDetail) :
    exports <+: nodes.foldl (exportStatement src) exports := by
  induction nodes generalizing exports with
  | nil => exact List.prefix_refl _
  | cons n rest ih =>
    exact (exportStatement_extends src exports n).trans (ih _)

/-- C20, as `extractExports` behaves: a top-level re-export statement that
names the module M and has no export clause, such as `export * from M`, adds
exactly one record to the records gathered before it; the record is of kind
ReExport (the export kinds have no ReExportAll), its name is "* from "
followed by M without its quotes, and its line is the line of the statement
counted from 1, so greater than 0; the record stays at its place in the
result of `extractExports`. -/
theorem exportStatement_wildcard (src : String) (node srcStr : Node)
    (hkind : node.Kind = "export_statement")
    (hstr : childByKind node "string" = some srcStr)
    (hclause : childByKind node "export_clause" = none) :
    (∀ exports, exportStatement src exports node =
      exports ++ [{ Name := "* from " ++ stripQuotes (nodeText src srcStr),
                    Kind := ExportKind.ExportReExport, Line := node.StartRow + 1 }]) ∧
    0 < node.StartRow + 1 ∧
    (∀ root pre post, root.Children = pre ++ node :: post →
      ∃ after, extractExports src root =
        pre.foldl (exportStatement src) [] ++
          { Name := "* from " ++ stripQuotes (nodeText src srcStr),
            Kind := ExportKind.ExportReExport, Line := node.StartRow + 1 } :: after) := by
  have hstep : ∀ exports, exportStatement src exports node =
      exports ++ [{ Name := "* from " ++ stripQuotes (nodeText src srcStr),
                    Kind := ExportKind.ExportReExport, Line := node.StartRow + 1 }] := by
    intro exports
    unfold exportStatement
    simp only [hkind, ne_eq, not_true_eq_false, if_false, hstr, hclause]
  refine ⟨hstep, Nat.succ_pos _, ?_⟩
  intro root pre post hroot
  unfold extractExports
  rw [hroot, List.foldl_append, List.foldl_cons, hstep]
  obtain ⟨after, hafter⟩ := foldl_exportStatement_extends src post
    (pre.foldl (exportStatement src) [] ++
      [{ Name := "* from " ++ stripQuotes (nodeText src srcStr),
         Kind := ExportKind.ExportReExport, Line := node.StartRow + 1 }])
  exact ⟨after, by rw [← hafter]; simp⟩

/-- Witness of C20: the wildcard re-export of `reexportSrc` adds one record to
the record of the named re-export before it. -/
theorem exportStatement_wildcard_witness :
    ∃ after, extractExports reexportSrc reexportProgram =
      [namedReexportStmt].foldl (exportStatement reexportSrc) [] ++
        { Name := "* from " ++ stripQuotes (nodeText reexportSrc (.mk "string" 43 50 1 [
              .mk "'" 43 44 1 [], .mk "string_fragment" 44 49 1 [], .mk "'" 49 50 1 []])),
          Kind := ExportKind.ExportReExport,
          Line := wildcardReexportStmt.StartRow + 1 } :: after :=
  (exportStatement_wildcard reexportSrc wildcardReexportStmt _ rfl rfl rfl).2.2
    reexportProgram [namedReexportStmt] [] rfl

/-- Counterexample to C20 as stated: for `reexportSrc` the record that
`extractExports` returns for `export * from './bar'` is of kind ReExport,
whose value is "re-export"; it is not the value "re-export-all" of the import
kind ReExportAll, which no export kind has. -/
theorem wildcard_reexport_kind :
    extractExports reexportSrc reexportProgram =
        [{ Name := "foo", Kind := ExportKind.ExportReExport, Line := 1 },
         { Name := "* from ./bar", Kind := ExportKind.ExportReExport, Line := 2 }] ∧
      ExportKind.ExportReExport.value ≠ ImportKind.ImportReExportAll.value ∧
      ∀ k : ExportKind, k.value ≠ ImportKind.ImportReExportAll.value := by
  refine ⟨by decide, by decide, ?_⟩
  intro k
  cases k <;> decide

/-! ## The tree-sitter scanner: export records of local exports -/

theorem extractExports_split (src : String) (root node : Node) (pre post : List Node)
    (hroot : root.Children = pre ++ node :: post) :
    ∃ after, extractExports src root =
      exportStatement src (pre.foldl (exportStatement src) []) node ++ after := by
  unfold extractExports
  rw [hroot, List.foldl_append, List.foldl_cons]
  obtain ⟨after, hafter⟩ := foldl_exportStatement_extends src post
    (exportStatement src (pre.foldl (exportStatement src) []) node)
  exact ⟨after, hafter.symm⟩

theorem exportSpecifiers_eq (src : String) (kind : ExportKind) (line : Nat) (l : List Node)
    (h : ∀ spec ∈ l, spec.Kind = "export_specifier" → spec.Children ≠ []) :
    exportSpecifiers src kind line l =
      (l.filter fun spec => spec.Kind = "export_specifier").map
        (specifierRecord src kind line) := by
  induction l with
  | nil => rfl
  | cons spec rest ih =>
    have ih2 := ih fun s hs => h s (List.mem_cons_of_mem _ hs)
    rw [exportSpecifiers]
    by_cases hk : spec.Kind = "export_specifier"
    · have hne := h spec (List.mem_cons_self _ _) hk
      cases hc : spec.Children with
      | nil => exact absurd hc hne
      | cons id more =>
        simp only [hk, if_true, Node.Child, hc, List.getElem?_cons_zero, ih2, List.filter_cons,
          decide_True, List.map_cons, specifierRecord]
    · simp only [hk, if_false, ih2, List.filter_cons, decide_False]
      rfl

theorem exportChildren_append (src : String) (isDefault : Bool) (line : Nat)
    (a b : List Node) :
    exportChildren src isDefault line (a ++ b) =
      exportChildren src isDefault line a ++ exportChildren src isDefault line b := by
  induction a with
  | nil => rfl
  | cons c a ih => simp [exportChildren, ih]

theorem hasExportDecl_of_child (node c : Node) (hc : c ∈ node.Children)
    (hk : c.Kind = "function_declaration" ∨ c.Kind = "class_declaration" ∨
      c.Kind = "lexical_declaration") :
    hasExportDecl node = true := by
  unfold hasExportDecl
  rw [List.any_eq_true]
  exact ⟨c, hc, by simpa using hk⟩

/-- A local export statement whose children produce a record and among which
is a function, class or lexical declaration gets no synthesized record. -/
theorem exportStatement_with_decl (src : String) (exports : List ExportDetail) (node : Node)
    (hkind : node.Kind = "export_statement") (hstr : childByKind node "string" = none)
    (hdecl : hasExportDecl node = true)
    (hne : exportChildren src (hasChildKind node "default") (node.StartRow + 1)
      node.Children ≠ []) :
    exportStatement src exports node =
      exports ++ exportChildren src (hasChildKind node "default") (node.StartRow + 1)
        node.Children := by
  unfold exportStatement
  have hlen : (exports ++ exportChildren src (hasChildKind node "default") (node.StartRow + 1)
      node.Children).length ≠ 0 := by
    rw [List.length_append]
    have := List.length_pos.2 hne
    omega
  simp only [hkind, ne_eq, not_true_eq_false, if_false, hstr, hdecl, hlen, decide_False,
    Bool.and_false, Bool.not_true, Bool.or_self, Bool.false_eq_true]

/-- C21: a top-level re-export statement with an export clause adds to the
records gathered before it one record of kind ReExport per export specifier of
the clause, in source order, named by the text of the specifier's first child;
one without export clause adds the single record named "* from " followed by
the module string without its quotes; each record carries the line of the
statement counted from 1, and the records stay at their place in the result of
`extractExports`. -/
theorem exportStatement_reexport (src : String) (node srcStr : Node)
    (hkind : node.Kind = "export_statement")
    (hstr : childByKind node "string" = some srcStr) :
    (∀ clause, childByKind node "export_clause" = some clause →
      (∀ spec ∈ clause.Children, spec.Kind = "export_specifier" → spec.Children ≠ []) →
      ∀ exports, exportStatement src exports node =
        exports ++ (clause.Children.filter fun spec => spec.Kind = "export_specifier").map
          (specifierRecord src ExportKind.ExportReExport (node.StartRow + 1))) ∧
    (childByKind node "export_clause" = none →
      ∀ exports, exportStatement src exports node =
        exports ++ [{ Name := "* from " ++ stripQuotes (nodeText src srcStr),
                      Kind := ExportKind.ExportReExport, Line := node.StartRow + 1 }]) ∧
    (∀ spec id rest line, spec.Children = id :: rest →
      specifierRecord src ExportKind.ExportReExport line spec =
        { Name := nodeText src id, Kind := ExportKind.ExportReExport, Line := line }) ∧
    (∀ root pre post, root.Children = pre ++ node :: post →
      ∃ after, extractExports src root =
        exportStatement src (pre.foldl (exportStatement src) []) node ++ after) := by
  refine ⟨?_, ?_, ?_, fun root pre post h => extractExports_split src root node pre post h⟩
  · intro clause hclause hspec exports
    unfold exportStatement
    simp only [hkind, ne_eq, not_true_eq_false, if_false, hstr, hclause,
      exportSpecifiers_eq src _ _ clause.Children hspec]
  · intro hclause exports
    unfold exportStatement
    simp only [hkind, ne_eq, not_true_eq_false, if_false, hstr, hclause]
  · intro spec id rest line hc
    simp only [specifierRecord, hc]

/-- Witness of C21: the named re-export of `reexportSrc` gives the one record
`foo` of kind ReExport on line 1. -/
theorem exportStatement_reexport_witness :
    exportStatement reexportSrc [] namedReexportStmt =
      [] ++ ((Node.mk "export_clause" 7 14 0 [
          .mk "\x7b" 7 8 0 [],
          .mk "export_specifier" 9 12 0 [.mk "identifier" 9 12 0 []],
          .mk "\x7d" 13 14 0 []]).Children.filter fun spec => spec.Kind = "export_specifier").map
        (specifierRecord reexportSrc ExportKind.ExportReExport (namedReexportStmt.StartRow + 1)) :=
  (exportStatement_reexport reexportSrc namedReexportStmt
    (.mk "string" 20 27 0 [.mk "'" 20 21 0 [], .mk "string_fragment" 21 26 0 [],
      .mk "'" 26 27 0 []]) rfl rfl).1 _ rfl (by simp [Node.Children, Node.Kind]) []

theorem childByKind_first (node name : Node) (rest : List Node) (kind : String)
    (hc : node.Children = name :: rest) (hk : name.Kind = kind) :
    childByKind node kind = some name := by
  unfold childByKind
  rw [hc]
  simp [hk]

theorem lexicalDeclarators_eq (src : String) (line : Nat) (l : List Node)
    (h : ∀ decl ∈ l, decl.Kind = "variable_declarator" →
      (decl.Child 0).map (fun c => c.Kind) = some "identifier") :
    lexicalDeclarators src line l =
      (l.filter fun decl => decl.Kind = "variable_declarator").map
        (declaratorRecord src line) := by
  induction l with
  | nil => rfl
  | cons decl rest ih =>
    have ih2 := ih fun s hs => h s (List.mem_cons_of_mem _ hs)
    rw [lexicalDeclarators]
    by_cases hk : decl.Kind = "variable_declarator"
    · have hid := h decl (List.mem_cons_self _ _) hk
      cases hc : decl.Children with
      | nil => simp [Node.Child, hc] at hid
      | cons name more =>
        have hname : name.Kind = "identifier" := by
          simpa [Node.Child, hc] using hid
        simp only [hk, if_true, ih2, List.filter_cons, decide_True, List.map_cons,
          declaratorRecord, hc, childByKind_first decl name more "identifier" hc hname]
    · simp only [hk, if_false, ih2, List.filter_cons, decide_False]
      rfl

/-- C23 (amended): in a local export statement, a function declaration child
gives one record named by the text of its first identifier child, or "default"
when it has none, and a class declaration child gives one record named by the
text of its first type-identifier child, or "default" when it has none; the kind
is Default whenever the statement carries the default keyword, whatever the
name, and Function (respectively Class) otherwise; the record stands between
the records of the children before and after the declaration, and no further
record is synthesized. -/
theorem exportStatement_declaration (src : String) (node decl : Node) (pre post : List Node)
    (hkind : node.Kind = "export_statement") (hstr : childByKind node "string" = none)
    (hchildren : node.Children = pre ++ decl :: post) :
    (decl.Kind = "function_declaration" →
      ∀ exports, exportStatement src exports node =
        exports ++ exportChildren src (hasChildKind node "default") (node.StartRow + 1) pre ++
          { Name := declarationName src "identifier" decl,
            Kind := if hasChildKind node "default" then ExportKind.ExportDefault
              else ExportKind.ExportFunction,
            Line := node.StartRow + 1 } ::
          exportChildren src (hasChildKind node "default") (node.StartRow + 1) post) ∧
    (decl.Kind = "class_declaration" →
      ∀ exports, exportStatement src exports node =
        exports ++ exportChildren src (hasChildKind node "default") (node.StartRow + 1) pre ++
          { Name := declarationName src "type_identifier" decl,
            Kind := if hasChildKind node "default" then ExportKind.ExportDefault
              else ExportKind.ExportClass,
            Line := node.StartRow + 1 } ::
          exportChildren src (hasChildKind node "default") (node.StartRow + 1) post) ∧
    (∀ kind id, childByKind decl kind = some id →
      declarationName src kind decl = nodeText src id) ∧
    (∀ kind, childByKind decl kind = none → declarationName src kind decl = "default") := by
  have hmem : decl ∈ node.Children := by rw [hchildren]; simp
  refine ⟨?_, ?_, ?_, ?_⟩
  · intro hd exports
    have hc : exportChildren src (hasChildKind node "default") (node.StartRow + 1)
        node.Children =
        exportChildren src (hasChildKind node "default") (node.StartRow + 1) pre ++
          { Name := declarationName src "identifier" decl,
            Kind := if hasChildKind node "default" then ExportKind.ExportDefault
              else ExportKind.ExportFunction,
            Line := node.StartRow + 1 } ::
          exportChildren src (hasChildKind node "default") (node.StartRow + 1) post := by
      rw [hchildren, exportChildren_append, exportChildren, exportChild]
      simp only [hd, if_true, declarationName, List.singleton_append]
    rw [exportStatement_with_decl src exports node hkind hstr
      (hasExportDecl_of_child node decl hmem (Or.inl hd)) (by rw [hc]; simp), hc,
      List.append_assoc]
  · intro hd exports
    have hnf : decl.Kind ≠ "function_declaration" := by rw [hd]; decide
    have hc : exportChildren src (hasChildKind node "default") (node.StartRow + 1)
        node.Children =
        exportChildren src (hasChildKind node "default") (node.StartRow + 1) pre ++
          { Name := declarationName src "type_identifier" decl,
            Kind := if hasChildKind node "default" then ExportKind.ExportDefault
              else ExportKind.ExportClass,
            Line := node.StartRow + 1 } ::
          exportChildren src (hasChildKind node "default") (node.StartRow + 1) post := by
      rw [hchildren, exportChildren_append, exportChildren, exportChild, if_neg hnf, if_pos hd]
      simp only [declarationName, List.singleton_append]
    rw [exportStatement_with_decl src exports node hkind hstr
      (hasExportDecl_of_child node decl hmem (Or.inr (Or.inl hd))) (by rw [hc]; simp), hc,
      List.append_assoc]
  · intro kind id h
    simp only [declarationName, h]
  · intro kind h
    simp only [declarationName, h]

/-- Witness of C23: the class declaration of `export class Widget {}`. -/
theorem exportStatement_declaration_witness :
    exportStatement classSrc [] classStmt =
      [] ++ exportChildren classSrc (hasChildKind classStmt "default")
          (classStmt.StartRow + 1) [.mk "export" 0 6 0 []] ++
        { Name := declarationName classSrc "type_identifier" classDecl,
          Kind := if hasChildKind classStmt "default" then ExportKind.ExportDefault
            else ExportKind.ExportClass,
          Line := classStmt.StartRow + 1 } ::
        exportChildren classSrc (hasChildKind classStmt "default") (classStmt.StartRow + 1) [] :=
  (exportStatement_declaration classSrc classStmt classDecl [.mk "export" 0 6 0 []] []
    rfl rfl rfl).2.1 rfl []

/-- Counterexample to C23 as worded: `export default function main() {}` has a
named function, yet its one record `main` has kind Default, not Function. -/
theorem default_named_function_kind :
    childByKind defaultFnStmt "string" = none ∧
    hasChildKind defaultFnStmt "default" = true ∧
    (childByKind defaultFnDecl "identifier").map (nodeText defaultFnSrc) = some "main" ∧
    extractExports defaultFnSrc (.mk "program" 0 34 0 [defaultFnStmt]) =
      [{ Name := "main", Kind := ExportKind.ExportDefault, Line := 1 }] ∧
    ExportKind.ExportDefault ≠ ExportKind.ExportFunction := by
  refine ⟨rfl, by decide, ?_, ?_, by decide⟩ <;> decide

/-- C24 (amended): in a local export statement without the default keyword, a
lexical declaration child (`const` or `let`) in which the declared name of every
variable declarator is an identifier (the declarator's first child) gives one
record of kind Const per variable declarator, in source order, named by the
text of that declared identifier and carrying the line of the statement
counted from 1. -/
theorem exportStatement_lexical (src : String) (node decl : Node) (pre post : List Node)
    (hkind : node.Kind = "export_statement") (hstr : childByKind node "string" = none)
    (hdefault : hasChildKind node "default" = false)
    (hchildren : node.Children = pre ++ decl :: post)
    (hdecl : decl.Kind = "lexical_declaration")
    (hnames : ∀ d ∈ decl.Children, d.Kind = "variable_declarator" →
      (d.Child 0).map (fun c => c.Kind) = some "identifier") :
    (∀ exports, exportStatement src exports node =
      exports ++ exportChildren src false (node.StartRow + 1) pre ++
        (decl.Children.filter fun d => d.Kind = "variable_declarator").map
          (declaratorRecord src (node.StartRow + 1)) ++
        exportChildren src false (node.StartRow + 1) post) ∧
    (∀ (d name : Node) (rest : List Node) (line : Nat), d.Children = name :: rest →
      declaratorRecord src line d =
        { Name := nodeText src name, Kind := ExportKind.ExportConst, Line := line }) := by
  refine ⟨?_, ?_⟩
  · intro exports
    have hnf : decl.Kind ≠ "function_declaration" := by rw [hdecl]; decide
    have hnc : decl.Kind ≠ "class_declaration" := by rw [hdecl]; decide
    unfold exportStatement
    simp only [hkind, ne_eq, not_true_eq_false, if_false, hstr, hdefault, Bool.false_and,
      Bool.or_self, Bool.false_eq_true]
    rw [hchildren, exportChildren_append, exportChildren, exportChild, if_neg hnf, if_neg hnc,
      if_pos hdecl, lexicalDeclarators_eq src _ decl.Children hnames]
    simp only [List.append_assoc]
  · intro d name rest line h
    simp only [declaratorRecord, h]

/-- Witness of C24: `export const MAX = 100, MIN = 1;`. -/
theorem exportStatement_lexical_witness :
    (∀ exports, exportStatement constSrc exports constStmt =
      exports ++ exportChildren constSrc false (constStmt.StartRow + 1)
          [.mk "export" 0 6 0 []] ++
        (constDecl.Children.filter fun d => d.Kind = "variable_declarator").map
          (declaratorRecord constSrc (constStmt.StartRow + 1)) ++
        exportChildren constSrc false (constStmt.StartRow + 1) []) ∧
    extractExports constSrc (.mk "program" 0 33 0 [constStmt]) =
      [{ Name := "MAX", Kind := ExportKind.ExportConst, Line := 1 },
       { Name := "MIN", Kind := ExportKind.ExportConst, Line := 1 }] :=
  ⟨(exportStatement_lexical constSrc constStmt constDecl [.mk "export" 0 6 0 []] []
    rfl rfl (by decide) rfl rfl (by simp [Node.Children, Node.Kind, Node.Child, constDecl])).1,
   by decide⟩

/-- Counterexample to C24 as worded: the variable declaration
`export var legacy = 1;` declares the name `legacy`, and no record is emitted
for it. -/
theorem var_export_no_record :
    varSrc = "export var legacy = 1;\n" ∧ extractExports varSrc varProgram = [] := by
  refine ⟨rfl, ?_⟩
  decide

/-- The destructuring declaration `export const { a, b } = obj;` declares `a`
and `b`; the first identifier child of its declarator is the initializer, and
the one record it gives is named `obj`. -/
theorem pattern_export_initializer_record :
    extractExports patternSrc patternProgram =
      [{ Name := "obj", Kind := ExportKind.ExportConst, Line := 1 }] := by
  decide

/-- C22: on the two statements of `export default 42; export default { key:
'value' };` the second default-expression statement, which alone gives the
record `default` on line 2, adds nothing once the first statement has given
its record: the whole file has the single record `default` on line 1. -/
theorem second_default_expression_dropped :
    exportChildren exprSrc true 2 exprSecondStmt.Children = [] ∧
    hasExportDecl exprSecondStmt = false ∧
    exportStatement exprSrc [] exprSecondStmt =
      [{ Name := "default", Kind := ExportKind.ExportDefault, Line := 2 }] ∧
    exportStatement exprSrc [{ Name := "default", Kind := ExportKind.ExportDefault, Line := 1 }]
      exprSecondStmt = [{ Name := "default", Kind := ExportKind.ExportDefault, Line := 1 }] ∧
    extractExports exprSrc exprProgram =
      [{ Name := "default", Kind := ExportKind.ExportDefault, Line := 1 }] := by
  refine ⟨?_, ?_, ?_, ?_, ?_⟩ <;> decide

/-! ## The combined scanner and the end of a run -/

/-- C25: the combined scan succeeds exactly when the Go scan and the JS/TS scan
of the same root both succeed; it then returns the Go records followed by the
JS/TS records, so their number is the sum, every Go record tagged "go" and every
JS/TS record tagged "js"; when the Go scan fails the combined scan returns that
error and no records whatever the JS/TS scan would do, and when the Go scan
succeeds and the JS/TS scan fails it returns that error and no records. -/
theorem MultiScannerScan_both (E : Env) (cfg : Config) (numWorkers : Nat)
    (schedGo schedJs : List Event) (tree : Except String Entry) (root : String) :
    ((MultiScannerScan E cfg numWorkers schedGo schedJs tree root).2 = none ↔
      (GoScannerScan E cfg numWorkers schedGo tree root).2 = none ∧
        (TreeSitterScannerScan E cfg numWorkers schedJs tree root).2 = none) ∧
    ((MultiScannerScan E cfg numWorkers schedGo schedJs tree root).2 = none →
      (MultiScannerScan E cfg numWorkers schedGo schedJs tree root).1 =
          (GoScannerScan E cfg numWorkers schedGo tree root).1 ++
            (TreeSitterScannerScan E cfg numWorkers schedJs tree root).1 ∧
        (MultiScannerScan E cfg numWorkers schedGo schedJs tree root).1.length =
          (GoScannerScan E cfg numWorkers schedGo tree root).1.length +
            (TreeSitterScannerScan E cfg numWorkers schedJs tree root).1.length) ∧
    (∀ fi ∈ (GoScannerScan E cfg numWorkers schedGo tree root).1, fi.Lang = "go") ∧
    (∀ fi ∈ (TreeSitterScannerScan E cfg numWorkers schedJs tree root).1, fi.Lang = "js") ∧
    (∀ e, (GoScannerScan E cfg numWorkers schedGo tree root).2 = some e →
      ∀ schedJs2, MultiScannerScan E cfg numWorkers schedGo schedJs2 tree root =
        ([], some e)) ∧
    (∀ e, (GoScannerScan E cfg numWorkers schedGo tree root).2 = none →
      (TreeSitterScannerScan E cfg numWorkers schedJs tree root).2 = some e →
      MultiScannerScan E cfg numWorkers schedGo schedJs tree root = ([], some e)) := by
  refine ⟨?_, ?_, ?_, ?_, ?_, ?_⟩
  · unfold MultiScannerScan
    rcases hg : GoScannerScan E cfg numWorkers schedGo tree root with ⟨g, _ | eg⟩
    · rcases hj : TreeSitterScannerScan E cfg numWorkers schedJs tree root with ⟨j, _ | ej⟩ <;>
        simp
    · simp
  · intro hok
    obtain ⟨-, -, h⟩ := MultiScannerScan_ok E cfg numWorkers schedGo schedJs tree root hok
    exact ⟨h, by rw [h, List.length_append]⟩
  · intro fi hfi
    obtain ⟨p, -, hp⟩ := GoScannerScan_mem E cfg numWorkers schedGo tree root fi hfi
    exact (parseGoFile_record E root p fi hp).2.1
  · intro fi hfi
    obtain ⟨p, -, hp⟩ := TreeSitterScannerScan_mem E cfg numWorkers schedJs tree root fi hfi
    exact (parseFile_record E root p fi hp).2.1
  · intro e he schedJs2
    unfold MultiScannerScan
    rcases hg : GoScannerScan E cfg numWorkers schedGo tree root with ⟨g, _ | eg⟩
    · rw [hg] at he; cases he
    · rw [hg] at he
      cases he
      rfl
  · intro e hgo hjs
    unfold MultiScannerScan
    rcases hg : GoScannerScan E cfg numWorkers schedGo tree root with ⟨g, _ | eg⟩
    · rcases hj : TreeSitterScannerScan E cfg numWorkers schedJs tree root with ⟨j, _ | ej⟩
      · rw [hj] at hjs; cases hjs
      · rw [hj] at hjs
        cases hjs
        rfl
    · rw [hg] at hgo; cases hgo

theorem run_append (numWorkers : Nat) (parse : String → result) (pre post : List Event) :
    ∀ st st2 : Pipeline, stateAfter numWorkers parse pre st = some st2 →
      run numWorkers parse (pre ++ post) st = run numWorkers parse post st2 := by
  induction pre with
  | nil =>
    intro st st2 h
    simp only [stateAfter, Option.some.injEq] at h
    subst h
    rfl
  | cons ev rest ih =>
    intro st st2 h
    simp only [stateAfter] at h
    simp only [List.cons_append, run]
    cases hs : step numWorkers parse ev st with
    | done files err => simp [hs] at h
    | next st1 =>
      simp only [hs] at h ⊢
      exact ih st1 st2 h

/-- From whatever state the goroutines of `walkAndParse` have reached, every
continuation of the run ends in one of two ways: with the error of a result
that was still to reach the collector and no records, or, when none of those
results is an error, without error and with the records gathered so far
together with the record of every result still outstanding, so that every path
not yet pulled has been pulled and parsed and its record is in the output. -/
theorem walkAndParse_completes_remaining (numWorkers : Nat) (pre post : List Event)
    (tree : Except String Entry) (root : String) (skip : List String)
    (shouldInclude : String → FileInfo → Bool) (parse : parseFunc) (st : Pipeline)
    (h : stateAfter numWorkers (parse root) pre
      { paths := (filepathWalk root tree (walkerFunc skip shouldInclude)).1,
        walkErr := (filepathWalk root tree (walkerFunc skip shouldInclude)).2,
        pending := [], files := [] } = some st) :
    (∃ e, walkAndParse numWorkers (pre ++ post) tree root skip shouldInclude parse =
        ([], some e) ∧
      ∃ r ∈ outstanding (parse root) st, r.err = some e) ∨
    ((∀ r ∈ outstanding (parse root) st, r.err = none) ∧
      (walkAndParse numWorkers (pre ++ post) tree root skip shouldInclude parse).2 = none ∧
      (walkAndParse numWorkers (pre ++ post) tree root skip shouldInclude parse).1.Perm
        (st.files ++ (outstanding (parse root) st).filterMap fun r => r.fi) ∧
      ∀ p ∈ st.paths, ∀ fi, (parse root p).fi = some fi →
        fi ∈ (walkAndParse numWorkers (pre ++ post) tree root skip shouldInclude parse).1) := by
  have hrun : walkAndParse numWorkers (pre ++ post) tree root skip shouldInclude parse =
      run numWorkers (parse root) post st := by
    unfold walkAndParse
    exact run_append numWorkers (parse root) pre post _ st h
  rw [hrun]
  obtain ⟨σ, hσ, hc⟩ := run_eq_collect numWorkers (parse root) post st
  rw [hc]
  rcases collect_cases σ st.files with ⟨hall, hok⟩ | ⟨e, he, r, hr, hre⟩
  · right
    have hperm : (collect σ st.files).1.Perm
        (st.files ++ (outstanding (parse root) st).filterMap fun r => r.fi) := by
      rw [hok]
      exact (List.Perm.refl _).append (hσ.filterMap _)
    refine ⟨fun r hr => hall r (hσ.mem_iff.2 hr), by rw [hok], hperm, ?_⟩
    intro p hp fi hfi
    refine hperm.mem_iff.2 (List.mem_append_right _ ?_)
    rw [List.mem_filterMap]
    refine ⟨parse root p, ?_, hfi⟩
    unfold outstanding
    exact List.mem_append_left _ (List.mem_append_right _ (List.mem_map_of_mem _ hp))
  · left
    exact ⟨e, he, r, hσ.mem_iff.1 hr, hre⟩

/-! ## The renderer -/

theorem htmlFiles_files {R : RegexpLib} (cl : Classifier R) (results : List FileImports) :
    (htmlFiles cl results).map (fun f => f.File) = results.map fun r => r.File := by
  simp [htmlFiles, Function.comp_def]

/-- C28: `render.HTML` hands the file entries to the marshaller in the order
of the results slice. On the records of `TestHTML_DeterministicOrder` the
entries are `z/last.go`, `a/first.go`, `m/middle.go`, which is not ascending,
and after the swap of the test they are `m/middle.go`, `a/first.go`,
`z/last.go`: the two calls marshal different data. -/
theorem HTML_keeps_input_order {R : RegexpLib} (cl : Classifier R) :
    (∀ results, (htmlFiles cl results).map (fun f => f.File) = results.map fun r => r.File) ∧
    (∀ marshal execute css js root results,
      HTML marshal execute css js root results cl =
        (marshal (htmlFiles cl results)).bind fun data =>
          execute { DataJSON := data, Root := root, CSS := css, JS := js }) ∧
    (htmlFiles cl orderTestResults).map (fun f => f.File) =
      ["z/last.go", "a/first.go", "m/middle.go"] ∧
    (htmlFiles cl orderTestSwapped).map (fun f => f.File) =
      ["m/middle.go", "a/first.go", "z/last.go"] ∧
    ¬ ((htmlFiles cl orderTestResults).map fun f => f.File.data).Pairwise (· < ·) ∧
    htmlFiles cl orderTestResults ≠ htmlFiles cl orderTestSwapped := by
  have h1 : (htmlFiles cl orderTestResults).map (fun f => f.File) =
      ["z/last.go", "a/first.go", "m/middle.go"] := by
    rw [htmlFiles_files]; rfl
  have h2 : (htmlFiles cl orderTestSwapped).map (fun f => f.File) =
      ["m/middle.go", "a/first.go", "z/last.go"] := by
    rw [htmlFiles_files]; rfl
  refine ⟨htmlFiles_files cl, ?_, h1, h2, ?_, ?_⟩
  · intro marshal execute css js root results
    unfold HTML
    cases marshal (htmlFiles cl results) <;> rfl
  · have h3 : ((htmlFiles cl orderTestResults).map fun f => f.File.data) =
        ["z/last.go".data, "a/first.go".data, "m/middle.go".data] := by
      have := congrArg (List.map String.data) h1
      simpa [Function.comp_def] using this
    rw [h3]
    decide
  · intro h
    have := congrArg (List.map fun f => f.File) h
    rw [h1, h2] at this
    exact absurd this (by decide)

theorem classifyImports_paired {R : RegexpLib} (cl : Classifier R) (lang : String)
    (front back : List ImportDetail) :
    List.Forall₂
      (fun ci d => ci.Name = d.Path ∧ ci.Category = ClassifyWithLang cl d.Path lang ∧
        ci.Kind = some d.Kind ∧ ci.Names = d.Names ∧ ci.Alias = d.Alias ∧
        ci.Snippet = d.Snippet ∧ ci.Line = d.Line)
      (classifyImports cl lang (front ++ back) front.length (back.map fun d => d.Path))
      back := by
  induction back generalizing front with
  | nil => exact List.Forall₂.nil
  | cons d rest ih =>
    simp only [List.map_cons, classifyImports]
    have hget : (front ++ d :: rest)[front.length]? = some d := by
      rw [List.getElem?_append_right (le_refl _)]
      simp
    rw [hget]
    refine List.Forall₂.cons ⟨rfl, rfl, rfl, rfl, rfl, rfl, rfl⟩ ?_
    have := ih (front ++ [d])
    simpa using this

theorem goImportDetail_path (src : String) (imp : ImportSpec) :
    (goImportDetail src imp).Path = stringsTrim imp.PathValue "\"" := by
  unfold goImportDetail
  cases imp.Name <;> simp only [] <;> split_ifs <;> rfl

theorem importClauseLoop_path (src : String) (clause : Node) (isType : Bool)
    (modPath : String) (l : List Node) :
    (importClauseLoop src clause isType modPath l).Path = modPath := by
  induction l with
  | nil => rfl
  | cons c rest ih =>
    rw [importClauseLoop]
    split_ifs <;> first | rfl | exact ih

theorem extractDetail_path (src : String) (pathNode : NodeAt) (modPath : String) :
    (extractDetail src pathNode modPath).Path = modPath := by
  unfold extractDetail
  split
  · rfl
  · split_ifs
    · split
      · rfl
      · split_ifs
        · split
          · split_ifs <;> rfl
          · rfl
        · rfl
    · show (extractImportStatement src _ modPath).Path = modPath
      unfold extractImportStatement
      split
      · rfl
      · exact importClauseLoop_path _ _ _ _ _
    · show (extractExportStatement src _ modPath).Path = modPath
      unfold extractExportStatement
      split_ifs
      · rfl
      · split <;> rfl
    · rfl

theorem record_details_paths (E : Env) (root path : String) (fi : FileImports)
    (h : (parseGoFile E root path).fi = some fi ∨ (parseFile E root path).fi = some fi) :
    fi.Details.map (fun d => d.Path) = fi.Imports := by
  rcases h with h | h
  · unfold parseGoFile at h
    cases hr : E.ReadFile path with
    | error err => simp [hr] at h
    | ok src =>
      cases hp : E.ParseFile path src with
      | error err => simp [hr, hp] at h
      | ok file =>
        simp only [hr, hp] at h
        split at h
        · simp at h
        · simp only [Option.some.injEq] at h
          subst h
          simp [Function.comp_def, goImportDetail_path]
  · unfold parseFile at h
    cases hr : E.ReadFile path with
    | error err => simp [hr] at h
    | ok src =>
      cases hl : E.SetLanguage (languageForExt (filepathExt path)) with
      | some err => simp [hr, hl] at h
      | none =>
        cases hc : E.CaptureIndexForName (languageForExt (filepathExt path)) "path" with
        | none => simp [hr, hl, hc] at h
        | some pathIdx =>
          simp only [hr, hl, hc] at h
          split at h
          · simp at h
          · simp only [Option.some.injEq] at h
            subst h
            simp [Function.comp_def, extractDetail_path]

/-- C29: in every record returned by `parseGoFile` or by `parseFile` the
imports and the details have the same length and the path of the detail at each
index is the import at that index; so the classified imports that `HTML` builds
for the record pair each import with the kind, names, alias, snippet and line
of the detail of that same import. -/
theorem record_imports_details_paired {R : RegexpLib} (cl : Classifier R) (E : Env)
    (root path : String) (fi : FileImports)
    (h : (parseGoFile E root path).fi = some fi ∨ (parseFile E root path).fi = some fi) :
    fi.Imports.length = fi.Details.length ∧
    (∀ (i : Nat) (d : ImportDetail), fi.Details[i]? = some d → fi.Imports[i]? = some d.Path) ∧
    List.Forall₂
      (fun ci d => ci.Name = d.Path ∧ ci.Category = ClassifyWithLang cl d.Path fi.Lang ∧
        ci.Kind = some d.Kind ∧ ci.Names = d.Names ∧ ci.Alias = d.Alias ∧
        ci.Snippet = d.Snippet ∧ ci.Line = d.Line)
      (classifyImports cl fi.Lang fi.Details 0 fi.Imports) fi.Details := by
  have hp := record_details_paths E root path fi h
  refine ⟨?_, ?_, ?_⟩
  · rw [← hp, List.length_map]
  · intro i d hd
    rw [← hp, List.getElem?_map, hd]
    rfl
  · have := classifyImports_paired cl fi.Lang [] fi.Details
    rw [hp] at this
    simpa using this

/-- Witness of C29: the record of `r/a.go`, whose one import is `fmt`. -/
theorem record_imports_details_paired_witness :
    ∃ fi, (parseGoFile exampleEnv "r" "r/a.go").fi = some fi ∧
      fi.Imports.length = fi.Details.length ∧
      (∀ (i : Nat) (d : ImportDetail), fi.Details[i]? = some d → fi.Imports[i]? = some d.Path) ∧
      List.Forall₂
        (fun ci d => ci.Name = d.Path ∧
          ci.Category = ClassifyWithLang
            ({ lang := "go", internal := [], private_ := [] } : Classifier toyRegexp)
            d.Path fi.Lang ∧
          ci.Kind = some d.Kind ∧ ci.Names = d.Names ∧ ci.Alias = d.Alias ∧
          ci.Snippet = d.Snippet ∧ ci.Line = d.Line)
        (classifyImports ({ lang := "go", internal := [], private_ := [] } : Classifier toyRegexp)
          fi.Lang fi.Details 0 fi.Imports) fi.Details :=
  ⟨_, rfl, record_imports_details_paired _ exampleEnv "r" "r/a.go" _ (Or.inl rfl)⟩

/-! ## The configuration package -/

/-- C27: on a root without `.depviz.yml` whose `go.mod` is the one of
`TestE2E_MultiProject`, `Load` returns a configuration for "go" and for "js"
but the error `unsupported language: "multi"` for "multi", although "multi" is
a key of `supportedLangs` and a configuration with that language passes
`validate`; and so it is on every root without `.depviz.yml`. -/
theorem Load_multi_unsupported :
    "multi" ∈ supportedLangs ∧
    validate toyRegexp (projectEnv multiGoMod) { Language := "multi" } = none ∧
    (∃ cfg, Load toyRegexp (projectEnv multiGoMod) "proj" "go" = .ok cfg ∧
      cfg.Language = "go" ∧
      cfg.Classify.Internal = ["^github\\.com\\/test\\/multi/.*"]) ∧
    (∃ cfg, Load toyRegexp (projectEnv multiGoMod) "proj" "js" = .ok cfg ∧
      cfg.Language = "js") ∧
    Load toyRegexp (projectEnv multiGoMod) "proj" "multi" =
      .error "unsupported language: \"multi\"" ∧
    ∀ (R : RegexpLib) (E : ConfigEnv) (root : String) (err : FileError),
      E.ReadFile (filepathJoin root ".depviz.yml") = .error err → err.notExist = true →
      Load R E root "multi" = .error ("unsupported language: " ++ E.Quote "multi") := by
  refine ⟨by decide, by decide, ⟨_, rfl, rfl, by decide⟩, ⟨_, rfl, rfl⟩, rfl, ?_⟩
  intro R E root err hread hne
  unfold Load
  rw [hread]
  simp only [hne, if_true]
  rfl

theorem stringsHasPrefix_append (a b : String) : stringsHasPrefix (a ++ b) a = true := by
  unfold stringsHasPrefix
  rw [String.data_append, List.isPrefixOf_iff_prefix]
  exact List.prefix_append _ _

/-- C30 (amended): when `go.mod` gives the module path M and the default
pattern `^` escaped-M `/.*` compiles to an expression that matches exactly the
paths beginning with M followed by a slash, `DefaultFor` gives a Go
configuration, `New` builds a classifier from it, and that classifier puts
every import path M + "/" + rest under language "go" in the category internal
when the path contains a dot and in the category stdlib when it contains none. -/
theorem default_go_module_paths (R : RegexpLib) (E : ConfigEnv) (root M : String)
    (re : R.Regexp) (hmod : readModulePath E root = .ok M)
    (hcompile : R.Compile ("^" ++ regexpEscape M ++ "/.*") = .ok re)
    (hmatch : ∀ s, R.MatchString re s = stringsHasPrefix s (M ++ "/")) :
    ∃ cfg c, DefaultFor E "go" root = .ok cfg ∧ New R cfg = .ok c ∧
      ∀ rest, ClassifyWithLang c (M ++ "/" ++ rest) "go" =
        if stringsContains (M ++ "/" ++ rest) "." then Category.Internal
        else Category.Stdlib := by
  refine ⟨{ Language := "go", Exclude := ["vendor", ".git"],
            Classify := { Internal := ["^" ++ regexpEscape M ++ "/.*"] } },
    { lang := "go", internal := [re], private_ := [] }, ?_, ?_, ?_⟩
  · simp [DefaultFor, defaultGo, hmod]
  · simp [New, compileAll, hcompile]
  · intro rest
    have hm : R.MatchString re (M ++ "/" ++ rest) = true := by
      rw [hmatch]
      exact stringsHasPrefix_append _ _
    unfold ClassifyWithLang isStdlibFor
    cases hdot : stringsContains (M ++ "/" ++ rest) "." <;>
      simp [matchesAny, hm]

/-- Witness of C30: the module `github.com/test/multi` of the `go.mod` of
`TestE2E_MultiProject`, with the engine `literalRegexp`. -/
theorem default_go_module_paths_witness :
    ∃ cfg c, DefaultFor (projectEnv multiGoMod) "go" "proj" = .ok cfg ∧
      New literalRegexp cfg = .ok c ∧
      ∀ rest, ClassifyWithLang c ("github.com/test/multi" ++ "/" ++ rest) "go" =
        if stringsContains ("github.com/test/multi" ++ "/" ++ rest) "." then Category.Internal
        else Category.Stdlib :=
  default_go_module_paths literalRegexp (projectEnv multiGoMod) "proj" "github.com/test/multi"
    "github.com/test/multi/" rfl rfl (fun _ => rfl)

/-- Counterexample to C30 as worded: with the `go.mod` line `module myapp` the
module path is `myapp`, the default Go configuration has the one internal
pattern `^myapp/.*`, a classifier is built from it, and every such classifier
puts the import path `myapp/utils` in the category stdlib, not internal. -/
theorem module_without_dot_is_stdlib :
    readModulePath (projectEnv "module myapp\n") "proj" = .ok "myapp" ∧
    (∃ cfg c, DefaultFor (projectEnv "module myapp\n") "go" "proj" = .ok cfg ∧
      cfg.Classify.Internal = ["^myapp/.*"] ∧ New literalRegexp cfg = .ok c ∧
      matchesAny literalRegexp ("myapp" ++ "/" ++ "utils") c.internal = true) ∧
    ∀ (R : RegexpLib) (cfg : Config) (c : Classifier R),
      DefaultFor (projectEnv "module myapp\n") "go" "proj" = .ok cfg → New R cfg = .ok c →
      ClassifyWithLang c ("myapp" ++ "/" ++ "utils") "go" = Category.Stdlib ∧
        Category.Stdlib ≠ Category.Internal := by
  refine ⟨rfl, ⟨_, _, rfl, by decide, rfl, by decide⟩, ?_⟩
  intro R cfg c _ _
  refine ⟨?_, by decide⟩
  unfold ClassifyWithLang
  have : isStdlibFor ("myapp" ++ "/" ++ "utils") "go" = true := by decide
  rw [this]
  rfl

end Depviz
